import Mathlib

/-!
CleanTrail background script: a shallow embedding.

The definitions below embed `src/background-scripts-public.js`.

* JavaScript strings are Lean strings, handled through their character lists.
* Objects used as maps are association lists in `Object.keys` order.
* Asynchronous handlers are modelled by the function from the state they read
  to the side effects they request; platform APIs (`new URL`, `Date.now`,
  `chrome.cookies.getAll`, `Math.exp`) are parameters.
* The rule engine is a parameter of the rule set manager; where a concrete
  engine is needed it is `chromeUpdateDynamicRules`, the documented behaviour
  of `declarativeNetRequest.updateDynamicRules`.
* Time in the debounce of the score publication is a natural number of
  milliseconds, and a timeout runs, as one step, at its due time.
* Numbers of the scoring code are elements of a linearly ordered field
  (exact arithmetic); `gradeFromStats64` is `gradeFromStats` with every
  product and difference rounded to binary64, on rationals.  Counters and
  timestamps of the tracker bookkeeping are natural numbers.
* A lookup `obj[name]` on a stored plain object sees the own keys first and
  then the names inherited from `Object.prototype` (`trustedLookup`).
-/

namespace CleanTrail

/-! ## String helpers -/

/-- JavaScript `s.startsWith(p)`. -/
def startsWith (s p : String) : Bool :=
  p.toList.isPrefixOf s.toList

/-- Substring test on character lists, the body of `includes`. -/
def includesChars : List Char → List Char → Bool
  | [], needle => needle.isEmpty
  | c :: hay, needle => needle.isPrefixOf (c :: hay) || includesChars hay needle

/-- JavaScript `s.includes(t)`. -/
def includes (s t : String) : Bool :=
  includesChars s.toList t.toList

/-- JavaScript `s.toLowerCase()`, restricted to the ASCII letters. -/
def toLowerCase (s : String) : String :=
  String.mk (s.toList.map Char.toLower)

/-- Source `stripDot` (lines 14-17): drop one leading dot. -/
def stripDot (domain : String) : String :=
  if domain = "" then domain
  else if startsWith domain "." then String.mk (domain.toList.drop 1) else domain

/-! ## Cookie categories (lines 39-53) -/

/-- The built-in `cookieCategoryMap` (line 39), in key order. -/
def defaultCookieCategoryMap : List (String × String) :=
  [("session", "necessary"), ("sid", "necessary"), ("track", "analytics")]

/-- Source `getCookieCategory` (lines 47-53); the global `cookieCategoryMap`
is the first argument, as the list of its entries in `Object.keys` order. -/
def getCookieCategory (cookieCategoryMap : List (String × String)) (name : String) : String :=
  let key := toLowerCase name
  match cookieCategoryMap.find? (fun e => includes key (toLowerCase e.1)) with
  | some e => e.2
  | none => "uncategorized"

/-! ## Store, profiles and whitelist helpers -/

/-- A browser cookie, with the fields the script reads. -/
structure Cookie where
  domain : String
  name : String
  secure : Bool
  path : String
  deriving DecidableEq, Repr

/-- A cleanup profile: the five boolean facets (lines 31-36). -/
structure Profile where
  deleteCookies : Bool
  clearCache : Bool
  deleteLocalStorage : Bool
  deleteSessionStorage : Bool
  deleteIndexedDB : Bool
  deriving DecidableEq, Repr

/-- The table `profiles` (lines 31-36). -/
def profiles : List (String × Profile) :=
  [("strict", ⟨true, true, true, true, true⟩),
   ("balanced", ⟨true, true, false, false, false⟩),
   ("relaxed", ⟨false, false, false, false, false⟩),
   ("paranoid", ⟨true, true, true, true, true⟩)]

/-- The object `{}` read as a profile: every facet is falsy. -/
def emptyProfile : Profile := ⟨false, false, false, false, false⟩

/-- The stored `customProConfig`: each facet may be absent. -/
structure CustomProConfig where
  deleteCookies : Option Bool
  clearCache : Option Bool
  deleteLocalStorage : Option Bool
  deleteSessionStorage : Option Bool
  deleteIndexedDB : Option Bool
  deriving DecidableEq, Repr

/-- The spread `{...profile, ...customProConfig}` (lines 421, 465). -/
def mergeProfile (p : Profile) (c : CustomProConfig) : Profile :=
  { deleteCookies := c.deleteCookies.getD p.deleteCookies
    clearCache := c.clearCache.getD p.clearCache
    deleteLocalStorage := c.deleteLocalStorage.getD p.deleteLocalStorage
    deleteSessionStorage := c.deleteSessionStorage.getD p.deleteSessionStorage
    deleteIndexedDB := c.deleteIndexedDB.getD p.deleteIndexedDB }

/-- The keys of `chrome.storage.local` that the cleanup handlers read.  The
stored object `trustedSites` is given by its own keys: `trustedSites` lists
those with a truthy value, `trustedSitesFalsy` those with a falsy value. -/
structure Store where
  pauseCleanup : Bool
  tabUrls : List (Nat × String)
  cookieWhitelist : List String
  trustedSites : List String
  activeProfile : Option String
  customProConfig : CustomProConfig
  autoCookieDeletionEnabled : Bool
  profileSource : Option String := none
  adaptiveProfiles : Option Bool := none
  trustedSitesFalsy : List String := []
  deriving Repr

/-- The property names a plain object inherits from `Object.prototype`; each
reads as a truthy value (a function, or the prototype object for
`__proto__`). -/
def objectPrototypeKeys : List String :=
  ["constructor", "__proto__", "hasOwnProperty", "isPrototypeOf", "propertyIsEnumerable",
   "toLocaleString", "toString", "valueOf", "__defineGetter__", "__defineSetter__",
   "__lookupGetter__", "__lookupSetter__"]

/-- The read `!!trustedSites[host]` (lines 60 and 74) on the stored plain
object, `{}` when the key is absent: an own key gives its own value, any other
name is looked up on `Object.prototype`. -/
def trustedLookup (s : Store) (host : String) : Bool :=
  s.trustedSites.contains host ||
    (!s.trustedSitesFalsy.contains host && objectPrototypeKeys.contains host)

/-- Source `getActiveProfile` (line 352): `s.activeProfile || 'balanced'`. -/
def getActiveProfile (s : Store) : String :=
  match s.activeProfile with
  | some k => if k = "" then "balanced" else k
  | none => "balanced"

/-- Profile resolution shared by both cleanup handlers (lines 417-422 and
461-466). -/
def resolveProfile (s : Store) : Profile :=
  let profileKey := getActiveProfile s
  let profile := (profiles.lookup profileKey).getD emptyProfile
  if profileKey = "custom_pro" then mergeProfile profile s.customProConfig else profile

/-- Source `shouldSkipCookieCleanup` (lines 63-69). -/
def shouldSkipCookieCleanup (s : Store) (host : String) : Bool :=
  s.cookieWhitelist.any (fun k => startsWith k (host ++ "|") || k == host)

/-- Source `shouldSkipCacheCleanup` (lines 70-76). -/
def shouldSkipCacheCleanup (s : Store) (host : String) : Bool :=
  trustedLookup s host

/-- The filter that builds `toDelete` (lines 427-431 and 480-484). -/
def toDelete (cookieCategoryMap : List (String × String)) (cookieWhitelist : List String)
    (siteCookies : List Cookie) : List Cookie :=
  siteCookies.filter (fun c =>
    let key := stripDot c.domain ++ "|" ++ c.name
    let cat := getCookieCategory cookieCategoryMap c.name
    !cookieWhitelist.contains key && cat != "necessary")

/-- The cookies of the page: `allCookies.filter(c => stripDot(c.domain) === hostname)`. -/
def siteCookiesOf (allCookies : List Cookie) (hostname : String) : List Cookie :=
  allCookies.filter (fun c => stripDot c.domain == hostname)

/-! ## Tab removal (lines 445-515) -/

/-- Arguments passed to `content-cleanup.js` (line 473). -/
structure InjectionArgs where
  deleteLocalStorage : Bool
  deleteSessionStorage : Bool
  deleteIndexedDB : Bool
  deriving DecidableEq, Repr

/-- Side effects requested by one run of the `tabs.onRemoved` listener. -/
structure RemovalOutcome where
  tabUrlsWritten : Option (List (Nat × String))
  injection : Option InjectionArgs
  cookieBatch : Option (List Cookie)
  cacheOrigins : Option (List String)
  deriving Repr

/-- The outcome of a run that returns before any effect. -/
def RemovalOutcome.nothing : RemovalOutcome := ⟨none, none, none, none⟩

/-- The `chrome.tabs.onRemoved` listener (lines 445-515).  `parseHost` is
`new URL(url).hostname` (`none` when it throws) and `getAll` is
`chrome.cookies.getAll` by domain. -/
def onRemoved (parseHost : String → Option String) (getAll : String → List Cookie)
    (cookieCategoryMap : List (String × String)) (s : Store) (tabId : Nat) : RemovalOutcome :=
  if s.pauseCleanup then RemovalOutcome.nothing
  else
    let tabUrls := s.tabUrls.filter (fun e => e.1 != tabId)
    let written : RemovalOutcome := ⟨some tabUrls, none, none, none⟩
    match s.tabUrls.lookup tabId with
    | none => written
    | some url =>
      if url = "" then written
      else
        match parseHost url with
        | none => written
        | some hostname =>
          let skipCookies := shouldSkipCookieCleanup s hostname
          let skipCache := shouldSkipCacheCleanup s hostname
          if skipCookies && skipCache then written
          else
            let siteCookies := siteCookiesOf (getAll hostname) hostname
            let profile := resolveProfile s
            { tabUrlsWritten := some tabUrls
              injection :=
                if profile.deleteLocalStorage || profile.deleteSessionStorage
                    || profile.deleteIndexedDB then
                  some ⟨profile.deleteLocalStorage, profile.deleteSessionStorage,
                    profile.deleteIndexedDB⟩
                else none
              cookieBatch :=
                if profile.deleteCookies && !skipCookies then
                  some (toDelete cookieCategoryMap s.cookieWhitelist siteCookies)
                else none
              cacheOrigins :=
                if profile.clearCache && !skipCache then
                  some ["https://" ++ hostname, "http://" ++ hostname]
                else none }

/-! ## Auto-delete on navigation (lines 400-442) -/

/-- The `tab` argument of `tabs.onUpdated`. -/
structure TabInfo where
  url : Option String
  active : Bool
  deriving Repr

/-- The test `/^https?:/.test(String(url))`. -/
def isHttpUrl (url : String) : Bool :=
  startsWith url "http:" || startsWith url "https:"

/-- The expression `changeInfo.url || tab && tab.url`, `none` when falsy. -/
def navigationUrl (changeInfoUrl : Option String) (tab : Option TabInfo) : Option String :=
  match changeInfoUrl with
  | some u => if u = "" then (tab.bind (fun t => t.url)) else some u
  | none => tab.bind (fun t => t.url)

/-- Side effects requested by one run of the auto-delete listener: the
`pendingCookies` written on line 415 and the batch handed to `deleteCookie`. -/
structure AutoDeleteOutcome where
  pendingCookies : Option Nat
  cookieBatch : Option (List Cookie)
  deriving Repr

/-- The second `chrome.tabs.onUpdated` listener (lines 400-442). -/
def onUpdatedAutoDelete (parseHost : String → Option String) (getAll : String → List Cookie)
    (cookieCategoryMap : List (String × String)) (s : Store)
    (changeInfoUrl : Option String) (tab : Option TabInfo) : AutoDeleteOutcome :=
  match navigationUrl changeInfoUrl tab, tab with
  | some url, some t =>
    if url = "" || !isHttpUrl url || !t.active then ⟨none, none⟩
    else
      match parseHost url with
      | none => ⟨none, none⟩
      | some hostname =>
        let skipCookies := shouldSkipCookieCleanup s hostname
        let skipCache := shouldSkipCacheCleanup s hostname
        if s.pauseCleanup then ⟨none, none⟩
        else if skipCookies && skipCache then ⟨none, none⟩
        else
          let siteCookies := siteCookiesOf (getAll hostname) hostname
          { pendingCookies := some siteCookies.length
            cookieBatch :=
              if s.autoCookieDeletionEnabled && !skipCookies then
                some (toDelete cookieCategoryMap s.cookieWhitelist siteCookies)
              else none }
  | _, _ => ⟨none, none⟩

/-! ## Privacy score (lines 193-222) -/

/-- One entry of `siteStats`; an absent numeric field reads as `0`
(`s.cookies||0`), and `lastSeenTime` is the alias read on line 197. -/
structure SiteStat (α : Type) where
  cookies : α
  cache : α
  trackers : α
  fingerprints : α
  lastSeen : α
  lastSeenTime : α

/-- The result of `computeAggregateStats`. -/
structure AggregateStats (α : Type) where
  cookies : α
  cache : α
  trackers : α
  fingerprints : α

/-- The local `lastSeen` of line 197: `Number(s.lastSeen||s.lastSeenTime||0)`. -/
def lastSeenOf {α : Type} [LinearOrderedField α] (s : SiteStat α) : α :=
  if s.lastSeen ≠ 0 then s.lastSeen else if s.lastSeenTime ≠ 0 then s.lastSeenTime else 0

/-- Lines 199-200: `Math.exp(-Math.max(0, now - lastSeen) / halfLifeMs)`, with
`Math.exp` as the parameter `exp`. -/
def decayWeight {α : Type} [LinearOrderedField α] (exp : α → α) (now halfLifeMs lastSeen : α) : α :=
  let age := max 0 (now - lastSeen)
  exp (-age / halfLifeMs)

/-- One iteration of the loop of `computeAggregateStats` (lines 197-204). -/
def aggregateStep {α : Type} [LinearOrderedField α] (exp : α → α) (now halfLifeMs : α)
    (acc : AggregateStats α) (s : SiteStat α) : AggregateStats α :=
  let lastSeen := lastSeenOf s
  if lastSeen = 0 then acc
  else
    let weight := decayWeight exp now halfLifeMs lastSeen
    { cookies := acc.cookies + s.cookies * weight
      cache := acc.cache + s.cache * weight
      trackers := acc.trackers + s.trackers * weight
      fingerprints := acc.fingerprints + s.fingerprints * weight }

/-- Source `computeAggregateStats` (lines 194-207): a left-to-right loop over
`Object.values(siteStats)` with four accumulators starting at `0`. -/
def computeAggregateStats {α : Type} [LinearOrderedField α] (exp : α → α)
    (siteStats : List (String × SiteStat α)) (now halfLifeMs : α) : AggregateStats α :=
  (siteStats.map Prod.snd).foldl (aggregateStep exp now halfLifeMs) ⟨0, 0, 0, 0⟩

/-- The sum that the text of the specification describes for one component
`raw`, with `seen` the time stamp taken from a site: over the sites with a
non-zero time stamp, `raw * exp(-max(0, now - seen) / halfLife)`. -/
def decayedSum {α : Type} [LinearOrderedField α] (exp : α → α) (now halfLife : α)
    (seen raw : SiteStat α → α) (siteStats : List (String × SiteStat α)) : α :=
  (((siteStats.map Prod.snd).filter (fun s => seen s ≠ 0)).map
    (fun s => raw s * exp (-(max 0 (now - seen s)) / halfLife))).sum

/-- The destructured parameter of `gradeFromStats`: each component may be
missing. -/
structure GradeInput (α : Type) where
  cookies : Option α
  cache : Option α
  trackers : Option α
  fingerprints : Option α

/-- An aggregate passed to `gradeFromStats`, all four components present. -/
def AggregateStats.toInput {α : Type} (a : AggregateStats α) : GradeInput α :=
  ⟨some a.cookies, some a.cache, some a.trackers, some a.fingerprints⟩

/-- Source `gradeFromStats` (lines 208-215), in the exact arithmetic of an
ordered field; `gradeFromStats64` below is the same code with the binary64
rounding of every operation. -/
def gradeFromStats {α : Type} [LinearOrderedField α] (a : GradeInput α) : α :=
  let cookies := a.cookies.getD 0
  let cache := a.cache.getD 0
  let trackers := a.trackers.getD 0
  let fingerprints := a.fingerprints.getD 0
  let score : α := 100
  let score := score - cookies * 0.05
  let score := score - cache * 0.01
  let score := score - trackers * 0.02
  let score := score - fingerprints * 0.5
  max 0 score

/-- Source `letterFromScore` (lines 216-222). -/
def letterFromScore {α : Type} [LinearOrderedField α] (score : α) : String :=
  if score > 90 then "A+"
  else if score > 80 then "A"
  else if score > 70 then "B"
  else if score > 60 then "C"
  else "D"

/-- Rounding to the nearest integer, a tie going to the even neighbour. -/
def roundHalfEven (y : ℚ) : ℤ :=
  let f := Int.floor y
  let r := y - f
  if r < 1 / 2 then f
  else if 1 / 2 < r then f + 1
  else if f % 2 = 0 then f
  else f + 1

/-- The binary64 number nearest to the rational `x`, ties to even: a multiple
of `2 ^ q` where `q` is 52 below the binary exponent of `x`, and never below
`-1074` (subnormal range).  The exponent is not bounded above here: a result
beyond the largest finite binary64 number is returned instead of `Infinity`. -/
def binary64 (x : ℚ) : ℚ :=
  if x = 0 then 0
  else
    let e := Int.log 2 |x|
    let q := max (e - 52) (-1074)
    (roundHalfEven (x / (2 : ℚ) ^ q) : ℚ) * (2 : ℚ) ^ q

/-- Source `gradeFromStats` (lines 208-215) in binary64 arithmetic: the
literals `0.05`, `0.01`, `0.02`, `0.5` are binary64 numbers, and every product
and every difference is rounded. -/
def gradeFromStats64 (a : GradeInput ℚ) : ℚ :=
  let cookies := a.cookies.getD 0
  let cache := a.cache.getD 0
  let trackers := a.trackers.getD 0
  let fingerprints := a.fingerprints.getD 0
  let score : ℚ := 100
  let score := binary64 (score - binary64 (cookies * binary64 0.05))
  let score := binary64 (score - binary64 (cache * binary64 0.01))
  let score := binary64 (score - binary64 (trackers * binary64 0.02))
  let score := binary64 (score - binary64 (fingerprints * binary64 0.5))
  max 0 score

/-- The largest finite binary64 number, `2 ^ 1024 - 2 ^ 971`. -/
def maxBinary64 : ℚ := 2 ^ 1024 - 2 ^ 971

/-! ## Tracker bookkeeping (lines 107-190, 530-543) -/

/-- JavaScript `s.split(c)` for a one-character separator, on character lists. -/
def splitOnChar (sep : Char) : List Char → List (List Char)
  | [] => [[]]
  | c :: cs =>
    if c = sep then [] :: splitOnChar sep cs
    else
      match splitOnChar sep cs with
      | [] => [[c]]
      | w :: ws => (c :: w) :: ws

/-- The expression `hostname.split('.').slice(-2).join('.')` (lines 126, 148,
172). -/
def hostBaseOf (hostname : String) : String :=
  let labels := splitOnChar '.' hostname.toList
  String.mk (List.intercalate ['.'] (labels.drop (labels.length - 2)))

/-- A value of `blockedTrackers`. -/
structure TrackerRecord where
  count : Nat
  firstBlocked : Nat
  lastSeen : Nat
  totalTimeSavedMs : Nat
  category : Option String
  deriving DecidableEq, Repr

/-- The `categories` field of a pending record: a `Set` when the record was
created in memory (lines 149, 520), an `Array` when it was read back from the
store, where `persistPending` writes `Array.from(...)` (line 187). -/
inductive Categories where
  | set (items : List String)
  | array (items : List String)
  deriving DecidableEq, Repr

/-- The elements, as `Array.from(v.categories)` lists them. -/
def Categories.items : Categories → List String
  | .set xs => xs
  | .array xs => xs

/-- A value of `pendingTrackers`. -/
structure PendingTrackerRecord where
  count : Nat
  firstSeen : Nat
  lastSeen : Nat
  categories : Categories
  deriving DecidableEq, Repr

/-- The `forEach(c => p.categories.add(c))` of line 152.  A `Set` gains the
elements it lacks, in order; on an `Array` the first call throws a TypeError
(`add` is not a function), rendered as `none`. -/
def Categories.addAll : Categories → List String → Option Categories
  | .set xs, cs => some (.set (cs.foldl (fun acc c => if c ∈ acc then acc else acc ++ [c]) xs))
  | .array xs, [] => some (.array xs)
  | .array _, _ :: _ => none

/-- Assignment `m[k] = v` on an object used as a map (keys are unique):
replace the value in place, or append a new key. -/
def assign {β : Type} : List (String × β) → String → β → List (String × β)
  | [], k, v => [(k, v)]
  | e :: m, k, v => if e.1 = k then (k, v) :: m else e :: assign m k v

/-- The in-memory globals of lines 21-23 together with the two store keys the
tracker code writes. -/
structure Runtime where
  blockedTrackers : List (String × TrackerRecord)
  pendingTrackers : List (String × PendingTrackerRecord)
  activeBlockedDomains : List String
  storedBlocked : Option (List (String × TrackerRecord))
  storedPending : Option (List (String × PendingTrackerRecord))
  deriving DecidableEq, Repr

/-- Source `persistBlockedTrackersNow` (lines 110-118). -/
def persistBlockedTrackersNow (rt : Runtime) : Runtime :=
  { rt with storedBlocked := some rt.blockedTrackers }

/-- Source `persistPending` (lines 184-190): categories are stored as arrays. -/
def persistPending (rt : Runtime) : Runtime :=
  let copy := rt.pendingTrackers.map (fun e =>
    (e.1, PendingTrackerRecord.mk e.2.count e.2.firstSeen e.2.lastSeen (.array e.2.categories.items)))
  { rt with storedPending := some copy }

/-- Source `handleDnrMatch` (lines 121-137); every `Date.now()` of one
synchronous run reads `now`.  The diagnostic buffer of `ctPushDnr` and the
badge timer of `updatePrivacyBadge` are separate state and cannot interrupt
the run (each call sits in its own `try`). -/
def handleDnrMatch (parseHost : String → Option String) (now : Nat) (rt : Runtime)
    (url : String) : Runtime :=
  if url = "" then rt
  else
    match parseHost url with
    | none => rt
    | some hostname =>
      if hostname = "" then rt
      else
        let hostBase := hostBaseOf hostname
        let b := (rt.blockedTrackers.lookup hostBase).getD ⟨0, 0, 0, 0, none⟩
        let b := if b.firstBlocked = 0 then { b with firstBlocked := now } else b
        let b := { b with count := b.count + 1 }
        let b := { b with lastSeen := now }
        let b := { b with totalTimeSavedMs := b.totalTimeSavedMs + 50 }
        persistBlockedTrackersNow { rt with blockedTrackers := assign rt.blockedTrackers hostBase b }

/-- A rule-match event: `info.request.url`, `info.categories`, `info.rule.id`. -/
structure MatchInfo where
  url : Option String
  categories : Option (List String)
  ruleId : Option Nat
  deriving Repr

/-- The `onRuleMatchedDebug` listener (lines 143-162).  An exception leaves the
mutations made before it and skips the rest of the body (the listener's own
`try`/`catch`). -/
def onRuleMatchedDebug (parseHost : String → Option String) (now : Nat) (rt : Runtime)
    (info : MatchInfo) : Runtime :=
  match info.url with
  | none => rt
  | some url =>
    if url = "" then rt
    else
      match parseHost url with
      | none => rt
      | some host =>
        let hostBase := hostBaseOf host
        let p := (rt.pendingTrackers.lookup hostBase).getD ⟨0, now, 0, .set []⟩
        let p := { p with count := p.count + 1, lastSeen := now }
        match p.categories.addAll (info.categories.getD ["tracking"]) with
        | none => { rt with pendingTrackers := assign rt.pendingTrackers hostBase p }
        | some cats =>
          let rt := { rt with
            pendingTrackers := assign rt.pendingTrackers hostBase { p with categories := cats } }
          let rt := persistPending rt
          let rt :=
            if rt.activeBlockedDomains.contains hostBase then
              let b := (rt.blockedTrackers.lookup hostBase).getD ⟨0, now, now, 0, none⟩
              persistBlockedTrackersNow
                { rt with blockedTrackers := assign rt.blockedTrackers hostBase { b with count := b.count + 1 } }
            else rt
          handleDnrMatch parseHost now rt url

/-- The fallback `webRequest.onBeforeRequest` listener (lines 168-178). -/
def onBeforeRequest (parseHost : String → Option String) (now : Nat) (rt : Runtime)
    (url : Option String) : Runtime :=
  match url with
  | none => rt
  | some url =>
    if url = "" then rt
    else
      match parseHost url with
      | none => rt
      | some host =>
        if rt.activeBlockedDomains.contains (hostBaseOf host) then handleDnrMatch parseHost now rt url
        else rt

/-- The reload at the end of `initPublicBackground` (lines 537-539):
`blockedTrackers = st.blockedTrackers || blockedTrackers`, likewise for
`pendingTrackers`. -/
def loadTrackerState (rt : Runtime) : Runtime :=
  { rt with
    blockedTrackers := rt.storedBlocked.getD rt.blockedTrackers
    pendingTrackers := rt.storedPending.getD rt.pendingTrackers }

/-- The globals as the script declares them (lines 21-23), with the given
enforced set and an empty store. -/
def freshRuntime (activeBlockedDomains : List String) : Runtime :=
  ⟨[], [], activeBlockedDomains, none, none⟩

/-- The `count` of a domain in a tracker map, `0` when it has no record. -/
def blockedCount (rt : Runtime) (d : String) : Nat :=
  ((rt.blockedTrackers.lookup d).map (fun b => b.count)).getD 0

/-- The `count` of a domain in the pending map, `0` when it has no record. -/
def pendingCount (rt : Runtime) (d : String) : Nat :=
  ((rt.pendingTrackers.lookup d).map (fun p => p.count)).getD 0

/-- A stand-in for `new URL(url).hostname` on URLs of the shape
`http(s)://host[:port][/path][?query][#fragment]` with a lower-case ASCII
host: the characters after the scheme up to the first of `/ ? # :`. -/
def simpleUrlHostname (url : String) : Option String :=
  let cs := url.toList
  let rest : Option (List Char) :=
    if "https://".toList.isPrefixOf cs then some (cs.drop 8)
    else if "http://".toList.isPrefixOf cs then some (cs.drop 7)
    else none
  rest.map (fun r => String.mk (r.takeWhile (fun c => c != '/' && c != '?' && c != '#' && c != ':')))

/-! ## Rule set manager (lines 79-105, 345) -/

/-- A dynamic block rule as built on lines 86-91: only `id` and the domain
inside `urlFilter` differ between rules. -/
structure Rule where
  id : Nat
  domain : String
  deriving DecidableEq, Repr

/-- The argument of one `updateDynamicRules` call; an absent `removeRuleIds`
is the empty list. -/
structure RuleUpdate where
  removeRuleIds : List Nat
  addRules : List Rule
  deriving DecidableEq, Repr

/-- The rule engine as the script sees it: from the installed dynamic rules
and one update to the new installed rules, or `none` when the call rejects. -/
abbrev EngineUpdate := List Rule → RuleUpdate → Option (List Rule)

/-- Chrome's `declarativeNetRequest.updateDynamicRules` as documented: the
rules listed in `removeRuleIds` are removed first, then `addRules` are added,
in one atomic step; the call rejects, changing nothing, when a rule id would
not be unique. -/
def chromeUpdateDynamicRules : EngineUpdate := fun installed u =>
  let next := installed.filter (fun r => !u.removeRuleIds.contains r.id) ++ u.addRules
  if (next.map Rule.id).Nodup then some next else none

/-- The expression `Array.from({length:10000},(_,i)=>100000+i)` (lines 96,
103, 345). -/
def reservedRuleIds : List Nat :=
  (List.range 10000).map (fun i => 100000 + i)

/-- The rules `domains.map((domain,i) => ({ id: base + i, ... }))`. -/
def rulesFrom (base : Nat) : List String → List Rule
  | [] => []
  | d :: ds => ⟨base, d⟩ :: rulesFrom (base + 1) ds

/-- The rule manager's state: the engine's dynamic rules, the global
`activeBlockedDomains`, the global `trackerBlockingEnabled`, and the calls
issued to the engine so far, oldest first. -/
structure RuleState where
  installed : List Rule
  activeBlockedDomains : List String
  trackerBlockingEnabled : Bool
  calls : List RuleUpdate
  deriving DecidableEq, Repr

/-- The teardown of lines 96-97, 102-103 and 345: remove the reserved ids
(a rejection is swallowed) and clear the enforced set. -/
def clearRules (update : EngineUpdate) (st : RuleState) : RuleState :=
  let call : RuleUpdate := ⟨reservedRuleIds, []⟩
  { st with
    installed := (update st.installed call).getD st.installed
    activeBlockedDomains := []
    calls := st.calls ++ [call] }

/-- Source `loadApprovedRules` (lines 79-105).  `bundle` is
`Object.keys(approved)` of the fetched `bundled-rules.json`, or `none` when
the fetch or the parse fails. -/
def loadApprovedRules (update : EngineUpdate) (bundle : Option (List String))
    (st : RuleState) : RuleState :=
  match bundle with
  | some domains =>
    let addRules := rulesFrom 100000 domains
    if addRules.length ≠ 0 then
      let call : RuleUpdate := ⟨[], addRules⟩
      match update st.installed call with
      | some next =>
        { st with installed := next, activeBlockedDomains := domains, calls := st.calls ++ [call] }
      | none => { st with calls := st.calls ++ [call] }
    else clearRules update st
  | none => clearRules update st

/-- The `setTrackerBlocking` message (line 345). -/
def setTrackerBlocking (update : EngineUpdate) (bundle : Option (List String)) (enabled : Bool)
    (st : RuleState) : RuleState :=
  let st := { st with trackerBlockingEnabled := enabled }
  if enabled then loadApprovedRules update bundle st else clearRules update st

/-- The manager before its first reconciliation on a fresh installation: no
dynamic rule, globals as declared on lines 23 and 28. -/
def freshRuleState : RuleState := ⟨[], [], true, []⟩

/-- Successive reconciliations, oldest first. -/
def reconcileAll (update : EngineUpdate) (bundles : List (Option (List String)))
    (st : RuleState) : RuleState :=
  bundles.foldl (fun s b => loadApprovedRules update b s) st

/-! ## Deletion history (lines 315-325, 434-437, 487-490, 499-506) -/


/-- One entry of `deletionHistory`; a field an entry does not carry is `none`. -/
structure DeletionHistoryEntry where
  hostname : String
  time : String
  cookiesDeleted : Option Nat
  cacheCleared : Bool
  cacheEstimateMB : Option ℚ
  deriving DecidableEq, Repr

/-- The expression `[entry, ...deletionHistory].slice(0,20)` of lines 324,
437, 490 and 506. -/
def pushHistory (entry : DeletionHistoryEntry) (deletionHistory : List DeletionHistoryEntry) :
    List DeletionHistoryEntry :=
  (entry :: deletionHistory).take 20

/-- The four places that write `deletionHistory`, each with the values its
handler has computed: `handleManualClear` (line 317), the auto-delete listener
(line 437), and the cookie and cache branches of the tab-removal listener
(lines 490 and 506). -/
inductive HistoryWrite where
  | manualClear (time : String) (deletedCookies : Nat) (clearedMB : ℚ)
  | autoDelete (hostname time : String) (deletedCount : Nat) (clearCache : Bool)
  | removalCookies (hostname time : String) (deletedCount : Nat)
  | removalCache (hostname time : String) (clearedMB : ℚ)
  deriving DecidableEq, Repr

/-- The entry each handler builds. -/
def HistoryWrite.entry : HistoryWrite → DeletionHistoryEntry
  | .manualClear time deletedCookies clearedMB =>
    ⟨"Manual cleanup", time, some deletedCookies, true, some clearedMB⟩
  | .autoDelete hostname time deletedCount clearCache =>
    ⟨hostname, time, some deletedCount, clearCache, none⟩
  | .removalCookies hostname time deletedCount =>
    ⟨hostname, time, some deletedCount, false, none⟩
  | .removalCache hostname time clearedMB =>
    ⟨hostname, time, none, true, some clearedMB⟩

/-- The stored history after one write: the handler reads `deletionHistory`
and stores `pushHistory` of its entry. -/
def writeHistory (deletionHistory : List DeletionHistoryEntry) (w : HistoryWrite) :
    List DeletionHistoryEntry :=
  pushHistory w.entry deletionHistory

/-- The stored history after the given writes, oldest first, starting from an
absent or empty `deletionHistory`. -/
def historyAfter (writes : List HistoryWrite) : List DeletionHistoryEntry :=
  writes.foldl writeHistory []

/-! ## Adaptive profile (lines 56-62, 352-354) -/

/-- JavaScript `s.endsWith(t)`. -/
def endsWith (s t : String) : Bool :=
  t.toList.isSuffixOf s.toList

/-- Source `isTrustedDomain` (lines 56-62). -/
def isTrustedDomain (s : Store) (hostBase : String) : Bool :=
  trustedLookup s hostBase

/-- A store after a profile change, with the `profileUpdate` messages
broadcast on the way. -/
structure ProfileOutcome where
  store : Store
  profileUpdates : List String
  deriving Repr

/-- Source `setActiveProfile` (line 353). -/
def setActiveProfile (s : Store) (profileKey source : String) : ProfileOutcome :=
  let profileKey := if (profiles.lookup profileKey).isNone then "balanced" else profileKey
  { store := { s with activeProfile := some profileKey, profileSource := some source }
    profileUpdates := [profileKey] }

/-- Source `adaptProfileForDomain` (line 354); an absent `adaptiveProfiles`
reads as `true`. -/
def adaptProfileForDomain (s : Store) (host : String) : ProfileOutcome :=
  let adaptiveProfiles := s.adaptiveProfiles.getD true
  if !adaptiveProfiles then ⟨s, []⟩
  else if endsWith host ".onion" then setActiveProfile s "paranoid" "auto"
  else if isTrustedDomain s host then setActiveProfile s "relaxed" "auto"
  else setActiveProfile s "strict" "auto"

/-! ## Navigation bookkeeping (lines 272-282, 357-397, 432-438) -/

/-- The keys `recordSiteStat` is called with. -/
inductive StatKey where
  | cookies
  | cache
  | trackers
  | fingerprints
  deriving DecidableEq, Repr

/-- The read `siteStats[hostname][key]`. -/
def SiteStat.get {α : Type} (s : SiteStat α) : StatKey → α
  | .cookies => s.cookies
  | .cache => s.cache
  | .trackers => s.trackers
  | .fingerprints => s.fingerprints

/-- The write `siteStats[hostname][key] = v`. -/
def SiteStat.set {α : Type} (s : SiteStat α) (key : StatKey) (v : α) : SiteStat α :=
  match key with
  | .cookies => { s with cookies := v }
  | .cache => { s with cache := v }
  | .trackers => { s with trackers := v }
  | .fingerprints => { s with fingerprints := v }

/-- Source `recordSiteStat` (lines 272-282), on the stored `siteStats`. -/
def recordSiteStat {α : Type} [LinearOrderedField α] (siteStats : List (String × SiteStat α))
    (hostname : String) (key : StatKey) (delta : α) (now : α) : List (String × SiteStat α) :=
  let s := (siteStats.lookup hostname).getD ⟨0, 0, 0, 0, 0, 0⟩
  let s := s.set key (s.get key + delta)
  assign siteStats hostname { s with lastSeen := now }

/-- The stored total of a site for a key, `0` when the site has no record. -/
def statTotal {α : Type} [LinearOrderedField α] (siteStats : List (String × SiteStat α))
    (hostname : String) (key : StatKey) : α :=
  ((siteStats.lookup hostname).map (fun s => s.get key)).getD 0

/-- One call of `recordSiteStat`. -/
structure RecordCall (α : Type) where
  hostname : String
  key : StatKey
  delta : α

/-- What the navigation listeners read and write besides the keys of `Store`:
the stored `siteStats`, `pendingCookies` and `pendingCache`, and the globals
`lastCookieCount` and `lastCacheEstimate` (lines 26-27). -/
structure NavState (α : Type) where
  store : Store
  siteStats : List (String × SiteStat α)
  pendingCookies : Option Nat
  pendingCache : Option α
  lastCookieCount : List (String × Nat)
  lastCacheEstimate : List (String × α)

/-- The state after one listener run, with the `recordSiteStat` calls it made
and the `profileUpdate` messages it broadcast. -/
structure NavOutcome (α : Type) where
  state : NavState α
  recordCalls : List (RecordCall α)
  profileUpdates : List String

/-- The effect of a run of `recordSiteStat` calls on `siteStats`. -/
def applyRecordCalls {α : Type} [LinearOrderedField α] (now : α)
    (siteStats : List (String × SiteStat α)) (calls : List (RecordCall α)) :
    List (String × SiteStat α) :=
  calls.foldl (fun acc c => recordSiteStat acc c.hostname c.key c.delta now) siteStats

/-- The write `tabUrls[tabId] = url` (line 366). -/
def setTabUrl : List (Nat × String) → Nat → String → List (Nat × String)
  | [], tabId, url => [(tabId, url)]
  | e :: m, tabId, url => if e.1 = tabId then (tabId, url) :: m else e :: setTabUrl m tabId url

/-- The first `chrome.tabs.onUpdated` listener (lines 357-397).  `estimate` is
`pendingMB`, the rounded storage estimate of line 382, or `none` when
`navigator.storage.estimate` is missing or throws. -/
def onUpdatedRecord {α : Type} [LinearOrderedField α] (parseHost : String → Option String)
    (getAll : String → List Cookie) (estimate : Option α) (now : α) (st : NavState α)
    (tabId : Nat) (changeInfoUrl : Option String) (tab : Option TabInfo) : NavOutcome α :=
  match navigationUrl changeInfoUrl tab with
  | none => ⟨st, [], []⟩
  | some url =>
    if url = "" || !isHttpUrl url then ⟨st, [], []⟩
    else
      match parseHost url with
      | none => ⟨st, [], []⟩
      | some hostname =>
        let tabUrls := setTabUrl st.store.tabUrls tabId url
        let siteCookies := siteCookiesOf (getAll hostname) hostname
        let lastCount := (st.lastCookieCount.lookup hostname).getD 0
        let newCookies : α := (siteCookies.length : α) - (lastCount : α)
        let cookieCalls : List (RecordCall α) :=
          if newCookies > 0 then [⟨hostname, .cookies, newCookies⟩] else []
        let lastMB := (st.lastCacheEstimate.lookup hostname).getD 0
        let cacheCalls : List (RecordCall α) :=
          match estimate with
          | some pendingMB =>
            if pendingMB - lastMB > 0 then [⟨hostname, .cache, pendingMB - lastMB⟩] else []
          | none => []
        let store := { st.store with tabUrls := tabUrls }
        let profile : ProfileOutcome :=
          if store.profileSource ≠ some "manual" then adaptProfileForDomain store hostname
          else ⟨store, []⟩
        { state :=
            { store := profile.store
              siteStats := applyRecordCalls now st.siteStats (cookieCalls ++ cacheCalls)
              pendingCookies := some siteCookies.length
              pendingCache := match estimate with
                | some pendingMB => some pendingMB
                | none => st.pendingCache
              lastCookieCount := assign st.lastCookieCount hostname siteCookies.length
              lastCacheEstimate := match estimate with
                | some pendingMB => assign st.lastCacheEstimate hostname pendingMB
                | none => st.lastCacheEstimate }
          recordCalls := cookieCalls ++ cacheCalls
          profileUpdates := profile.profileUpdates }

/-- The `recordSiteStat` call of the auto-delete listener (lines 432-438): when
a batch is built, `deletedCount` is the number of `deleteCookie` results that
are `true` (`removeOk`), and the delta is `deletedCount * -1`. -/
def autoDeleteRecordCalls {α : Type} [LinearOrderedField α] (parseHost : String → Option String)
    (getAll : String → List Cookie) (cookieCategoryMap : List (String × String))
    (removeOk : Cookie → Bool) (s : Store) (changeInfoUrl : Option String)
    (tab : Option TabInfo) : List (RecordCall α) :=
  match (onUpdatedAutoDelete parseHost getAll cookieCategoryMap s changeInfoUrl tab).cookieBatch,
      (navigationUrl changeInfoUrl tab).bind parseHost with
  | some batch, some hostname =>
    [⟨hostname, .cookies, ((batch.filter removeOk).length : α) * -1⟩]
  | _, _ => []

/-- One navigation event handled by both `tabs.onUpdated` listeners, the
first listener first. -/
def navigate {α : Type} [LinearOrderedField α] (parseHost : String → Option String)
    (getAll : String → List Cookie) (cookieCategoryMap : List (String × String))
    (removeOk : Cookie → Bool) (estimate : Option α) (now : α) (st : NavState α)
    (tabId : Nat) (changeInfoUrl : Option String) (tab : Option TabInfo) : NavState α :=
  let o1 := onUpdatedRecord parseHost getAll estimate now st tabId changeInfoUrl tab
  let o2 := onUpdatedAutoDelete parseHost getAll cookieCategoryMap o1.state.store changeInfoUrl tab
  let calls : List (RecordCall α) :=
    autoDeleteRecordCalls parseHost getAll cookieCategoryMap removeOk o1.state.store
      changeInfoUrl tab
  { o1.state with
    siteStats := applyRecordCalls now o1.state.siteStats calls
    pendingCookies :=
      match o2.cookieBatch, o2.pendingCookies with
      | some _, _ => some 0
      | none, some n => some n
      | none, none => o1.state.pendingCookies }

/-- The state of a fresh background script for the store `s`: no site
statistics, no pending counters, empty `lastCookieCount` and
`lastCacheEstimate`. -/
def freshNavState (α : Type) (s : Store) : NavState α :=
  ⟨s, [], none, none, [], []⟩

/-! ## Score publication (lines 193, 223-248, 337-343) -/

/-- The debounce state of `updatePrivacyBadge`: the variable
`badgeDebounceTimer` (a timer id or `null`), the platform's pending timeouts
as pairs of id and due time in milliseconds, the id the platform hands out
next (ids are positive), and the times at which the timer callback has run, one
recomputation and one publish each. -/
structure BadgeRuntime where
  badgeDebounceTimer : Option Nat
  timers : List (Nat × Nat)
  nextTimerId : Nat
  publishes : List Nat
  deriving DecidableEq, Repr

/-- The state of a fresh background script (line 223). -/
def freshBadgeRuntime : BadgeRuntime := ⟨none, [], 1, []⟩

/-- The platform's `clearTimeout(id)`. -/
def clearTimeout (id : Nat) (timers : List (Nat × Nat)) : List (Nat × Nat) :=
  timers.filter (fun e => e.1 != id)

/-- The synchronous part of `updatePrivacyBadge` (lines 224-226, 247), called
at time `now`: a truthy `badgeDebounceTimer` is cleared, and a timeout of
250 ms is set and stored in the variable. -/
def updatePrivacyBadge (now : Nat) (rt : BadgeRuntime) : BadgeRuntime :=
  let timers :=
    match rt.badgeDebounceTimer with
    | some id => if id ≠ 0 then clearTimeout id rt.timers else rt.timers
    | none => rt.timers
  { badgeDebounceTimer := some rt.nextTimerId
    timers := timers ++ [(rt.nextTimerId, now + 250)]
    nextTimerId := rt.nextTimerId + 1
    publishes := rt.publishes }

/-- The timer callback (lines 226-247) run by the platform for the pending
timeout `e`, at its due time: the timeout leaves the pending set, the
variable is reset to `null`, and the score is recomputed and published. -/
def fireTimer (rt : BadgeRuntime) (e : Nat × Nat) : BadgeRuntime :=
  { rt with
    badgeDebounceTimer := none
    timers := clearTimeout e.1 rt.timers
    publishes := rt.publishes ++ [e.2] }

/-- The platform's event loop up to time `t`: every pending timeout that is
due by `t` runs, in the order in which the timeouts were set. -/
def runDue (t : Nat) (rt : BadgeRuntime) : BadgeRuntime :=
  (rt.timers.filter (fun e => e.2 ≤ t)).foldl fireTimer rt

/-- A run of triggers: `updatePrivacyBadge` is called at each of the given
times, in order, the timeouts due by then having run first. -/
def runTriggers (times : List Nat) (rt : BadgeRuntime) : BadgeRuntime :=
  times.foldl (fun r t => updatePrivacyBadge t (runDue t r)) rt

/-- What can happen to the debounce state: a call of `updatePrivacyBadge` at a
time, or the event loop running the timeouts due by a time. -/
inductive BadgeEvent where
  | trigger (t : Nat)
  | advance (t : Nat)
  deriving DecidableEq, Repr

/-- One event. -/
def stepBadge (rt : BadgeRuntime) : BadgeEvent → BadgeRuntime
  | .trigger t => updatePrivacyBadge t rt
  | .advance t => runDue t rt

/-- A sequence of events, oldest first. -/
def runEvents (events : List BadgeEvent) (rt : BadgeRuntime) : BadgeRuntime :=
  events.foldl stepBadge rt

/-- The single-slot shape: the variable is `null` and nothing is pending, or
the variable holds the id of the only pending timeout. -/
def singleSlot (rt : BadgeRuntime) : Bool :=
  rt.nextTimerId != 0 &&
    match rt.badgeDebounceTimer with
    | none => rt.timers.isEmpty
    | some id => id != 0 && rt.timers.map Prod.fst == [id]

/-- Consecutive trigger times are in order and less than 250 ms apart. -/
def closelySpaced : List Nat → Bool
  | a :: b :: rest => decide (a ≤ b) && decide (b < a + 250) && closelySpaced (b :: rest)
  | _ => true

/-- The last of the trigger times `t :: times`. -/
def lastTime (t : Nat) : List Nat → Nat
  | [] => t
  | b :: rest => lastTime b rest

/-- The constant `DEFAULT_HALF_LIFE_MS` (line 193). -/
def DEFAULT_HALF_LIFE_MS {α : Type} [LinearOrderedField α] : α := 24 * 60 * 60 * 1000

/-- JavaScript `Math.round`: the nearest integer, a tie going up, which is
`floor(x + 0.5)`. -/
def mathRound {α : Type} [LinearOrderedField α] [FloorRing α] (x : α) : ℤ :=
  Int.floor (x + 1 / 2)

/-- The store keys read by the timer callback of `updatePrivacyBadge` (lines
229-235); of the two tracker maps only the keys matter. -/
structure ScoreStore (α : Type) where
  siteStats : List (String × SiteStat α)
  pendingCookies : α
  pendingCache : α
  pendingTrackers : List String
  blockedTrackers : List String

/-- The `privacyScoreUpdated` message (line 239). -/
structure PrivacyScorePayload (α : Type) where
  rawScore : ℤ
  letter : String
  cookiesPending : α
  cachePending : α
  trackersPending : Nat
  trackersBlocked : Nat
  aggregate : AggregateStats α

/-- The payload built by the timer callback of `updatePrivacyBadge` (lines
236-239), `now` being `Date.now()`. -/
def privacyScoreUpdated {α : Type} [LinearOrderedField α] [FloorRing α] (exp : α → α)
    (st : ScoreStore α) (now : α) : PrivacyScorePayload α :=
  let agg := computeAggregateStats exp st.siteStats now DEFAULT_HALF_LIFE_MS
  let score := gradeFromStats agg.toInput
  let letter := letterFromScore score
  { rawScore := mathRound score
    letter := letter
    cookiesPending := st.pendingCookies
    cachePending := st.pendingCache
    trackersPending := st.pendingTrackers.length
    trackersBlocked := st.blockedTrackers.length
    aggregate := agg }

/-- The response to `getPrivacyScore` (line 340). -/
structure PrivacyScoreResponse (α : Type) where
  rawScore : ℤ
  letter : String
  agg : AggregateStats α

/-- The `getPrivacyScore` branch of the message handler (lines 337-343). -/
def getPrivacyScore {α : Type} [LinearOrderedField α] [FloorRing α] (exp : α → α)
    (siteStats : List (String × SiteStat α)) (now : α) : PrivacyScoreResponse α :=
  let agg := computeAggregateStats exp siteStats now DEFAULT_HALF_LIFE_MS
  { rawScore := mathRound (gradeFromStats agg.toInput)
    letter := letterFromScore (gradeFromStats agg.toInput)
    agg := agg }

/-- The score both messages are built from. -/
def currentScore {α : Type} [LinearOrderedField α] (exp : α → α)
    (siteStats : List (String × SiteStat α)) (now : α) : α :=
  gradeFromStats (computeAggregateStats exp siteStats now DEFAULT_HALF_LIFE_MS).toInput

/-! ## Example data -/

/-- Cookies the browser returns for `shop.example`: two ordinary site cookies,
a session cookie, and a cookie of a subdomain. -/
def shopCookies : List Cookie :=
  [⟨"shop.example", "keep", true, "/"⟩, ⟨".shop.example", "promo", false, "/"⟩,
   ⟨"shop.example", "PHPSESSID", true, "/"⟩, ⟨"cdn.shop.example", "promo", false, "/"⟩]

/-- A cookie jar that knows `shop.example` only. -/
def shopGetAll (domain : String) : List Cookie :=
  if domain = "shop.example" then shopCookies else []

/-- A store in which tab 7 shows `https://shop.example/cart`, nothing is
paused or trusted, and auto-deletion is on. -/
def shopStore (cookieWhitelist : List String) (activeProfile : String) : Store :=
  { pauseCleanup := false
    tabUrls := [(7, "https://shop.example/cart")]
    cookieWhitelist := cookieWhitelist
    trustedSites := []
    activeProfile := some activeProfile
    customProConfig := ⟨none, none, none, none, none⟩
    autoCookieDeletionEnabled := true }

/-- The rule-match event of the scenario: a request to
`https://sub.trk.example/x` matched by rule 100000, with the given categories. -/
def trkEvent (categories : Option (List String)) : MatchInfo :=
  ⟨some "https://sub.trk.example/x", categories, some 100000⟩

/-- The runtime after a restart of the background script that follows one
match for `trk.example` at time 1000: the first match is handled from the
globals as declared, `persistPending` writes the record, and
`initPublicBackground` reads it back. -/
def reloadedRuntime : Runtime :=
  loadTrackerState (onRuleMatchedDebug simpleUrlHostname 1000 (freshRuntime ["trk.example"])
    (trkEvent none))

/-- A bundle of 10001 approved domains `d0.example`, ..., `d10000.example`. -/
def manyDomains : List String :=
  (List.range 10001).map (fun i => "d" ++ toString i ++ ".example")

/-- One visit of `https://shop.example/cart` in the active tab 7, handled by
both `tabs.onUpdated` listeners: the browser returns `shopCookies` (the site
has set its cookies again), every `deleteCookie` succeeds, and there is no
storage estimate. -/
def shopVisit (now : ℚ) (st : NavState ℚ) : NavState ℚ :=
  navigate simpleUrlHostname shopGetAll defaultCookieCategoryMap (fun _ => true) none now st 7
    (some "https://shop.example/cart") (some ⟨none, true⟩)

/-- The store of the visits: auto-deletion on, profile `strict` chosen by the
user, a whitelist entry of another site. -/
def shopManualStore : Store :=
  { shopStore ["other.example|keep"] "strict" with profileSource := some "manual" }

/-- Cookies the browser returns for the hidden service `abcdefgh.onion`. -/
def onionGetAll (domain : String) : List Cookie :=
  if domain = "abcdefgh.onion" then
    [⟨"abcdefgh.onion", "theme", false, "/"⟩, ⟨"abcdefgh.onion", "sid", false, "/"⟩]
  else []

/-- A store in which tab 7 shows `http://abcdefgh.onion/inbox`, the profile
`paranoid` is active, and nothing is paused, whitelisted or trusted. -/
def onionStore : Store :=
  { pauseCleanup := false
    tabUrls := [(7, "http://abcdefgh.onion/inbox")]
    cookieWhitelist := []
    trustedSites := []
    activeProfile := some "paranoid"
    customProConfig := ⟨none, none, none, none, none⟩
    autoCookieDeletionEnabled := false
    profileSource := some "auto" }

/-- Ten triggers within 50 ms. -/
def tenTriggers : List Nat := [0, 5, 10, 15, 20, 25, 30, 35, 40, 45]

/-- Site statistics with one site, seen at time 1000, with 196 cookies. -/
def manyCookiesStats : List (String × SiteStat ℝ) :=
  [("a.example", ⟨196, 0, 0, 0, 1000, 0⟩)]

/-! ## Theorems -/

/-! ### Cookie deletion batches -/

/-- A cookie kept by the `toDelete` filter belongs to the site, is not
`necessary` and its key is not whitelisted. -/
theorem mem_toDelete_siteCookiesOf {catMap : List (String × String)} {wl : List String}
    {allCookies : List Cookie} {hostname : String} {c : Cookie}
    (h : c ∈ toDelete catMap wl (siteCookiesOf allCookies hostname)) :
    stripDot c.domain = hostname ∧ getCookieCategory catMap c.name ≠ "necessary" ∧
      hostname ++ "|" ++ c.name ∉ wl := by
  simp only [toDelete, siteCookiesOf, List.mem_filter, beq_iff_eq, Bool.and_eq_true,
    Bool.not_eq_true', bne_iff_ne, ne_eq] at h
  obtain ⟨⟨_, hdom⟩, hwl, hcat⟩ := h
  refine ⟨hdom, hcat, ?_⟩
  intro hmem
  rw [hdom] at hwl
  have hc : wl.contains (hostname ++ "|" ++ c.name) = true := List.elem_eq_true_of_mem hmem
  rw [hwl] at hc
  exact Bool.false_ne_true hc

/-- The batch of `onRemoved`, when there is one, is the `toDelete` filter of
the site cookies of the recorded URL's hostname. -/
theorem onRemoved_cookieBatch_eq {parseHost : String → Option String}
    {getAll : String → List Cookie} {catMap : List (String × String)} {s : Store} {tabId : Nat}
    {batch : List Cookie}
    (h : (onRemoved parseHost getAll catMap s tabId).cookieBatch = some batch) :
    ∃ hostname, batch = toDelete catMap s.cookieWhitelist (siteCookiesOf (getAll hostname) hostname) := by
  unfold onRemoved at h
  by_cases hp : s.pauseCleanup = true
  · simp [hp, RemovalOutcome.nothing] at h
  · cases hl : s.tabUrls.lookup tabId with
    | none => simp [hp, hl] at h
    | some url =>
      by_cases hu : url = ""
      · simp [hp, hl, hu] at h
      · cases hh : parseHost url with
        | none => simp [hp, hl, hu, hh] at h
        | some hostname =>
          by_cases hs : (shouldSkipCookieCleanup s hostname && shouldSkipCacheCleanup s hostname) = true
          · simp [hp, hl, hu, hh, hs] at h
          · simp [hp, hl, hu, hh, hs] at h
            exact ⟨hostname, h.2.symm⟩

/-- The batch of `onUpdatedAutoDelete`, when there is one, is the `toDelete`
filter of the site cookies of the navigated hostname. -/
theorem onUpdatedAutoDelete_cookieBatch_eq {parseHost : String → Option String}
    {getAll : String → List Cookie} {catMap : List (String × String)} {s : Store}
    {changeInfoUrl : Option String} {tab : Option TabInfo} {batch : List Cookie}
    (h : (onUpdatedAutoDelete parseHost getAll catMap s changeInfoUrl tab).cookieBatch = some batch) :
    ∃ hostname, batch = toDelete catMap s.cookieWhitelist (siteCookiesOf (getAll hostname) hostname) := by
  unfold onUpdatedAutoDelete at h
  split at h
  · rename_i url t _
    by_cases hg : (decide (url = "") || !isHttpUrl url || !t.active) = true
    · simp [hg] at h
    · cases hh : parseHost url with
      | none => simp [hg, hh] at h
      | some hostname =>
        by_cases hp : s.pauseCleanup = true
        · simp [hg, hh, hp] at h
        · by_cases hs : (shouldSkipCookieCleanup s hostname && shouldSkipCacheCleanup s hostname) = true
          · simp [hg, hh, hp, hs] at h
          · simp [hg, hh, hp, hs] at h
            exact ⟨hostname, h.2.symm⟩
  · simp at h

/-- C1: whatever the store holds (so under each of the profiles strict,
balanced, relaxed and paranoid), the deletion batch built by the tab-removal
listener and the one built by the auto-delete-on-navigation listener contain
no cookie categorised `necessary` and no cookie whose key `hostname|name` is
in the whitelist. -/
theorem deletion_batch_excludes_necessary_and_whitelisted
    (parseHost : String → Option String) (getAll : String → List Cookie)
    (catMap : List (String × String)) (s : Store) (tabId : Nat)
    (changeInfoUrl : Option String) (tab : Option TabInfo) :
    (∀ batch, (onRemoved parseHost getAll catMap s tabId).cookieBatch = some batch →
      ∃ hostname, ∀ c ∈ batch, stripDot c.domain = hostname ∧
        getCookieCategory catMap c.name ≠ "necessary" ∧
        hostname ++ "|" ++ c.name ∉ s.cookieWhitelist) ∧
    (∀ batch,
      (onUpdatedAutoDelete parseHost getAll catMap s changeInfoUrl tab).cookieBatch = some batch →
      ∃ hostname, ∀ c ∈ batch, stripDot c.domain = hostname ∧
        getCookieCategory catMap c.name ≠ "necessary" ∧
        hostname ++ "|" ++ c.name ∉ s.cookieWhitelist) := by
  constructor
  · intro batch h
    obtain ⟨hostname, rfl⟩ := onRemoved_cookieBatch_eq h
    exact ⟨hostname, fun c hc => mem_toDelete_siteCookiesOf hc⟩
  · intro batch h
    obtain ⟨hostname, rfl⟩ := onUpdatedAutoDelete_cookieBatch_eq h
    exact ⟨hostname, fun c hc => mem_toDelete_siteCookiesOf hc⟩

/-- Witness for C1: with the profile `strict` and a whitelist entry of another
site, the tab-removal batch for `shop.example` is the two ordinary cookies. -/
theorem deletion_batch_excludes_necessary_and_whitelisted_witness :
    (onRemoved simpleUrlHostname shopGetAll defaultCookieCategoryMap
        (shopStore ["other.example|keep"] "strict") 7).cookieBatch
      = some [⟨"shop.example", "keep", true, "/"⟩, ⟨".shop.example", "promo", false, "/"⟩] ∧
    ∃ hostname, ∀ c ∈ [(⟨"shop.example", "keep", true, "/"⟩ : Cookie),
        ⟨".shop.example", "promo", false, "/"⟩],
      stripDot c.domain = hostname ∧
        getCookieCategory defaultCookieCategoryMap c.name ≠ "necessary" ∧
        hostname ++ "|" ++ c.name ∉ (shopStore ["other.example|keep"] "strict").cookieWhitelist :=
  ⟨by decide,
    (deletion_batch_excludes_necessary_and_whitelisted simpleUrlHostname shopGetAll
      defaultCookieCategoryMap (shopStore ["other.example|keep"] "strict") 7 none none).1 _
      (by decide)⟩

/-- Counterexample to C2 as stated: tab 7 has a recorded URL, cleanup is not
paused, the profile `strict` requests cookie deletion and the whitelist does
not contain the bare hostname, yet no batch is built, although the site cookie
`promo` is neither whitelisted nor `necessary`: the whitelisted cookie `keep`
of the same hostname makes `shouldSkipCookieCleanup` true. -/
theorem onRemoved_batch_counterexample :
    (shopStore ["shop.example|keep"] "strict").pauseCleanup = false ∧
    (shopStore ["shop.example|keep"] "strict").tabUrls.lookup 7
      = some "https://shop.example/cart" ∧
    simpleUrlHostname "https://shop.example/cart" = some "shop.example" ∧
    (resolveProfile (shopStore ["shop.example|keep"] "strict")).deleteCookies = true ∧
    "shop.example" ∉ (shopStore ["shop.example|keep"] "strict").cookieWhitelist ∧
    toDelete defaultCookieCategoryMap ["shop.example|keep"]
        (siteCookiesOf (shopGetAll "shop.example") "shop.example")
      = [⟨".shop.example", "promo", false, "/"⟩] ∧
    (onRemoved simpleUrlHostname shopGetAll defaultCookieCategoryMap
        (shopStore ["shop.example|keep"] "strict") 7).cookieBatch = none := by
  decide

/-- A string starts with each of its own initial segments. -/
theorem startsWith_append (p t : String) : startsWith (p ++ t) p = true := by
  have key : ∀ xs ys : List Char, xs.isPrefixOf (xs ++ ys) = true := by
    intro xs ys
    induction xs with
    | nil => simp [List.isPrefixOf]
    | cons a xs ih => simp [List.isPrefixOf, ih]
  simp [startsWith, String.toList, key p.data t.data]

/-- The gate `shouldSkipCookieCleanup` holds exactly when some whitelist
entry is the hostname or starts with `hostname|`. -/
theorem shouldSkipCookieCleanup_iff (s : Store) (host : String) :
    shouldSkipCookieCleanup s host = true ↔
      ∃ k ∈ s.cookieWhitelist, startsWith k (host ++ "|") = true ∨ k = host := by
  simp [shouldSkipCookieCleanup, List.any_eq_true]

/-- When the gate is open, the whitelist test inside `toDelete` never fires
on a site cookie. -/
theorem toDelete_eq_filter_of_not_skipped (catMap : List (String × String)) (s : Store)
    (allCookies : List Cookie) (hostname : String)
    (hskip : shouldSkipCookieCleanup s hostname = false) :
    toDelete catMap s.cookieWhitelist (siteCookiesOf allCookies hostname)
      = (siteCookiesOf allCookies hostname).filter
          (fun c => getCookieCategory catMap c.name != "necessary") := by
  unfold toDelete
  apply List.filter_congr
  intro c hc
  have hdom : stripDot c.domain = hostname := by
    simpa [siteCookiesOf, List.mem_filter] using (List.mem_filter.mp hc).2
  have hnot : hostname ++ "|" ++ c.name ∉ s.cookieWhitelist := by
    intro hmem
    have : shouldSkipCookieCleanup s hostname = true :=
      (shouldSkipCookieCleanup_iff s hostname).mpr
        ⟨_, hmem, Or.inl (startsWith_append (hostname ++ "|") c.name)⟩
    rw [hskip] at this
    exact absurd this Bool.false_ne_true
  simp [hdom, hnot]

/-- C2, amended: on tab removal with a recorded URL, cleanup not paused and a
profile that requests cookie deletion, if the whitelist contains neither the
bare hostname nor any key starting with `hostname|`, the deletion batch is
exactly the list of the site cookies that are neither individually whitelisted
nor `necessary` (which is then every site cookie that is not `necessary`); if
the whitelist contains the bare hostname or a key `hostname|name` of any
cookie of the hostname, no batch is built. -/
theorem onRemoved_batch_when_host_not_whitelisted
    (parseHost : String → Option String) (getAll : String → List Cookie)
    (catMap : List (String × String)) (s : Store) (tabId : Nat) (url hostname : String)
    (hpause : s.pauseCleanup = false) (hurl : s.tabUrls.lookup tabId = some url)
    (hne : url ≠ "") (hhost : parseHost url = some hostname)
    (hprof : (resolveProfile s).deleteCookies = true) :
    ((∀ k ∈ s.cookieWhitelist, k ≠ hostname ∧ startsWith k (hostname ++ "|") = false) →
      (onRemoved parseHost getAll catMap s tabId).cookieBatch
          = some ((siteCookiesOf (getAll hostname) hostname).filter (fun c =>
              decide (hostname ++ "|" ++ c.name ∉ s.cookieWhitelist) &&
              decide (getCookieCategory catMap c.name ≠ "necessary"))) ∧
      (onRemoved parseHost getAll catMap s tabId).cookieBatch
          = some ((siteCookiesOf (getAll hostname) hostname).filter (fun c =>
              decide (getCookieCategory catMap c.name ≠ "necessary")))) ∧
    ((hostname ∈ s.cookieWhitelist ∨ ∃ name, hostname ++ "|" ++ name ∈ s.cookieWhitelist) →
      (onRemoved parseHost getAll catMap s tabId).cookieBatch = none) := by
  constructor
  · intro hwl
    have hskip : shouldSkipCookieCleanup s hostname = false := by
      cases hsk : shouldSkipCookieCleanup s hostname with
      | false => rfl
      | true =>
        obtain ⟨k, hk, hk2⟩ := (shouldSkipCookieCleanup_iff s hostname).mp hsk
        rcases hk2 with h1 | h1
        · rw [(hwl k hk).2] at h1
          exact absurd h1 Bool.false_ne_true
        · exact absurd h1 (hwl k hk).1
    have hbatch : (onRemoved parseHost getAll catMap s tabId).cookieBatch
        = some (toDelete catMap s.cookieWhitelist (siteCookiesOf (getAll hostname) hostname)) := by
      simp [onRemoved, hpause, hurl, hne, hhost, hskip, hprof]
    have hkeys : ∀ c ∈ siteCookiesOf (getAll hostname) hostname,
        (decide (hostname ++ "|" ++ c.name ∉ s.cookieWhitelist) &&
          decide (getCookieCategory catMap c.name ≠ "necessary"))
        = decide (getCookieCategory catMap c.name ≠ "necessary") := by
      intro c _
      have : hostname ++ "|" ++ c.name ∉ s.cookieWhitelist := by
        intro hmem
        have h2 := (hwl _ hmem).2
        rw [startsWith_append (hostname ++ "|") c.name] at h2
        exact absurd h2.symm Bool.false_ne_true
      simp [this]
    rw [hbatch, toDelete_eq_filter_of_not_skipped catMap s (getAll hostname) hostname hskip]
    refine ⟨?_, ?_⟩
    · congr 1
      apply List.filter_congr
      intro c hc
      rw [hkeys c hc, Bool.eq_iff_iff]
      simp
    · congr 1
      apply List.filter_congr
      intro c _
      rw [Bool.eq_iff_iff]
      simp
  · intro hwl
    have hskip : shouldSkipCookieCleanup s hostname = true := by
      rw [shouldSkipCookieCleanup_iff]
      rcases hwl with h | ⟨name, h⟩
      · exact ⟨hostname, h, Or.inr rfl⟩
      · exact ⟨_, h, Or.inl (startsWith_append (hostname ++ "|") name)⟩
    by_cases hc : shouldSkipCacheCleanup s hostname = true
    · simp [onRemoved, hpause, hurl, hne, hhost, hskip, hc]
    · simp [onRemoved, hpause, hurl, hne, hhost, hskip, hc]

/-- Witness for the amended C2: with the profile `strict` and a whitelist that
names another site only, the batch for `shop.example` is built and is the
filter of its site cookies. -/
theorem onRemoved_batch_when_host_not_whitelisted_witness :
    (shopStore ["other.example|keep"] "strict").pauseCleanup = false ∧
    (shopStore ["other.example|keep"] "strict").tabUrls.lookup 7
      = some "https://shop.example/cart" ∧
    "https://shop.example/cart" ≠ "" ∧
    simpleUrlHostname "https://shop.example/cart" = some "shop.example" ∧
    (resolveProfile (shopStore ["other.example|keep"] "strict")).deleteCookies = true ∧
    (∀ k ∈ (shopStore ["other.example|keep"] "strict").cookieWhitelist,
      k ≠ "shop.example" ∧ startsWith k ("shop.example" ++ "|") = false) ∧
    (onRemoved simpleUrlHostname shopGetAll defaultCookieCategoryMap
        (shopStore ["other.example|keep"] "strict") 7).cookieBatch
      = some ((siteCookiesOf (shopGetAll "shop.example") "shop.example").filter (fun c =>
          decide ("shop.example" ++ "|" ++ c.name
            ∉ (shopStore ["other.example|keep"] "strict").cookieWhitelist) &&
          decide (getCookieCategory defaultCookieCategoryMap c.name ≠ "necessary"))) :=
  ⟨by decide, by decide, by decide, by decide, by decide, by decide,
    ((onRemoved_batch_when_host_not_whitelisted simpleUrlHostname shopGetAll
      defaultCookieCategoryMap (shopStore ["other.example|keep"] "strict") 7
      "https://shop.example/cart" "shop.example" (by decide) (by decide) (by decide)
      (by decide) (by decide)).1 (by decide)).1⟩

/-! ### Privacy score -/

/-- In exact arithmetic, the four subtractions of `gradeFromStats` give
`max(0, 100 - (cookies*0.05 + cache*0.01 + trackers*0.02 + fingerprints*0.5))`,
a missing component being read as `0`. -/
theorem gradeFromStats_eq_formula {α : Type} [LinearOrderedField α] (a : GradeInput α) :
    gradeFromStats a
      = max 0 (100 - (a.cookies.getD 0 * 0.05 + a.cache.getD 0 * 0.01
          + a.trackers.getD 0 * 0.02 + a.fingerprints.getD 0 * 0.5)) := by
  simp only [gradeFromStats]
  congr 1
  ring

/-- The rounding `roundHalfEven` is within one half of its argument. -/
theorem abs_roundHalfEven_sub_le (y : ℚ) : |(roundHalfEven y : ℚ) - y| ≤ 1 / 2 := by
  have h1 : (Int.floor y : ℚ) ≤ y := Int.floor_le y
  have h2 : y < (Int.floor y : ℚ) + 1 := Int.lt_floor_add_one y
  unfold roundHalfEven
  simp only
  split_ifs with ha hb hc
  · rw [abs_le]
    constructor <;> linarith
  · rw [abs_le]
    push_cast
    constructor <;> linarith
  · rw [abs_le]
    constructor <;> linarith
  · rw [abs_le]
    push_cast
    constructor <;> linarith

/-- An argument nearer than one half to an integer rounds to that integer. -/
theorem roundHalfEven_eq_of_near (y : ℚ) (n : ℤ) (h : |y - n| < 1 / 2) :
    roundHalfEven y = n := by
  rw [abs_lt] at h
  unfold roundHalfEven
  simp only
  have hfl : (Int.floor y : ℚ) ≤ y := Int.floor_le y
  have hfu : y < (Int.floor y : ℚ) + 1 := Int.lt_floor_add_one y
  split_ifs with ha hb hc
  · -- floor y = n
    have h1 : (n : ℚ) - 1 < Int.floor y := by linarith
    have h2 : (Int.floor y : ℚ) < n + 1 := by linarith
    have h3 : (Int.floor y : ℚ) < n + 1 / 2 := by linarith
    have : n - 1 < Int.floor y := by exact_mod_cast h1
    have : Int.floor y < n + 1 := by exact_mod_cast h2
    omega
  · have h1 : (n : ℚ) - 2 < Int.floor y := by linarith
    have h2 : (Int.floor y : ℚ) < n := by linarith
    have : n - 2 < Int.floor y := by exact_mod_cast h1
    have : Int.floor y < n := by exact_mod_cast h2
    omega
  · have hr : y - (Int.floor y : ℚ) = 1 / 2 := le_antisymm (not_lt.mp hb) (not_lt.mp ha)
    have h1 : (n : ℚ) - 1 < Int.floor y := by linarith
    have h2 : (Int.floor y : ℚ) < n := by linarith
    have : n - 1 < Int.floor y := by exact_mod_cast h1
    have : Int.floor y < n := by exact_mod_cast h2
    omega
  · have hr : y - (Int.floor y : ℚ) = 1 / 2 := le_antisymm (not_lt.mp hb) (not_lt.mp ha)
    have h1 : (n : ℚ) - 1 < Int.floor y := by linarith
    have h2 : (Int.floor y : ℚ) < n := by linarith
    have : n - 1 < Int.floor y := by exact_mod_cast h1
    have : Int.floor y < n := by exact_mod_cast h2
    omega

/-- The binary exponent of a rational bracketed by two powers of two. -/
theorem log_two_eq_of_bracket (r : ℚ) (e : ℤ) (h1 : (2 : ℚ) ^ e ≤ r) (h2 : r < (2 : ℚ) ^ (e + 1)) :
    Int.log 2 r = e := by
  have hpos : 0 < r := lt_of_lt_of_le (by positivity) h1
  have ha : e ≤ Int.log 2 r := by
    have := (Int.zpow_le_iff_le_log (b := 2) (by norm_num) hpos (x := e)).mp (by exact_mod_cast h1)
    exact this
  have hb : Int.log 2 r < e + 1 := by
    have := (Int.lt_zpow_iff_log_lt (b := 2) (by norm_num) hpos (x := e + 1)).mp
      (by exact_mod_cast h2)
    exact this
  omega

/-- Evaluation of `binary64` in the normal range: an `x` with binary exponent
`e` whose quotient by `2 ^ (e - 52)` is nearer than one half to the integer
`n` rounds to `n * 2 ^ (e - 52)`. -/
theorem binary64_eq_of_near (x : ℚ) (e n : ℤ) (h1 : (2 : ℚ) ^ e ≤ |x|)
    (h2 : |x| < (2 : ℚ) ^ (e + 1)) (hq : -1074 ≤ e - 52)
    (h3 : |x / (2 : ℚ) ^ (e - 52) - n| < 1 / 2) :
    binary64 x = (n : ℚ) * (2 : ℚ) ^ (e - 52) := by
  have hx : x ≠ 0 := by
    intro h
    rw [h, abs_zero] at h1
    have : (0 : ℚ) < (2 : ℚ) ^ e := by positivity
    linarith
  have hlog := log_two_eq_of_bracket |x| e h1 h2
  simp only [binary64, hx, if_false, hlog, max_eq_left hq]
  rw [roundHalfEven_eq_of_near _ n h3]

/-- The rounding error of `binary64`: at most `2 ^ (-53)` relative to the
argument, or `2 ^ (-1075)` in the subnormal range. -/
theorem abs_binary64_sub_le (x : ℚ) :
    |binary64 x - x| ≤ (2 : ℚ) ^ (-53 : ℤ) * |x| + (2 : ℚ) ^ (-1075 : ℤ) := by
  by_cases hx : x = 0
  · simp [binary64, hx]
    positivity
  · have hpos : 0 < |x| := abs_pos.mpr hx
    have hlog : (2 : ℚ) ^ (Int.log 2 |x|) ≤ |x| := by
      have := Int.zpow_log_le_self (b := 2) (by norm_num) hpos
      exact_mod_cast this
    simp only [binary64, hx, if_false]
    set q : ℤ := max (Int.log 2 |x| - 52) (-1074) with hq
    have h2q : (0 : ℚ) < (2 : ℚ) ^ q := by positivity
    have hr := abs_roundHalfEven_sub_le (x / (2 : ℚ) ^ q)
    have hkey : |(roundHalfEven (x / (2 : ℚ) ^ q) : ℚ) * (2 : ℚ) ^ q - x|
        ≤ (2 : ℚ) ^ q / 2 := by
      have : (roundHalfEven (x / (2 : ℚ) ^ q) : ℚ) * (2 : ℚ) ^ q - x
          = ((roundHalfEven (x / (2 : ℚ) ^ q) : ℚ) - x / (2 : ℚ) ^ q) * (2 : ℚ) ^ q := by
        field_simp
      rw [this, abs_mul, abs_of_pos h2q]
      calc |(roundHalfEven (x / (2 : ℚ) ^ q) : ℚ) - x / (2 : ℚ) ^ q| * (2 : ℚ) ^ q
          ≤ 1 / 2 * (2 : ℚ) ^ q := mul_le_mul_of_nonneg_right hr h2q.le
        _ = (2 : ℚ) ^ q / 2 := by ring
    have hη : (0 : ℚ) < (2 : ℚ) ^ (-1075 : ℤ) := by positivity
    have hu : (0 : ℚ) ≤ (2 : ℚ) ^ (-53 : ℤ) * |x| := by positivity
    rcases le_total (-1074) (Int.log 2 |x| - 52) with hc | hc
    · have hqe : q = Int.log 2 |x| - 52 := max_eq_left hc
      have h2 : (2 : ℚ) ^ q / 2 = (2 : ℚ) ^ (-53 : ℤ) * (2 : ℚ) ^ (Int.log 2 |x|) := by
        rw [hqe, ← zpow_add₀ (by norm_num : (2 : ℚ) ≠ 0)]
        have : Int.log 2 |x| - 52 = (-53 + Int.log 2 |x|) + 1 := by ring
        rw [this, zpow_add_one₀ (by norm_num : (2 : ℚ) ≠ 0)]
        ring
      have h3 : (2 : ℚ) ^ (-53 : ℤ) * (2 : ℚ) ^ (Int.log 2 |x|) ≤ (2 : ℚ) ^ (-53 : ℤ) * |x| :=
        mul_le_mul_of_nonneg_left hlog (by positivity)
      linarith
    · have hqe : q = -1074 := max_eq_right hc
      have h2 : (2 : ℚ) ^ q / 2 = (2 : ℚ) ^ (-1075 : ℤ) := by
        rw [hqe]
        have : (-1074 : ℤ) = -1075 + 1 := by norm_num
        rw [this, zpow_add_one₀ (by norm_num : (2 : ℚ) ≠ 0)]
        ring
      linarith

/-- Evaluation of `binary64` at a positive rational of the normal range, with
the rounding interval written without division. -/
theorem binary64_eq_of_near_pos (x : ℚ) (e n : ℤ) (hx : 0 < x) (h1 : (2 : ℚ) ^ e ≤ x)
    (h2 : x < (2 : ℚ) ^ (e + 1)) (hq : -1074 ≤ e - 52)
    (h3 : ((n : ℚ) - 1 / 2) * (2 : ℚ) ^ (e - 52) < x)
    (h4 : x < ((n : ℚ) + 1 / 2) * (2 : ℚ) ^ (e - 52)) :
    binary64 x = (n : ℚ) * (2 : ℚ) ^ (e - 52) := by
  have hp : (0 : ℚ) < (2 : ℚ) ^ (e - 52) := by positivity
  apply binary64_eq_of_near x e n
  · rwa [abs_of_pos hx]
  · rwa [abs_of_pos hx]
  · exact hq
  · rw [abs_lt]
    constructor
    · rw [lt_sub_iff_add_lt, lt_div_iff₀ hp]
      linarith
    · rw [sub_lt_iff_lt_add, div_lt_iff₀ hp]
      linarith

/-- Counterexample to C3 as stated: for the aggregate `(1, 7, 19, 19)` the four
rounded subtractions give `90 + 2 ^ (-46)`, printed `90.00000000000001`, while
the formula `max(0, 100 - (1*0.05 + 7*0.01 + 19*0.02 + 19*0.5))` is `90`; the
letter of the returned score is `A+`, that of the formula `A`. -/
theorem gradeFromStats64_counterexample :
    gradeFromStats64 ⟨some 1, some 7, some 19, some 19⟩ = 90 + 1 / 70368744177664 ∧
    max (0 : ℚ) (100 - (1 * 0.05 + 7 * 0.01 + 19 * 0.02 + 19 * 0.5)) = 90 ∧
    letterFromScore (gradeFromStats64 ⟨some 1, some 7, some 19, some 19⟩) = "A+" ∧
    letterFromScore (max (0 : ℚ) (100 - (1 * 0.05 + 7 * 0.01 + 19 * 0.02 + 19 * 0.5))) = "A" := by
  have hc1 : binary64 0.05 = 3602879701896397 / 72057594037927936 := by
    rw [binary64_eq_of_near_pos (0.05 : ℚ) (-5) 7205759403792794 (by norm_num) (by norm_num) (by norm_num)
      (by norm_num) (by norm_num) (by norm_num)]
    norm_num
  have hp1 : binary64 (1 * (3602879701896397 / 72057594037927936)) = 3602879701896397 / 72057594037927936 := by
    rw [binary64_eq_of_near_pos ((1 * (3602879701896397 / 72057594037927936)) : ℚ) (-5) 7205759403792794 (by norm_num) (by norm_num) (by norm_num)
      (by norm_num) (by norm_num) (by norm_num)]
    norm_num
  have hs1 : binary64 (100 - 3602879701896397 / 72057594037927936) = 7033355980557517 / 70368744177664 := by
    rw [binary64_eq_of_near_pos ((100 - 3602879701896397 / 72057594037927936) : ℚ) (6) 7033355980557517 (by norm_num) (by norm_num) (by norm_num)
      (by norm_num) (by norm_num) (by norm_num)]
    norm_num
  have hc2 : binary64 0.01 = 5764607523034235 / 576460752303423488 := by
    rw [binary64_eq_of_near_pos (0.01 : ℚ) (-7) 5764607523034235 (by norm_num) (by norm_num) (by norm_num)
      (by norm_num) (by norm_num) (by norm_num)]
    norm_num
  have hp2 : binary64 (7 * (5764607523034235 / 576460752303423488)) = 1261007895663739 / 18014398509481984 := by
    rw [binary64_eq_of_near_pos ((7 * (5764607523034235 / 576460752303423488)) : ℚ) (-4) 5044031582654956 (by norm_num) (by norm_num) (by norm_num)
      (by norm_num) (by norm_num) (by norm_num)]
    norm_num
  have hs2 : binary64 (7033355980557517 / 70368744177664 - 1261007895663739 / 18014398509481984) = 7028430168465081 / 70368744177664 := by
    rw [binary64_eq_of_near_pos ((7033355980557517 / 70368744177664 - 1261007895663739 / 18014398509481984) : ℚ) (6) 7028430168465081 (by norm_num) (by norm_num) (by norm_num)
      (by norm_num) (by norm_num) (by norm_num)]
    norm_num
  have hc3 : binary64 0.02 = 5764607523034235 / 288230376151711744 := by
    rw [binary64_eq_of_near_pos (0.02 : ℚ) (-6) 5764607523034235 (by norm_num) (by norm_num) (by norm_num)
      (by norm_num) (by norm_num) (by norm_num)]
    norm_num
  have hp3 : binary64 (19 * (5764607523034235 / 288230376151711744)) = 3422735716801577 / 9007199254740992 := by
    rw [binary64_eq_of_near_pos ((19 * (5764607523034235 / 288230376151711744)) : ℚ) (-2) 6845471433603154 (by norm_num) (by norm_num) (by norm_num)
      (by norm_num) (by norm_num) (by norm_num)]
    norm_num
  have hs3 : binary64 (7028430168465081 / 70368744177664 - 3422735716801577 / 9007199254740992) = 7001690045677569 / 70368744177664 := by
    rw [binary64_eq_of_near_pos ((7028430168465081 / 70368744177664 - 3422735716801577 / 9007199254740992) : ℚ) (6) 7001690045677569 (by norm_num) (by norm_num) (by norm_num)
      (by norm_num) (by norm_num) (by norm_num)]
    norm_num
  have hc4 : binary64 0.5 = 1 / 2 := by
    rw [binary64_eq_of_near_pos (0.5 : ℚ) (-1) 4503599627370496 (by norm_num) (by norm_num) (by norm_num)
      (by norm_num) (by norm_num) (by norm_num)]
    norm_num
  have hp4 : binary64 (19 * (1 / 2)) = 19 / 2 := by
    rw [binary64_eq_of_near_pos ((19 * (1 / 2)) : ℚ) (3) 5348024557502464 (by norm_num) (by norm_num) (by norm_num)
      (by norm_num) (by norm_num) (by norm_num)]
    norm_num
  have hs4 : binary64 (7001690045677569 / 70368744177664 - 19 / 2) = 6333186975989761 / 70368744177664 := by
    rw [binary64_eq_of_near_pos ((7001690045677569 / 70368744177664 - 19 / 2) : ℚ) (6) 6333186975989761 (by norm_num) (by norm_num) (by norm_num)
      (by norm_num) (by norm_num) (by norm_num)]
    norm_num
  have hval : gradeFromStats64 ⟨some 1, some 7, some 19, some 19⟩
      = 90 + 1 / 70368744177664 := by
    simp only [gradeFromStats64, Option.getD_some]
    rw [hc1, hp1, hs1, hc2, hp2, hs2, hc3, hp3, hs3, hc4, hp4, hs4]
    norm_num
  have hform : max (0 : ℚ) (100 - (1 * 0.05 + 7 * 0.01 + 19 * 0.02 + 19 * 0.5)) = 90 := by
    norm_num
  refine ⟨hval, hform, ?_, ?_⟩
  · rw [hval]
    unfold letterFromScore
    rw [if_pos (by norm_num)]
  · rw [hform]
    unfold letterFromScore
    rw [if_neg (by norm_num), if_pos (by norm_num)]

/-- The literals of `gradeFromStats` as binary64 numbers. -/
theorem binary64_literals :
    binary64 0.05 = 3602879701896397 / 72057594037927936 ∧
    binary64 0.01 = 5764607523034235 / 576460752303423488 ∧
    binary64 0.02 = 5764607523034235 / 288230376151711744 ∧
    binary64 0.5 = 1 / 2 := by
  refine ⟨?_, ?_, ?_, ?_⟩
  · rw [binary64_eq_of_near_pos (0.05 : ℚ) (-5) 7205759403792794 (by norm_num) (by norm_num)
      (by norm_num) (by norm_num) (by norm_num) (by norm_num)]
    norm_num
  · rw [binary64_eq_of_near_pos (0.01 : ℚ) (-7) 5764607523034235 (by norm_num) (by norm_num)
      (by norm_num) (by norm_num) (by norm_num) (by norm_num)]
    norm_num
  · rw [binary64_eq_of_near_pos (0.02 : ℚ) (-6) 5764607523034235 (by norm_num) (by norm_num)
      (by norm_num) (by norm_num) (by norm_num) (by norm_num)]
    norm_num
  · rw [binary64_eq_of_near_pos (0.5 : ℚ) (-1) 4503599627370496 (by norm_num) (by norm_num)
      (by norm_num) (by norm_num) (by norm_num) (by norm_num)]
    norm_num

/-- One line `score -= x * a` of `gradeFromStats` in binary64, against the
exact `T - α * x`: the error grows by a few units of `2 ^ (-53)` relative to
the magnitudes involved, and the magnitude of the score stays controlled. -/
theorem binary64_stage (s T x a α : ℚ) (hα : 0 < α)
    (ha : |a - α| ≤ (2 : ℚ) ^ (-53 : ℤ) * α) :
    |binary64 (s - binary64 (x * a)) - (T - α * x)|
      ≤ |s - T| + (2 : ℚ) ^ (-53 : ℤ) * (|s| + |α * x|) + 4 * (2 : ℚ) ^ (-53 : ℤ) * |α * x|
        + 3 * (2 : ℚ) ^ (-1075 : ℤ) ∧
    |binary64 (s - binary64 (x * a))|
      ≤ (1 + 5 * (2 : ℚ) ^ (-53 : ℤ)) * (|s| + |α * x|) + 3 * (2 : ℚ) ^ (-1075 : ℤ) := by
  have hU : (2 : ℚ) ^ (-53 : ℤ) = 1 / 9007199254740992 := by norm_num
  have hE : (0 : ℚ) < (2 : ℚ) ^ (-1075 : ℤ) := by positivity
  have hp := abs_binary64_sub_le (x * a)
  have hs := abs_binary64_sub_le (s - binary64 (x * a))
  rw [hU] at ha hp hs ⊢
  generalize (2 : ℚ) ^ (-1075 : ℤ) = E at hE hp hs ⊢
  generalize hpd : binary64 (x * a) = p at hp hs ⊢
  generalize hsd : binary64 (s - p) = s' at hs ⊢
  have hY : |x * a - α * x| ≤ 1 / 9007199254740992 * |α * x| := by
    have h1 : x * a - α * x = x * (a - α) := by ring
    rw [h1, abs_mul, abs_mul, abs_of_pos hα]
    calc |x| * |a - α| ≤ |x| * (1 / 9007199254740992 * α) :=
          mul_le_mul_of_nonneg_left ha (abs_nonneg x)
      _ = 1 / 9007199254740992 * (α * |x|) := by ring
  have hY0 : 0 ≤ |α * x| := abs_nonneg _
  have hs0 : 0 ≤ |s| := abs_nonneg _
  have hxa : |x * a| ≤ |α * x| + 1 / 9007199254740992 * |α * x| := by
    have := abs_add (x * a - α * x) (α * x)
    rw [sub_add_cancel] at this
    linarith
  have hpY : |p - α * x| ≤ 3 * (1 / 9007199254740992) * |α * x| + E := by
    have := abs_sub_le p (x * a) (α * x)
    linarith
  have hpabs : |p| ≤ |α * x| + 3 * (1 / 9007199254740992) * |α * x| + E := by
    have := abs_add (p - α * x) (α * x)
    rw [sub_add_cancel] at this
    linarith
  have hsp : |s - p| ≤ |s| + |p| := by
    have := abs_add s (-p)
    rw [abs_neg, ← sub_eq_add_neg] at this
    exact this
  have hs'1 : |s' - (s - p)| ≤ 1 / 9007199254740992 * (|s| + |α * x|)
      + 1 / 9007199254740992 * |α * x| + 2 * E := by
    linarith
  constructor
  · have h1 : s' - (T - α * x) = (s' - (s - p)) + ((s - T) - (p - α * x)) := by ring
    have h2 := abs_add (s' - (s - p)) ((s - T) - (p - α * x))
    have h3 := abs_sub (s - T) (p - α * x)
    rw [h1]
    linarith
  · have h2 := abs_add (s' - (s - p)) (s - p)
    rw [sub_add_cancel] at h2
    linarith

/-- The binary64 literals of `gradeFromStats` are within `2 ^ (-53)`, relative,
of the decimal constants they are written as. -/
theorem binary64_literals_near :
    |binary64 0.05 - 0.05| ≤ (2 : ℚ) ^ (-53 : ℤ) * 0.05 ∧
    |binary64 0.01 - 0.01| ≤ (2 : ℚ) ^ (-53 : ℤ) * 0.01 ∧
    |binary64 0.02 - 0.02| ≤ (2 : ℚ) ^ (-53 : ℤ) * 0.02 ∧
    |binary64 0.5 - 0.5| ≤ (2 : ℚ) ^ (-53 : ℤ) * 0.5 := by
  obtain ⟨h1, h2, h3, h4⟩ := binary64_literals
  rw [h1, h2, h3, h4]
  refine ⟨?_, ?_, ?_, ?_⟩ <;> rw [abs_le] <;> constructor <;> norm_num

/-- Four lines `score -= x * a` in binary64 from the score 100, against the
exact `100 - (α₁ x₁ + α₂ x₂ + α₃ x₃ + α₄ x₄)`. -/
theorem binary64_four_stages (x1 x2 x3 x4 a1 a2 a3 a4 α1 α2 α3 α4 : ℚ)
    (hα1 : 0 < α1) (hα2 : 0 < α2) (hα3 : 0 < α3) (hα4 : 0 < α4)
    (h1 : |a1 - α1| ≤ (2 : ℚ) ^ (-53 : ℤ) * α1) (h2 : |a2 - α2| ≤ (2 : ℚ) ^ (-53 : ℤ) * α2)
    (h3 : |a3 - α3| ≤ (2 : ℚ) ^ (-53 : ℤ) * α3) (h4 : |a4 - α4| ≤ (2 : ℚ) ^ (-53 : ℤ) * α4) :
    |binary64 (binary64 (binary64 (binary64 (100 - binary64 (x1 * a1)) - binary64 (x2 * a2))
          - binary64 (x3 * a3)) - binary64 (x4 * a4))
        - (100 - (x1 * α1 + x2 * α2 + x3 * α3 + x4 * α4))|
      ≤ (2 : ℚ) ^ (-49 : ℤ) * (100 + α1 * |x1| + α2 * |x2| + α3 * |x3| + α4 * |x4|)
        + (2 : ℚ) ^ (-1071 : ℤ) := by
  obtain ⟨e1, m1⟩ := binary64_stage 100 100 x1 a1 α1 hα1 h1
  obtain ⟨e2, m2⟩ := binary64_stage (binary64 (100 - binary64 (x1 * a1))) (100 - α1 * x1)
    x2 a2 α2 hα2 h2
  obtain ⟨e3, m3⟩ := binary64_stage
    (binary64 (binary64 (100 - binary64 (x1 * a1)) - binary64 (x2 * a2)))
    (100 - α1 * x1 - α2 * x2) x3 a3 α3 hα3 h3
  obtain ⟨e4, -⟩ := binary64_stage
    (binary64 (binary64 (binary64 (100 - binary64 (x1 * a1)) - binary64 (x2 * a2))
      - binary64 (x3 * a3)))
    (100 - α1 * x1 - α2 * x2 - α3 * x3) x4 a4 α4 hα4 h4
  have hU : (2 : ℚ) ^ (-53 : ℤ) = 1 / 9007199254740992 := by norm_num
  have hV : (2 : ℚ) ^ (-49 : ℤ) = 16 * (1 / 9007199254740992) := by norm_num
  have hE : (0 : ℚ) < (2 : ℚ) ^ (-1075 : ℤ) := by positivity
  have hW : (2 : ℚ) ^ (-1071 : ℤ) = 16 * (2 : ℚ) ^ (-1075 : ℤ) := by
    have : (-1071 : ℤ) = 4 + -1075 := by norm_num
    rw [this, zpow_add₀ (by norm_num : (2 : ℚ) ≠ 0)]
    norm_num
  have hT : (100 : ℚ) - (x1 * α1 + x2 * α2 + x3 * α3 + x4 * α4)
      = 100 - α1 * x1 - α2 * x2 - α3 * x3 - α4 * x4 := by ring
  rw [hT, hV, hW]
  rw [hU] at e1 m1 e2 m2 e3 m3 e4
  rw [abs_mul α1, abs_of_pos hα1] at e1 m1
  rw [abs_mul α2, abs_of_pos hα2] at e2 m2
  rw [abs_mul α3, abs_of_pos hα3] at e3 m3
  rw [abs_mul α4, abs_of_pos hα4] at e4
  rw [sub_self, abs_zero] at e1
  have h100 : |(100 : ℚ)| = 100 := abs_of_pos (by norm_num)
  rw [h100] at e1 m1
  have y1 : 0 ≤ α1 * |x1| := mul_nonneg hα1.le (abs_nonneg _)
  have y2 : 0 ≤ α2 * |x2| := mul_nonneg hα2.le (abs_nonneg _)
  have y3 : 0 ≤ α3 * |x3| := mul_nonneg hα3.le (abs_nonneg _)
  have y4 : 0 ≤ α4 * |x4| := mul_nonneg hα4.le (abs_nonneg _)
  generalize (2 : ℚ) ^ (-1075 : ℤ) = E at hE e1 m1 e2 m2 e3 m3 e4 ⊢
  generalize binary64 (100 - binary64 (x1 * a1)) = s1 at e1 m1 e2 m2 e3 m3 e4 ⊢
  generalize binary64 (s1 - binary64 (x2 * a2)) = s2 at e2 m2 e3 m3 e4 ⊢
  generalize binary64 (s2 - binary64 (x3 * a3)) = s3 at e3 m3 e4 ⊢
  generalize binary64 (s3 - binary64 (x4 * a4)) = s4 at e4 ⊢
  linarith

/-- C3, amended: for every aggregate, a missing component being read as `0`,
the value `gradeFromStats` computes in binary64 is never negative and is within
`2 ^ (-49) * (100 + 0.05 |cookies| + 0.01 |cache| + 0.02 |trackers| +
0.5 |fingerprints|) + 2 ^ (-1071)` of
`max(0, 100 - (cookies*0.05 + cache*0.01 + trackers*0.02 + fingerprints*0.5))`;
in exact arithmetic the four subtractions give that formula itself. -/
theorem gradeFromStats64_near_formula (a : GradeInput ℚ) :
    |gradeFromStats64 a
        - max 0 (100 - (a.cookies.getD 0 * 0.05 + a.cache.getD 0 * 0.01
            + a.trackers.getD 0 * 0.02 + a.fingerprints.getD 0 * 0.5))|
      ≤ (2 : ℚ) ^ (-49 : ℤ) * (100 + 0.05 * |a.cookies.getD 0| + 0.01 * |a.cache.getD 0|
          + 0.02 * |a.trackers.getD 0| + 0.5 * |a.fingerprints.getD 0|)
        + (2 : ℚ) ^ (-1071 : ℤ) ∧
    0 ≤ gradeFromStats64 a ∧
    gradeFromStats a
      = max 0 (100 - (a.cookies.getD 0 * 0.05 + a.cache.getD 0 * 0.01
          + a.trackers.getD 0 * 0.02 + a.fingerprints.getD 0 * 0.5)) := by
  obtain ⟨h1, h2, h3, h4⟩ := binary64_literals_near
  have h := binary64_four_stages (a.cookies.getD 0) (a.cache.getD 0) (a.trackers.getD 0)
    (a.fingerprints.getD 0) (binary64 0.05) (binary64 0.01) (binary64 0.02) (binary64 0.5)
    0.05 0.01 0.02 0.5 (by norm_num) (by norm_num) (by norm_num) (by norm_num) h1 h2 h3 h4
  refine ⟨?_, ?_, ?_⟩
  · unfold gradeFromStats64
    simp only
    rw [max_comm (0 : ℚ) (binary64 _), max_comm (0 : ℚ) (100 - _)]
    exact le_trans (abs_max_sub_max_le_abs _ _ _) h
  · unfold gradeFromStats64
    exact le_max_left _ _
  · simp only [gradeFromStats]
    congr 1
    ring

/-- The magnitude of a rounded number. -/
theorem abs_binary64_le (x : ℚ) :
    |binary64 x| ≤ (1 + (2 : ℚ) ^ (-53 : ℤ)) * |x| + (2 : ℚ) ^ (-1075 : ℤ) := by
  have h := abs_binary64_sub_le x
  have h2 := abs_add (binary64 x - x) x
  rw [sub_add_cancel] at h2
  linarith

/-- No operation of `gradeFromStats64` overflows: for components that are at
most the largest finite binary64 number in magnitude, each of the four rounded
products and each of the four rounded differences is at most that number in
magnitude, so the rounding with an unbounded exponent is the binary64
rounding. -/
theorem gradeFromStats64_no_overflow (x1 x2 x3 x4 : ℚ)
    (h1 : |x1| ≤ maxBinary64) (h2 : |x2| ≤ maxBinary64) (h3 : |x3| ≤ maxBinary64)
    (h4 : |x4| ≤ maxBinary64) :
    |binary64 (x1 * binary64 0.05)| ≤ maxBinary64 ∧
    |binary64 (100 - binary64 (x1 * binary64 0.05))| ≤ maxBinary64 ∧
    |binary64 (x2 * binary64 0.01)| ≤ maxBinary64 ∧
    |binary64 (binary64 (100 - binary64 (x1 * binary64 0.05)) - binary64 (x2 * binary64 0.01))|
      ≤ maxBinary64 ∧
    |binary64 (x3 * binary64 0.02)| ≤ maxBinary64 ∧
    |binary64 (binary64 (binary64 (100 - binary64 (x1 * binary64 0.05))
        - binary64 (x2 * binary64 0.01)) - binary64 (x3 * binary64 0.02))| ≤ maxBinary64 ∧
    |binary64 (x4 * binary64 0.5)| ≤ maxBinary64 ∧
    |binary64 (binary64 (binary64 (binary64 (100 - binary64 (x1 * binary64 0.05))
        - binary64 (x2 * binary64 0.01)) - binary64 (x3 * binary64 0.02))
        - binary64 (x4 * binary64 0.5))| ≤ maxBinary64 := by
  obtain ⟨c1, c2, c3, c4⟩ := binary64_literals
  rw [c1, c2, c3, c4]
  have hM : (1000 : ℚ) ≤ maxBinary64 := by
    unfold maxBinary64
    norm_num
  have hU : (2 : ℚ) ^ (-53 : ℤ) = 1 / 9007199254740992 := by norm_num
  have hE0 : (0 : ℚ) < (2 : ℚ) ^ (-1075 : ℤ) := by positivity
  have hE1 : (2 : ℚ) ^ (-1075 : ℤ) ≤ 1 := by
    apply zpow_le_one_of_nonpos₀ (by norm_num) (by norm_num)
  have p1 := abs_binary64_le (x1 * (3602879701896397 / 72057594037927936))
  have p2 := abs_binary64_le (x2 * (5764607523034235 / 576460752303423488))
  have p3 := abs_binary64_le (x3 * (5764607523034235 / 288230376151711744))
  have p4 := abs_binary64_le (x4 * (1 / 2))
  rw [abs_mul, abs_of_pos (by norm_num : (0 : ℚ) < 3602879701896397 / 72057594037927936)] at p1
  rw [abs_mul, abs_of_pos (by norm_num : (0 : ℚ) < 5764607523034235 / 576460752303423488)] at p2
  rw [abs_mul, abs_of_pos (by norm_num : (0 : ℚ) < 5764607523034235 / 288230376151711744)] at p3
  rw [abs_mul, abs_of_pos (by norm_num : (0 : ℚ) < 1 / 2)] at p4
  generalize binary64 (x1 * (3602879701896397 / 72057594037927936)) = q1 at p1 ⊢
  generalize binary64 (x2 * (5764607523034235 / 576460752303423488)) = q2 at p2 ⊢
  generalize binary64 (x3 * (5764607523034235 / 288230376151711744)) = q3 at p3 ⊢
  generalize binary64 (x4 * (1 / 2)) = q4 at p4 ⊢
  have s1 := abs_binary64_le (100 - q1)
  have t1 := abs_sub (100 : ℚ) q1
  rw [abs_of_pos (by norm_num : (0 : ℚ) < 100)] at t1
  generalize binary64 (100 - q1) = r1 at s1 ⊢
  have s2 := abs_binary64_le (r1 - q2)
  have t2 := abs_sub r1 q2
  generalize binary64 (r1 - q2) = r2 at s2 ⊢
  have s3 := abs_binary64_le (r2 - q3)
  have t3 := abs_sub r2 q3
  generalize binary64 (r2 - q3) = r3 at s3 ⊢
  have s4 := abs_binary64_le (r3 - q4)
  have t4 := abs_sub r3 q4
  generalize binary64 (r3 - q4) = r4 at s4 ⊢
  rw [hU] at p1 p2 p3 p4 s1 s2 s3 s4
  generalize (2 : ℚ) ^ (-1075 : ℤ) = E at *
  generalize maxBinary64 = M at *
  have a1 := abs_nonneg x1
  have a2 := abs_nonneg x2
  have a3 := abs_nonneg x3
  have a4 := abs_nonneg x4
  refine ⟨?_, ?_, ?_, ?_, ?_, ?_, ?_, ?_⟩ <;> linarith

/-- C4: for non-negative components the grade lies in `[0, 100]`, and the
all-zero aggregate grades exactly `100`. -/
theorem gradeFromStats_range {α : Type} [LinearOrderedField α] (cookies cache trackers fingerprints : α)
    (hc : 0 ≤ cookies) (hk : 0 ≤ cache) (ht : 0 ≤ trackers) (hf : 0 ≤ fingerprints) :
    0 ≤ gradeFromStats (AggregateStats.toInput ⟨cookies, cache, trackers, fingerprints⟩) ∧
    gradeFromStats (AggregateStats.toInput ⟨cookies, cache, trackers, fingerprints⟩) ≤ 100 ∧
    gradeFromStats (AggregateStats.toInput (⟨0, 0, 0, 0⟩ : AggregateStats α)) = 100 := by
  refine ⟨?_, ?_, ?_⟩
  · exact le_max_left _ _
  · simp only [gradeFromStats, AggregateStats.toInput, Option.getD_some]
    apply max_le
    · norm_num
    · have h1 : 0 ≤ cookies * 0.05 := mul_nonneg hc (by norm_num)
      have h2 : 0 ≤ cache * 0.01 := mul_nonneg hk (by norm_num)
      have h3 : 0 ≤ trackers * 0.02 := mul_nonneg ht (by norm_num)
      have h4 : 0 ≤ fingerprints * 0.5 := mul_nonneg hf (by norm_num)
      linarith
  · simp [gradeFromStats, AggregateStats.toInput]

/-- Witness for C4 on the rational aggregate `(10, 0, 3, 1)`. -/
theorem gradeFromStats_range_witness :
    (0 : ℚ) ≤ 10 ∧ (0 : ℚ) ≤ 0 ∧ (0 : ℚ) ≤ 3 ∧ (0 : ℚ) ≤ 1 ∧
    (0 ≤ gradeFromStats (AggregateStats.toInput (⟨10, 0, 3, 1⟩ : AggregateStats ℚ)) ∧
     gradeFromStats (AggregateStats.toInput (⟨10, 0, 3, 1⟩ : AggregateStats ℚ)) ≤ 100 ∧
     gradeFromStats (AggregateStats.toInput (⟨0, 0, 0, 0⟩ : AggregateStats ℚ)) = 100) :=
  ⟨by norm_num, by norm_num, by norm_num, by norm_num,
    gradeFromStats_range (10 : ℚ) 0 3 1 (by norm_num) (by norm_num) (by norm_num) (by norm_num)⟩

/-- C5: the letter thresholds are strict: `A+` iff `score > 90`, `A` iff
`80 < score ≤ 90`, `B` iff `70 < score ≤ 80`, `C` iff `60 < score ≤ 70`, `D`
iff `score ≤ 60`; so `90` maps to `A` and `60` to `D`. -/
theorem letterFromScore_thresholds {α : Type} [LinearOrderedField α] (score : α) :
    (letterFromScore score = "A+" ↔ 90 < score) ∧
    (letterFromScore score = "A" ↔ 80 < score ∧ score ≤ 90) ∧
    (letterFromScore score = "B" ↔ 70 < score ∧ score ≤ 80) ∧
    (letterFromScore score = "C" ↔ 60 < score ∧ score ≤ 70) ∧
    (letterFromScore score = "D" ↔ score ≤ 60) ∧
    letterFromScore (90 : α) = "A" ∧ letterFromScore (60 : α) = "D" := by
  have e90 : letterFromScore (90 : α) = "A" := by
    unfold letterFromScore
    rw [if_neg (lt_irrefl _), if_pos (by norm_num)]
  have e60 : letterFromScore (60 : α) = "D" := by
    unfold letterFromScore
    rw [if_neg (by norm_num), if_neg (by norm_num), if_neg (by norm_num), if_neg (lt_irrefl _)]
  refine ⟨?_, ?_, ?_, ?_, ?_, e90, e60⟩ <;>
  · unfold letterFromScore
    split_ifs with h90 h80 h70 h60 <;>
    simp only [gt_iff_lt, not_lt] at * <;>
    simp <;>
    first
      | assumption
      | (intros; linarith)
      | (constructor <;> linarith)

/-- The loop of `computeAggregateStats` adds, to each accumulator, the decayed
sum over the sites whose `lastSeenOf` is non-zero. -/
theorem foldl_aggregateStep {α : Type} [LinearOrderedField α] (exp : α → α) (now halfLife : α)
    (l : List (SiteStat α)) (acc : AggregateStats α) :
    l.foldl (aggregateStep exp now halfLife) acc
      = ⟨acc.cookies + ((l.filter (fun s => lastSeenOf s ≠ 0)).map
            (fun s => s.cookies * exp (-(max 0 (now - lastSeenOf s)) / halfLife))).sum,
         acc.cache + ((l.filter (fun s => lastSeenOf s ≠ 0)).map
            (fun s => s.cache * exp (-(max 0 (now - lastSeenOf s)) / halfLife))).sum,
         acc.trackers + ((l.filter (fun s => lastSeenOf s ≠ 0)).map
            (fun s => s.trackers * exp (-(max 0 (now - lastSeenOf s)) / halfLife))).sum,
         acc.fingerprints + ((l.filter (fun s => lastSeenOf s ≠ 0)).map
            (fun s => s.fingerprints * exp (-(max 0 (now - lastSeenOf s)) / halfLife))).sum⟩ := by
  induction l generalizing acc with
  | nil => simp
  | cons s l ih =>
    rw [List.foldl_cons, ih]
    by_cases h : lastSeenOf s = 0
    · simp [aggregateStep, h]
    · simp [aggregateStep, h, decayWeight, add_assoc]

/-- Counterexample to C6 as stated: a site whose `lastSeen` is `0` but whose
`lastSeenTime` is `5` contributes its cookie total `1` at `now = 5`, whereas
the sum over the sites with non-zero `lastSeen` is `0`. -/
theorem computeAggregateStats_lastSeenTime_counterexample :
    (computeAggregateStats Real.exp [("a.example", (⟨1, 0, 0, 0, 0, 5⟩ : SiteStat ℝ))] 5 1).cookies = 1 ∧
    decayedSum Real.exp 5 1 SiteStat.lastSeen SiteStat.cookies
      [("a.example", (⟨1, 0, 0, 0, 0, 5⟩ : SiteStat ℝ))] = 0 := by
  constructor
  · simp [computeAggregateStats, aggregateStep, lastSeenOf, decayWeight]
  · simp [decayedSum]

/-- C6, amended: for every site-stats map, every `now` and every positive
half-life, each component of `computeAggregateStats` is the sum, over exactly
the sites whose effective time stamp `lastSeenOf` (the stored `lastSeen`, or
`lastSeenTime` when `lastSeen` is `0`) is non-zero, of the raw total times
`exp(-max(0, now - lastSeenOf) / halfLife)`; a site whose effective time stamp
is `0` leaves the accumulators unchanged, and one whose effective time stamp
is at or after `now` has weight `1`. -/
theorem computeAggregateStats_eq_decayedSum (siteStats : List (String × SiteStat ℝ))
    (now halfLife : ℝ) (hpos : 0 < halfLife) :
    (computeAggregateStats Real.exp siteStats now halfLife).cookies
      = decayedSum Real.exp now halfLife lastSeenOf SiteStat.cookies siteStats ∧
    (computeAggregateStats Real.exp siteStats now halfLife).cache
      = decayedSum Real.exp now halfLife lastSeenOf SiteStat.cache siteStats ∧
    (computeAggregateStats Real.exp siteStats now halfLife).trackers
      = decayedSum Real.exp now halfLife lastSeenOf SiteStat.trackers siteStats ∧
    (computeAggregateStats Real.exp siteStats now halfLife).fingerprints
      = decayedSum Real.exp now halfLife lastSeenOf SiteStat.fingerprints siteStats ∧
    (∀ (acc : AggregateStats ℝ) (s : SiteStat ℝ), lastSeenOf s = 0 →
      aggregateStep Real.exp now halfLife acc s = acc) ∧
    (∀ s : SiteStat ℝ, lastSeenOf s ≠ 0 → now ≤ lastSeenOf s →
      decayWeight Real.exp now halfLife (lastSeenOf s) = 1 ∧
      computeAggregateStats Real.exp [("site", s)] now halfLife
        = ⟨s.cookies, s.cache, s.trackers, s.fingerprints⟩) := by
  have _ := hpos
  refine ⟨?_, ?_, ?_, ?_, ?_, ?_⟩
  · simp [computeAggregateStats, foldl_aggregateStep, decayedSum]
  · simp [computeAggregateStats, foldl_aggregateStep, decayedSum]
  · simp [computeAggregateStats, foldl_aggregateStep, decayedSum]
  · simp [computeAggregateStats, foldl_aggregateStep, decayedSum]
  · intro acc s h
    simp [aggregateStep, h]
  · intro s hne hle
    have hmax : max 0 (now - lastSeenOf s) = 0 := max_eq_left (by linarith)
    have hw : decayWeight Real.exp now halfLife (lastSeenOf s) = 1 := by
      simp [decayWeight, hmax]
    refine ⟨hw, ?_⟩
    simp [computeAggregateStats, aggregateStep, hne, hw]

/-- Witness for the amended C6: two sites at `now = 10`, half-life `2`, one
never seen and one seen at `now`. -/
theorem computeAggregateStats_eq_decayedSum_witness :
    (0 : ℝ) < 2 ∧
    (computeAggregateStats Real.exp
        [("a.example", (⟨3, 1, 0, 0, 0, 0⟩ : SiteStat ℝ)), ("b.example", ⟨4, 0, 2, 1, 10, 0⟩)]
        10 2).cookies
      = decayedSum Real.exp 10 2 lastSeenOf SiteStat.cookies
        [("a.example", (⟨3, 1, 0, 0, 0, 0⟩ : SiteStat ℝ)), ("b.example", ⟨4, 0, 2, 1, 10, 0⟩)] :=
  ⟨by norm_num,
    (computeAggregateStats_eq_decayedSum
      [("a.example", (⟨3, 1, 0, 0, 0, 0⟩ : SiteStat ℝ)), ("b.example", ⟨4, 0, 2, 1, 10, 0⟩)]
      10 2 (by norm_num)).1⟩

/-- The weight one half-life back is `exp(-1)`, which is below one half. -/
theorem exp_neg_one_lt_half : Real.exp (-1) < 1 / 2 := by
  rw [Real.exp_neg, inv_lt_comm₀ (Real.exp_pos 1) (by norm_num)]
  have := Real.exp_one_gt_d9
  norm_num at this ⊢
  linarith

/-- C7 on the code: a site last seen exactly one half-life before `now`
contributes `exp(-1)` times each raw total, and `exp(-1)` is strictly below one
half, so the contribution of a non-zero total is not half of it. -/
theorem contribution_one_halfLife_back (host : String) (s : SiteStat ℝ) (now halfLife : ℝ)
    (hpos : 0 < halfLife) (hseen : s.lastSeen = now - halfLife) (hne : s.lastSeen ≠ 0) :
    computeAggregateStats Real.exp [(host, s)] now halfLife
      = ⟨s.cookies * Real.exp (-1), s.cache * Real.exp (-1), s.trackers * Real.exp (-1),
          s.fingerprints * Real.exp (-1)⟩ ∧
    Real.exp (-1) < 1 / 2 := by
  refine ⟨?_, exp_neg_one_lt_half⟩
  have hls : lastSeenOf s = s.lastSeen := by simp [lastSeenOf, hne]
  have hage : max 0 (now - s.lastSeen) = halfLife := by
    rw [hseen]
    have : now - (now - halfLife) = halfLife := by ring
    rw [this]
    exact max_eq_right hpos.le
  have hw : decayWeight Real.exp now halfLife s.lastSeen = Real.exp (-1) := by
    simp only [decayWeight, hage]
    congr 1
    field_simp
  simp [computeAggregateStats, aggregateStep, hls, hne, hw]

/-- Witness for C7 at the failing input: half-life 24 h, a site with totals
`(2, 4, 6, 8)` last seen 24 h before `now`; its cookie contribution is
`2 * exp(-1)`, not `1`. -/
theorem contribution_one_halfLife_back_witness :
    (0 : ℝ) < 86400000 ∧ (86400000 : ℝ) = 172800000 - 86400000 ∧ (86400000 : ℝ) ≠ 0 ∧
    (computeAggregateStats Real.exp
        [("a.example", (⟨2, 4, 6, 8, 86400000, 0⟩ : SiteStat ℝ))] 172800000 86400000
      = ⟨2 * Real.exp (-1), 4 * Real.exp (-1), 6 * Real.exp (-1), 8 * Real.exp (-1)⟩ ∧
    Real.exp (-1) < 1 / 2) :=
  ⟨by norm_num, by norm_num, by norm_num,
    contribution_one_halfLife_back "a.example" (⟨2, 4, 6, 8, 86400000, 0⟩ : SiteStat ℝ)
      172800000 86400000 (by norm_num) (by norm_num) (by norm_num)⟩

/-! ### Tracker bookkeeping -/

/-- Reading a key back after `assign` gives the assigned value. -/
theorem lookup_assign_self {β : Type} (m : List (String × β)) (k : String) (v : β) :
    (assign m k v).lookup k = some v := by
  induction m with
  | nil => simp [assign, List.lookup]
  | cons e m ih =>
    obtain ⟨k0, v0⟩ := e
    unfold assign
    by_cases h : k0 = k
    · simp [h, List.lookup]
    · have hb : (k == k0) = false := by simpa using Ne.symm h
      simp [h, List.lookup, hb, ih]

/-- `persistPending` changes the store only. -/
theorem persistPending_memory (rt : Runtime) :
    (persistPending rt).blockedTrackers = rt.blockedTrackers ∧
    (persistPending rt).pendingTrackers = rt.pendingTrackers ∧
    (persistPending rt).activeBlockedDomains = rt.activeBlockedDomains ∧
    (persistPending rt).storedBlocked = rt.storedBlocked := by
  simp [persistPending]

/-- On a `Set`, `addAll` succeeds. -/
theorem addAll_set (xs cs : List String) :
    ∃ ys, (Categories.set xs).addAll cs = some (Categories.set ys) := by
  exact ⟨_, rfl⟩

/-- The effect of `handleDnrMatch` on the count of the URL's registrable
domain: one more, whether or not the domain is enforced. -/
theorem handleDnrMatch_count (parseHost : String → Option String) (now : Nat) (rt : Runtime)
    (url host : String) (hne : url ≠ "") (hhost : parseHost url = some host) (hh : host ≠ "") :
    blockedCount (handleDnrMatch parseHost now rt url) (hostBaseOf host)
      = blockedCount rt (hostBaseOf host) + 1 ∧
    (handleDnrMatch parseHost now rt url).pendingTrackers = rt.pendingTrackers ∧
    (handleDnrMatch parseHost now rt url).storedPending = rt.storedPending := by
  simp only [handleDnrMatch, hne, hhost, hh, if_false, persistBlockedTrackersNow, blockedCount,
    lookup_assign_self]
  cases rt.blockedTrackers.lookup (hostBaseOf host) with
  | none => simp
  | some b =>
    by_cases hb : b.firstBlocked = 0
    · simp [hb]
    · simp [hb]

/-- C8 on the code: for an enforced registrable domain whose pending record,
if any, holds a `Set` of categories, one rule-match event raises the
TrackerRecord count by 2 (once in the listener, once more in
`handleDnrMatch`) and the PendingTrackerRecord count by 1. -/
theorem onRuleMatchedDebug_enforced_counts (parseHost : String → Option String) (now : Nat)
    (rt : Runtime) (info : MatchInfo) (url host : String)
    (hurl : info.url = some url) (hne : url ≠ "") (hhost : parseHost url = some host)
    (hh : host ≠ "") (henf : hostBaseOf host ∈ rt.activeBlockedDomains)
    (hset : ∀ p, rt.pendingTrackers.lookup (hostBaseOf host) = some p →
      ∃ xs, p.categories = Categories.set xs) :
    blockedCount (onRuleMatchedDebug parseHost now rt info) (hostBaseOf host)
      = blockedCount rt (hostBaseOf host) + 2 ∧
    pendingCount (onRuleMatchedDebug parseHost now rt info) (hostBaseOf host)
      = pendingCount rt (hostBaseOf host) + 1 := by
  have hmem : rt.activeBlockedDomains.contains (hostBaseOf host) = true :=
    List.elem_eq_true_of_mem henf
  obtain ⟨ys, hadd⟩ : ∃ ys, (((rt.pendingTrackers.lookup (hostBaseOf host)).getD
      ⟨0, now, 0, .set []⟩).categories).addAll (info.categories.getD ["tracking"])
        = some (Categories.set ys) := by
    cases hl : rt.pendingTrackers.lookup (hostBaseOf host) with
    | none => exact addAll_set _ _
    | some p =>
      obtain ⟨xs, hxs⟩ := hset p hl
      simp only [Option.getD_some, hxs]
      exact addAll_set _ _
  simp only [onRuleMatchedDebug, hurl, hne, if_false, hhost, hadd]
  simp only [(persistPending_memory _).2.2.1, hmem, if_true]
  constructor
  · rw [(handleDnrMatch_count parseHost now _ url host hne hhost hh).1]
    simp only [blockedCount, persistBlockedTrackersNow, lookup_assign_self,
      (persistPending_memory _).1]
    cases rt.blockedTrackers.lookup (hostBaseOf host) <;> simp
  · unfold pendingCount
    rw [(handleDnrMatch_count parseHost now _ url host hne hhost hh).2.1]
    simp only [persistBlockedTrackersNow, (persistPending_memory _).2.1, lookup_assign_self]
    cases rt.pendingTrackers.lookup (hostBaseOf host) <;> simp

/-- Witness for C8 at the failing input of the scenario: from the globals as
declared, with enforced set `["trk.example"]`, one match for
`https://sub.trk.example/x` leaves TrackerRecord count `2` and
PendingTrackerRecord count `1`. -/
theorem onRuleMatchedDebug_enforced_counts_witness :
    (trkEvent none).url = some "https://sub.trk.example/x" ∧
    simpleUrlHostname "https://sub.trk.example/x" = some "sub.trk.example" ∧
    hostBaseOf "sub.trk.example" = "trk.example" ∧
    hostBaseOf "sub.trk.example" ∈ (freshRuntime ["trk.example"]).activeBlockedDomains ∧
    blockedCount (freshRuntime ["trk.example"]) "trk.example" = 0 ∧
    pendingCount (freshRuntime ["trk.example"]) "trk.example" = 0 ∧
    (blockedCount (onRuleMatchedDebug simpleUrlHostname 1000 (freshRuntime ["trk.example"])
          (trkEvent none)) (hostBaseOf "sub.trk.example")
        = blockedCount (freshRuntime ["trk.example"]) (hostBaseOf "sub.trk.example") + 2 ∧
      pendingCount (onRuleMatchedDebug simpleUrlHostname 1000 (freshRuntime ["trk.example"])
          (trkEvent none)) (hostBaseOf "sub.trk.example")
        = pendingCount (freshRuntime ["trk.example"]) (hostBaseOf "sub.trk.example") + 1) :=
  ⟨by decide, by decide, by decide, by decide, by decide, by decide,
    onRuleMatchedDebug_enforced_counts simpleUrlHostname 1000 (freshRuntime ["trk.example"])
      (trkEvent none) "https://sub.trk.example/x" "sub.trk.example" (by decide) (by decide)
      (by decide) (by decide) (by decide) (by intro p hp; simp [freshRuntime, List.lookup] at hp)⟩

/-- The fallback `webRequest` listener counts an enforced domain once per
request and does nothing for a domain that is not enforced. -/
theorem onBeforeRequest_counts (parseHost : String → Option String) (now : Nat) (rt : Runtime)
    (url host : String) (hne : url ≠ "") (hhost : parseHost url = some host) (hh : host ≠ "") :
    (hostBaseOf host ∈ rt.activeBlockedDomains →
      blockedCount (onBeforeRequest parseHost now rt (some url)) (hostBaseOf host)
        = blockedCount rt (hostBaseOf host) + 1) ∧
    (hostBaseOf host ∉ rt.activeBlockedDomains →
      onBeforeRequest parseHost now rt (some url) = rt) := by
  constructor
  · intro henf
    have hmem : rt.activeBlockedDomains.contains (hostBaseOf host) = true :=
      List.elem_eq_true_of_mem henf
    simp only [onBeforeRequest, hne, if_false, hhost, hmem, if_true]
    exact (handleDnrMatch_count parseHost now rt url host hne hhost hh).1
  · intro hnenf
    simp [onBeforeRequest, hne, hhost, hnenf]

/-- C9 on the code: for a registrable domain that is not enforced (and whose
pending record, if any, holds a `Set` of categories), the rule-match listener
still goes through `handleDnrMatch`: the TrackerRecord count of the domain
grows by 1, so a record exists afterwards and the map has changed. -/
theorem onRuleMatchedDebug_not_enforced_counts (parseHost : String → Option String) (now : Nat)
    (rt : Runtime) (info : MatchInfo) (url host : String)
    (hurl : info.url = some url) (hne : url ≠ "") (hhost : parseHost url = some host)
    (hh : host ≠ "") (hnenf : hostBaseOf host ∉ rt.activeBlockedDomains)
    (hset : ∀ p, rt.pendingTrackers.lookup (hostBaseOf host) = some p →
      ∃ xs, p.categories = Categories.set xs) :
    blockedCount (onRuleMatchedDebug parseHost now rt info) (hostBaseOf host)
      = blockedCount rt (hostBaseOf host) + 1 ∧
    (onRuleMatchedDebug parseHost now rt info).blockedTrackers ≠ rt.blockedTrackers := by
  have hmem : rt.activeBlockedDomains.contains (hostBaseOf host) = false := by
    simpa using hnenf
  obtain ⟨ys, hadd⟩ : ∃ ys, (((rt.pendingTrackers.lookup (hostBaseOf host)).getD
      ⟨0, now, 0, .set []⟩).categories).addAll (info.categories.getD ["tracking"])
        = some (Categories.set ys) := by
    cases hl : rt.pendingTrackers.lookup (hostBaseOf host) with
    | none => exact addAll_set _ _
    | some p =>
      obtain ⟨xs, hxs⟩ := hset p hl
      simp only [Option.getD_some, hxs]
      exact addAll_set _ _
  have hcount : blockedCount (onRuleMatchedDebug parseHost now rt info) (hostBaseOf host)
      = blockedCount rt (hostBaseOf host) + 1 := by
    simp only [onRuleMatchedDebug, hurl, hne, if_false, hhost, hadd]
    simp only [(persistPending_memory _).2.2.1, hmem]
    rw [(handleDnrMatch_count parseHost now _ url host hne hhost hh).1]
    simp [blockedCount, (persistPending_memory _).1]
  refine ⟨hcount, ?_⟩
  intro heq
  have : blockedCount (onRuleMatchedDebug parseHost now rt info) (hostBaseOf host)
      = blockedCount rt (hostBaseOf host) := by
    simp only [blockedCount, heq]
  omega

/-- Witness for C9 at the failing input: nothing is enforced, and one match
for `https://sub.trk.example/x` creates a TrackerRecord for `trk.example`. -/
theorem onRuleMatchedDebug_not_enforced_counts_witness :
    hostBaseOf "sub.trk.example" ∉ (freshRuntime []).activeBlockedDomains ∧
    (freshRuntime []).blockedTrackers = [] ∧
    (onRuleMatchedDebug simpleUrlHostname 1000 (freshRuntime []) (trkEvent none)).blockedTrackers
      = [("trk.example", ⟨1, 1000, 1000, 50, none⟩)] ∧
    (blockedCount (onRuleMatchedDebug simpleUrlHostname 1000 (freshRuntime []) (trkEvent none))
          (hostBaseOf "sub.trk.example")
        = blockedCount (freshRuntime []) (hostBaseOf "sub.trk.example") + 1 ∧
      (onRuleMatchedDebug simpleUrlHostname 1000 (freshRuntime []) (trkEvent none)).blockedTrackers
        ≠ (freshRuntime []).blockedTrackers) :=
  ⟨by decide, by decide, by decide,
    onRuleMatchedDebug_not_enforced_counts simpleUrlHostname 1000 (freshRuntime [])
      (trkEvent none) "https://sub.trk.example/x" "sub.trk.example" (by decide) (by decide)
      (by decide) (by decide) (by decide) (by intro p hp; simp [freshRuntime, List.lookup] at hp)⟩

/-- `handleDnrMatch` never touches the pending records, in memory or stored. -/
theorem handleDnrMatch_pending (parseHost : String → Option String) (now : Nat) (rt : Runtime)
    (url : String) :
    (handleDnrMatch parseHost now rt url).pendingTrackers = rt.pendingTrackers ∧
    (handleDnrMatch parseHost now rt url).storedPending = rt.storedPending := by
  unfold handleDnrMatch
  by_cases hne : url = ""
  · simp [hne]
  · cases hhost : parseHost url with
    | none => simp [hne]
    | some host =>
      by_cases hh : host = ""
      · simp [hne, hh]
      · simp [hne, hh, persistBlockedTrackersNow]

/-- While the pending record of the domain holds a `Set` (or does not exist
yet), the listener does update and persist it, enforced or not: the count
grows by 1, `lastSeen` is stamped, the event's categories are in the record,
and the store holds the array copy of the updated map. -/
theorem onRuleMatchedDebug_pending_of_set (parseHost : String → Option String) (now : Nat)
    (rt : Runtime) (info : MatchInfo) (url host : String)
    (hurl : info.url = some url) (hne : url ≠ "") (hhost : parseHost url = some host)
    (hset : ∀ p, rt.pendingTrackers.lookup (hostBaseOf host) = some p →
      ∃ xs, p.categories = Categories.set xs) :
    (∃ ys, (onRuleMatchedDebug parseHost now rt info).pendingTrackers.lookup (hostBaseOf host)
        = some ⟨pendingCount rt (hostBaseOf host) + 1,
            ((rt.pendingTrackers.lookup (hostBaseOf host)).map (fun p => p.firstSeen)).getD now,
            now, Categories.set ys⟩ ∧
      ∀ c ∈ info.categories.getD ["tracking"], c ∈ ys) ∧
    (onRuleMatchedDebug parseHost now rt info).storedPending
      = (persistPending (onRuleMatchedDebug parseHost now rt info)).storedPending := by
  have hfold : ∀ (cs xs : List String), ∀ c, c ∈ cs ∨ c ∈ xs →
      c ∈ cs.foldl (fun acc c => if c ∈ acc then acc else acc ++ [c]) xs := by
    intro cs
    induction cs with
    | nil => intro xs c hc; simpa using hc
    | cons a cs ih =>
      intro xs c hc
      rw [List.foldl_cons]
      apply ih
      by_cases hax : a ∈ xs
      · simp only [hax, if_true]
        rcases hc with hc | hc
        · rcases List.mem_cons.mp hc with h | h
          · exact Or.inr (h ▸ hax)
          · exact Or.inl h
        · exact Or.inr hc
      · simp only [hax, if_false]
        rcases hc with hc | hc
        · rcases List.mem_cons.mp hc with h | h
          · exact Or.inr (by simp [h])
          · exact Or.inl h
        · exact Or.inr (by simp [hc])
  obtain ⟨xs, hxs⟩ : ∃ xs, ((rt.pendingTrackers.lookup (hostBaseOf host)).getD
      ⟨0, now, 0, .set []⟩).categories = Categories.set xs := by
    cases hl : rt.pendingTrackers.lookup (hostBaseOf host) with
    | none => exact ⟨[], rfl⟩
    | some p => simpa using hset p hl
  simp only [onRuleMatchedDebug, hurl, hne, if_false, hhost, hxs, Categories.addAll]
  constructor
  · refine ⟨_, ?_, fun c hc => hfold _ xs c (Or.inl hc)⟩
    rw [(handleDnrMatch_pending parseHost now _ url).1]
    split
    · simp only [persistBlockedTrackersNow, (persistPending_memory _).2.1, lookup_assign_self,
        pendingCount]
      cases rt.pendingTrackers.lookup (hostBaseOf host) <;> simp
    · simp only [(persistPending_memory _).2.1, lookup_assign_self, pendingCount]
      cases rt.pendingTrackers.lookup (hostBaseOf host) <;> simp
  · simp only [persistPending]
    rw [(handleDnrMatch_pending parseHost now _ url).1,
      (handleDnrMatch_pending parseHost now _ url).2]
    split <;> simp [persistBlockedTrackersNow, persistPending]

/-- C10 on the code: when the pending record of the URL's registrable domain
holds its categories as an array (the shape `persistPending` writes and
`initPublicBackground` reads back) and the event carries at least one category
(the default `['tracking']` included), the listener stops at
`p.categories.add`: count and `lastSeen` of the in-memory record are updated,
but its categories are not, nothing is persisted, and the tracker records are
not touched. -/
theorem onRuleMatchedDebug_array_categories (parseHost : String → Option String) (now : Nat)
    (rt : Runtime) (info : MatchInfo) (url host : String) (p : PendingTrackerRecord)
    (xs : List String)
    (hurl : info.url = some url) (hne : url ≠ "") (hhost : parseHost url = some host)
    (hp : rt.pendingTrackers.lookup (hostBaseOf host) = some p)
    (harr : p.categories = Categories.array xs)
    (hcats : info.categories.getD ["tracking"] ≠ []) :
    (onRuleMatchedDebug parseHost now rt info).storedPending = rt.storedPending ∧
    (onRuleMatchedDebug parseHost now rt info).pendingTrackers.lookup (hostBaseOf host)
      = some ⟨p.count + 1, p.firstSeen, now, Categories.array xs⟩ ∧
    (onRuleMatchedDebug parseHost now rt info).blockedTrackers = rt.blockedTrackers ∧
    (onRuleMatchedDebug parseHost now rt info).storedBlocked = rt.storedBlocked := by
  have hadd : (Categories.array xs).addAll (info.categories.getD ["tracking"]) = none := by
    cases hc : info.categories.getD ["tracking"] with
    | nil => exact absurd hc hcats
    | cons c cs => rfl
  simp only [onRuleMatchedDebug, hurl, hne, if_false, hhost, hp, Option.getD_some, harr, hadd,
    lookup_assign_self]
  simp

/-- Witness for C10 at the failing input: after a restart that reloads the
record written for `trk.example`, a second match carrying the category `ads`
is counted in memory only; the stored record keeps count `1` and the
categories stay `["tracking"]`. -/
theorem onRuleMatchedDebug_array_categories_witness :
    reloadedRuntime.pendingTrackers.lookup (hostBaseOf "sub.trk.example")
      = some ⟨1, 1000, 1000, Categories.array ["tracking"]⟩ ∧
    reloadedRuntime.storedPending
      = some [("trk.example", ⟨1, 1000, 1000, Categories.array ["tracking"]⟩)] ∧
    (trkEvent (some ["ads"])).categories.getD ["tracking"] ≠ [] ∧
    ((onRuleMatchedDebug simpleUrlHostname 2000 reloadedRuntime
          (trkEvent (some ["ads"]))).storedPending = reloadedRuntime.storedPending ∧
      (onRuleMatchedDebug simpleUrlHostname 2000 reloadedRuntime
          (trkEvent (some ["ads"]))).pendingTrackers.lookup (hostBaseOf "sub.trk.example")
        = some ⟨1 + 1, 1000, 2000, Categories.array ["tracking"]⟩ ∧
      (onRuleMatchedDebug simpleUrlHostname 2000 reloadedRuntime
          (trkEvent (some ["ads"]))).blockedTrackers = reloadedRuntime.blockedTrackers ∧
      (onRuleMatchedDebug simpleUrlHostname 2000 reloadedRuntime
          (trkEvent (some ["ads"]))).storedBlocked = reloadedRuntime.storedBlocked) :=
  ⟨by decide, by decide, by decide,
    onRuleMatchedDebug_array_categories simpleUrlHostname 2000 reloadedRuntime
      (trkEvent (some ["ads"])) "https://sub.trk.example/x" "sub.trk.example"
      ⟨1, 1000, 1000, Categories.array ["tracking"]⟩ ["tracking"]
      (by decide) (by decide) (by decide) (by decide) (by decide) (by decide)⟩

/-! ### Registrable domain -/

/-- Splitting always yields at least one label. -/
theorem splitOnChar_ne_nil (sep : Char) (cs : List Char) : splitOnChar sep cs ≠ [] := by
  induction cs with
  | nil => simp [splitOnChar]
  | cons c cs ih =>
    unfold splitOnChar
    split_ifs
    · simp
    · split <;> simp

/-- No label contains the separator. -/
theorem not_mem_of_mem_splitOnChar (sep : Char) (cs : List Char) :
    ∀ w ∈ splitOnChar sep cs, sep ∉ w := by
  induction cs with
  | nil => simp [splitOnChar]
  | cons c cs ih =>
    unfold splitOnChar
    split_ifs with h
    · intro w hw
      rcases List.mem_cons.mp hw with rfl | hw
      · simp
      · exact ih w hw
    · split
      · simp [Ne.symm h]
      · rename_i w ws heq
        intro v hv
        rw [heq] at ih
        rcases List.mem_cons.mp hv with rfl | hv
        · have := ih w (List.mem_cons_self _ _)
          simp [Ne.symm h, this]
        · exact ih v (List.mem_cons_of_mem _ hv)

/-- Joining two or more labels puts one separator after the first. -/
theorem intercalate_cons_cons (sep : Char) (w v : List Char) (ws : List (List Char)) :
    List.intercalate [sep] (w :: v :: ws) = w ++ sep :: List.intercalate [sep] (v :: ws) := by
  simp [List.intercalate, List.intersperse]

/-- Joining the labels of a string gives the string back. -/
theorem intercalate_splitOnChar (sep : Char) (cs : List Char) :
    List.intercalate [sep] (splitOnChar sep cs) = cs := by
  induction cs with
  | nil => simp [splitOnChar, List.intercalate]
  | cons c cs ih =>
    unfold splitOnChar
    split_ifs with h
    · rcases hs : splitOnChar sep cs with _ | ⟨v, vs⟩
      · exact absurd hs (splitOnChar_ne_nil sep cs)
      · rw [hs] at ih
        rw [intercalate_cons_cons, ih, h]
        simp
    · rcases hs : splitOnChar sep cs with _ | ⟨v, vs⟩
      · exact absurd hs (splitOnChar_ne_nil sep cs)
      · rw [hs] at ih
        cases vs with
        | nil =>
          simp [List.intercalate] at ih ⊢
          exact ih
        | cons u us =>
          rw [intercalate_cons_cons] at ih ⊢
          simp [ih]

/-- A string without separator is its only label. -/
theorem splitOnChar_of_not_mem (sep : Char) (w : List Char) (h : sep ∉ w) :
    splitOnChar sep w = [w] := by
  induction w with
  | nil => simp [splitOnChar]
  | cons c cs ih =>
    have hc : c ≠ sep := fun e => h (by simp [e])
    have hcs : sep ∉ cs := fun e => h (List.mem_cons_of_mem _ e)
    simp [splitOnChar, hc, ih hcs]

/-- Splitting after a first label that has no separator. -/
theorem splitOnChar_append_sep (sep : Char) (w rest : List Char) (h : sep ∉ w) :
    splitOnChar sep (w ++ sep :: rest) = w :: splitOnChar sep rest := by
  induction w with
  | nil => simp [splitOnChar]
  | cons c cs ih =>
    have hc : c ≠ sep := fun e => h (by simp [e])
    have hcs : sep ∉ cs := fun e => h (List.mem_cons_of_mem _ e)
    simp [splitOnChar, hc, ih hcs]

/-- Splitting the join of separator-free labels gives the labels back. -/
theorem splitOnChar_intercalate (sep : Char) (ws : List (List Char)) (hne : ws ≠ [])
    (hw : ∀ w ∈ ws, sep ∉ w) : splitOnChar sep (List.intercalate [sep] ws) = ws := by
  induction ws with
  | nil => exact absurd rfl hne
  | cons w ws ih =>
    cases ws with
    | nil =>
      simpa [List.intercalate] using splitOnChar_of_not_mem sep w (hw w (List.mem_cons_self _ _))
    | cons v vs =>
      rw [intercalate_cons_cons, splitOnChar_append_sep sep w _ (hw w (List.mem_cons_self _ _)),
        ih (by simp) (fun u hu => hw u (List.mem_cons_of_mem _ hu))]

/-- C11: the labels of the registrable domain are the last two dot-separated
labels of the hostname (the key is those labels joined by a dot), so it never
has more than two labels; a hostname with fewer than two labels maps to
itself; `sub.trk.example` gives `trk.example` and `a.b.example.co.uk` gives
`co.uk`. -/
theorem hostBaseOf_last_two_labels (hostname : String) :
    splitOnChar '.' (hostBaseOf hostname).toList
        = (splitOnChar '.' hostname.toList).drop ((splitOnChar '.' hostname.toList).length - 2) ∧
    (splitOnChar '.' (hostBaseOf hostname).toList).length ≤ 2 ∧
    ((splitOnChar '.' hostname.toList).length < 2 → hostBaseOf hostname = hostname) ∧
    hostBaseOf "sub.trk.example" = "trk.example" ∧
    hostBaseOf "a.b.example.co.uk" = "co.uk" ∧
    hostBaseOf "localhost" = "localhost" := by
  have hne := splitOnChar_ne_nil '.' hostname.toList
  have hlen : 0 < (splitOnChar '.' hostname.toList).length := List.length_pos.mpr hne
  have h1 : splitOnChar '.' (hostBaseOf hostname).toList
        = (splitOnChar '.' hostname.toList).drop ((splitOnChar '.' hostname.toList).length - 2) := by
    simp only [hostBaseOf, String.toList]
    apply splitOnChar_intercalate
    · intro h
      have hpos := List.length_pos.mpr (splitOnChar_ne_nil '.' hostname.data)
      have := congrArg List.length h
      rw [List.length_drop, List.length_nil] at this
      omega
    · intro w hw
      exact not_mem_of_mem_splitOnChar '.' _ w (List.mem_of_mem_drop hw)
  refine ⟨h1, ?_, ?_, by decide, by decide, by decide⟩
  · rw [h1, List.length_drop]
    omega
  · intro hlt
    have h0 : (splitOnChar '.' hostname.toList).length - 2 = 0 := by omega
    simp only [hostBaseOf, h0, List.drop_zero, intercalate_splitOnChar]
    rfl

/-! ### Rule set manager -/

/-- The reserved ids are the numbers from 100000 to 109999. -/
theorem mem_reservedRuleIds (n : Nat) : n ∈ reservedRuleIds ↔ 100000 ≤ n ∧ n < 110000 := by
  simp only [reservedRuleIds, List.mem_map, List.mem_range]
  constructor
  · rintro ⟨i, hi, rfl⟩
    omega
  · intro h
    exact ⟨n - 100000, by omega, by omega⟩

/-- One rule per domain. -/
theorem rulesFrom_length (base : Nat) (ds : List String) : (rulesFrom base ds).length = ds.length := by
  induction ds generalizing base with
  | nil => rfl
  | cons d ds ih => simp [rulesFrom, ih]

/-- The ids of the rules are consecutive from `base`. -/
theorem rulesFrom_ids (base : Nat) (ds : List String) :
    (rulesFrom base ds).map Rule.id = List.range' base ds.length := by
  induction ds generalizing base with
  | nil => rfl
  | cons d ds ih => simp [rulesFrom, ih, List.range']

/-- The domains of the rules are the listed domains, in order. -/
theorem rulesFrom_domains (base : Nat) (ds : List String) :
    (rulesFrom base ds).map Rule.domain = ds := by
  induction ds generalizing base with
  | nil => rfl
  | cons d ds ih => simp [rulesFrom, ih]

/-- Every rule id lies in the range assigned to the list. -/
theorem rulesFrom_id_bounds (base : Nat) (ds : List String) :
    ∀ r ∈ rulesFrom base ds, base ≤ r.id ∧ r.id < base + ds.length := by
  intro r hr
  have : r.id ∈ (rulesFrom base ds).map Rule.id := List.mem_map_of_mem _ hr
  rw [rulesFrom_ids, List.mem_range'_1] at this
  exact this

/-- The rules of a concatenation. -/
theorem rulesFrom_append (base : Nat) (xs ys : List String) :
    rulesFrom base (xs ++ ys) = rulesFrom base xs ++ rulesFrom (base + xs.length) ys := by
  induction xs generalizing base with
  | nil => simp [rulesFrom]
  | cons x xs ih =>
    have e : base + 1 + xs.length = base + (xs.length + 1) := by omega
    rw [List.cons_append]
    simp only [rulesFrom, List.length_cons, List.cons_append]
    rw [ih, e]

/-- What the teardown filter leaves of the rules of a reconciled list: the
rules of the domains from position 10000 on. -/
theorem filter_reserved_rulesFrom (ds : List String) :
    (rulesFrom 100000 ds).filter (fun r => !reservedRuleIds.contains r.id)
      = rulesFrom 110000 (ds.drop 10000) := by
  conv_lhs => rw [← List.take_append_drop 10000 ds]
  rw [rulesFrom_append, List.filter_append]
  have h1 : (rulesFrom 100000 (ds.take 10000)).filter (fun r => !reservedRuleIds.contains r.id) = [] := by
    rw [List.filter_eq_nil_iff]
    intro r hr
    have hb := rulesFrom_id_bounds _ _ r hr
    have hl : (ds.take 10000).length ≤ 10000 := by simp
    have : r.id ∈ reservedRuleIds := (mem_reservedRuleIds _).mpr ⟨hb.1, by omega⟩
    simp [this]
  have h2 : (rulesFrom (100000 + (ds.take 10000).length) (ds.drop 10000)).filter
      (fun r => !reservedRuleIds.contains r.id)
        = rulesFrom (100000 + (ds.take 10000).length) (ds.drop 10000) := by
    rw [List.filter_eq_self]
    intro r hr
    by_cases hlen : ds.length ≤ 10000
    · rw [List.drop_eq_nil_of_le hlen] at hr
      simp [rulesFrom] at hr
    · have hb := rulesFrom_id_bounds _ _ r hr
      have hl : (ds.take 10000).length = 10000 := by simp; omega
      have : r.id ∉ reservedRuleIds := fun h => by
        have := (mem_reservedRuleIds _).mp h
        omega
      simp [this]
  rw [h1, h2, List.nil_append]
  by_cases hlen : ds.length ≤ 10000
  · rw [List.drop_eq_nil_of_le hlen]
    simp [rulesFrom]
  · have hl : (ds.take 10000).length = 10000 := by simp; omega
    rw [hl]

/-- Chrome accepts the rules of a list when nothing is installed. -/
theorem chrome_install_fresh (ds : List String) :
    chromeUpdateDynamicRules [] ⟨[], rulesFrom 100000 ds⟩ = some (rulesFrom 100000 ds) := by
  simp [chromeUpdateDynamicRules, rulesFrom_ids, List.nodup_range']

/-- Chrome accepts the teardown call after one reconciliation and keeps the
rules whose id is not reserved. -/
theorem chrome_teardown (ds : List String) :
    chromeUpdateDynamicRules (rulesFrom 100000 ds) ⟨reservedRuleIds, []⟩
      = some (rulesFrom 110000 (ds.drop 10000)) := by
  unfold chromeUpdateDynamicRules
  dsimp only
  rw [List.append_nil, filter_reserved_rulesFrom, if_pos]
  rw [rulesFrom_ids]
  exact List.nodup_range' _ _

/-- The teardown logs one call and empties the cache, whatever the engine. -/
theorem clearRules_calls (update : EngineUpdate) (st : RuleState) :
    (clearRules update st).calls = st.calls ++ [⟨reservedRuleIds, []⟩] ∧
    (clearRules update st).activeBlockedDomains = [] := by
  simp [clearRules]

/-- A first reconciliation on a fresh installation succeeds on Chrome and
installs one rule per domain. -/
theorem loadApprovedRules_fresh (domains : List String) (hne : domains ≠ []) :
    loadApprovedRules chromeUpdateDynamicRules (some domains) freshRuleState
      = ⟨rulesFrom 100000 domains, domains, true, [⟨[], rulesFrom 100000 domains⟩]⟩ := by
  have hlen : (rulesFrom 100000 domains).length ≠ 0 := by
    rw [rulesFrom_length]
    exact fun h => hne (List.length_eq_zero.mp h)
  simp only [loadApprovedRules, hlen, ne_eq, not_false_eq_true, if_true, freshRuleState,
    chrome_install_fresh, List.nil_append]

/-- The teardown on Chrome after one reconciliation of `domains`. -/
theorem clearRules_after_fresh (domains : List String) (enabled : Bool)
    (calls : List RuleUpdate) :
    clearRules chromeUpdateDynamicRules ⟨rulesFrom 100000 domains, domains, enabled, calls⟩
      = ⟨rulesFrom 110000 (domains.drop 10000), [], enabled,
          calls ++ [⟨reservedRuleIds, []⟩]⟩ := by
  simp only [clearRules, chrome_teardown, Option.getD_some]

/-- A list of more than 10000 domains has rules beyond the reserved ids. -/
theorem rulesFrom_drop_ne_nil (domains : List String) (hlen : 10000 < domains.length) :
    rulesFrom 110000 (domains.drop 10000) ≠ [] := by
  intro h
  have := congrArg List.length h
  rw [rulesFrom_length, List.length_drop, List.length_nil] at this
  omega

/-- C12 on the code: on Chrome, from a fresh installation, reconciling a list
of more than 10000 domains and then an empty list are two successful
reconciliations, after which the enforced set is empty (as is the most recent
list) while the engine still holds the rules of the domains from position
10000 on: the teardown removes the ids 100000 to 109999 only. -/
theorem reconcile_long_then_empty_leaves_orphans (domains : List String)
    (hlen : 10000 < domains.length) :
    (reconcileAll chromeUpdateDynamicRules [some domains] freshRuleState).installed
      = rulesFrom 100000 domains ∧
    (reconcileAll chromeUpdateDynamicRules [some domains] freshRuleState).activeBlockedDomains
      = domains ∧
    chromeUpdateDynamicRules (rulesFrom 100000 domains) ⟨reservedRuleIds, []⟩ ≠ none ∧
    (reconcileAll chromeUpdateDynamicRules [some domains, some []]
        freshRuleState).activeBlockedDomains = [] ∧
    (reconcileAll chromeUpdateDynamicRules [some domains, some []] freshRuleState).installed
      = rulesFrom 110000 (domains.drop 10000) ∧
    ((reconcileAll chromeUpdateDynamicRules [some domains, some []]
        freshRuleState).installed.map Rule.domain) = domains.drop 10000 ∧
    domains.drop 10000 ≠ [] := by
  have hne : domains ≠ [] := by
    intro h
    rw [h] at hlen
    simp at hlen
  have hdrop : domains.drop 10000 ≠ [] := by
    intro h
    have := congrArg List.length h
    rw [List.length_drop, List.length_nil] at this
    omega
  have h2 : reconcileAll chromeUpdateDynamicRules [some domains, some []] freshRuleState
      = ⟨rulesFrom 110000 (domains.drop 10000), [], true,
          [⟨[], rulesFrom 100000 domains⟩] ++ [⟨reservedRuleIds, []⟩]⟩ := by
    simp only [reconcileAll, List.foldl_cons, List.foldl_nil, loadApprovedRules_fresh domains hne]
    simp only [loadApprovedRules, rulesFrom, List.length_nil, ne_eq, not_true_eq_false, if_false,
      clearRules_after_fresh]
  refine ⟨?_, ?_, ?_, ?_, ?_, ?_, hdrop⟩
  · simp only [reconcileAll, List.foldl_cons, List.foldl_nil, loadApprovedRules_fresh domains hne]
  · simp only [reconcileAll, List.foldl_cons, List.foldl_nil, loadApprovedRules_fresh domains hne]
  · rw [chrome_teardown]
    exact Option.some_ne_none _
  · rw [h2]
  · rw [h2]
  · rw [h2]
    exact rulesFrom_domains _ _

/-- Witness for C12 at the failing input: the bundle `manyDomains` of 10001
domains, then an empty bundle. -/
theorem reconcile_long_then_empty_leaves_orphans_witness :
    10000 < manyDomains.length ∧
    (reconcileAll chromeUpdateDynamicRules [some manyDomains, some []]
        freshRuleState).activeBlockedDomains = [] ∧
    (reconcileAll chromeUpdateDynamicRules [some manyDomains, some []] freshRuleState).installed
      = rulesFrom 110000 (manyDomains.drop 10000) ∧
    manyDomains.drop 10000 ≠ [] :=
  have h := reconcile_long_then_empty_leaves_orphans manyDomains (by simp [manyDomains])
  ⟨by simp [manyDomains], h.2.2.2.1, h.2.2.2.2.1, h.2.2.2.2.2.2⟩

/-- On Chrome, while the rules of a non-empty list are installed, reconciling
any non-empty list is rejected (rule id 100000 would be installed twice): the
installed rules and the enforced-domain cache stay as they were, only the call
is logged. -/
theorem loadApprovedRules_rejected_when_installed (prev domains cache : List String)
    (enabled : Bool) (calls : List RuleUpdate) (hprev : prev ≠ []) (hdom : domains ≠ []) :
    loadApprovedRules chromeUpdateDynamicRules (some domains)
        ⟨rulesFrom 100000 prev, cache, enabled, calls⟩
      = ⟨rulesFrom 100000 prev, cache, enabled, calls ++ [⟨[], rulesFrom 100000 domains⟩]⟩ := by
  have hlen : (rulesFrom 100000 domains).length ≠ 0 := by
    rw [rulesFrom_length]
    exact fun h => hdom (List.length_eq_zero.mp h)
  have hmem : ∀ ds : List String, ds ≠ [] → 100000 ∈ (rulesFrom 100000 ds).map Rule.id := by
    intro ds hds
    cases ds with
    | nil => exact absurd rfl hds
    | cons d ds => simp [rulesFrom]
  have hrej : chromeUpdateDynamicRules (rulesFrom 100000 prev) ⟨[], rulesFrom 100000 domains⟩
      = none := by
    unfold chromeUpdateDynamicRules
    dsimp only
    rw [if_neg]
    intro hnd
    have hfil : (rulesFrom 100000 prev).filter (fun r => !([] : List Nat).contains r.id)
        = rulesFrom 100000 prev := by
      rw [List.filter_eq_self]
      intro r _
      rfl
    rw [hfil, List.map_append] at hnd
    exact (List.nodup_append.mp hnd).2.2 (hmem prev hprev) (hmem domains hdom)
  simp only [loadApprovedRules, hlen, ne_eq, not_false_eq_true, if_true, hrej]

/-- Counterexample to C13 as stated: on Chrome, from a fresh installation, the
second run of `loadApprovedRules` with the list `["trk.example"]` issues the
same `updateDynamicRules` call as the first, so two calls are logged instead
of one (Chrome rejects the second: id 100000 is already installed). -/
theorem loadApprovedRules_twice_counterexample :
    (loadApprovedRules chromeUpdateDynamicRules (some ["trk.example"]) freshRuleState).calls
      = [⟨[], [⟨100000, "trk.example"⟩]⟩] ∧
    (loadApprovedRules chromeUpdateDynamicRules (some ["trk.example"])
        (loadApprovedRules chromeUpdateDynamicRules (some ["trk.example"]) freshRuleState)).calls
      = [⟨[], [⟨100000, "trk.example"⟩]⟩, ⟨[], [⟨100000, "trk.example"⟩]⟩] ∧
    chromeUpdateDynamicRules [⟨100000, "trk.example"⟩] ⟨[], [⟨100000, "trk.example"⟩]⟩ = none := by
  decide

/-- C13, amended: whatever the rule engine does, running `loadApprovedRules`
twice in a row with the same bundle issues the same engine call once per run
(the second run repeats the call of the first) and leaves the enforced-domain
set equal to the set after the first run. -/
theorem loadApprovedRules_repeats_call (update : EngineUpdate) (bundle : Option (List String))
    (st : RuleState) :
    ∃ call : RuleUpdate,
      (loadApprovedRules update bundle st).calls = st.calls ++ [call] ∧
      (loadApprovedRules update bundle (loadApprovedRules update bundle st)).calls
        = st.calls ++ [call, call] ∧
      (loadApprovedRules update bundle (loadApprovedRules update bundle st)).activeBlockedDomains
        = (loadApprovedRules update bundle st).activeBlockedDomains := by
  cases bundle with
  | none =>
    refine ⟨⟨reservedRuleIds, []⟩, ?_, ?_, ?_⟩ <;> simp [loadApprovedRules, clearRules]
  | some domains =>
    by_cases hlen : (rulesFrom 100000 domains).length = 0
    · refine ⟨⟨reservedRuleIds, []⟩, ?_, ?_, ?_⟩ <;> simp [loadApprovedRules, clearRules, hlen]
    · refine ⟨⟨[], rulesFrom 100000 domains⟩, ?_, ?_, ?_⟩
      · simp only [loadApprovedRules, hlen, ne_eq, not_false_eq_true, if_true]
        cases update st.installed ⟨[], rulesFrom 100000 domains⟩ <;> simp
      · simp only [loadApprovedRules, hlen, ne_eq, not_false_eq_true, if_true]
        cases h1 : update st.installed ⟨[], rulesFrom 100000 domains⟩ with
        | none => simp [h1]
        | some next =>
          simp only
          cases update next ⟨[], rulesFrom 100000 domains⟩ <;> simp
      · simp only [loadApprovedRules, hlen, ne_eq, not_false_eq_true, if_true]
        cases h1 : update st.installed ⟨[], rulesFrom 100000 domains⟩ with
        | none => simp [h1]
        | some next =>
          simp only
          cases update next ⟨[], rulesFrom 100000 domains⟩ <;> simp

/-- C14 on the code: on Chrome, after a fresh installation has reconciled a
list of more than 10000 domains, `setTrackerBlocking` with `enabled = false`
empties the enforced-domain cache but leaves the rules of the domains from
position 10000 on installed: the ids from 110000 up are not in
`removeRuleIds`. -/
theorem setTrackerBlocking_off_long_list (domains : List String) (bundle : Option (List String))
    (hlen : 10000 < domains.length) :
    (setTrackerBlocking chromeUpdateDynamicRules bundle false
        (loadApprovedRules chromeUpdateDynamicRules (some domains) freshRuleState)).activeBlockedDomains
      = [] ∧
    (setTrackerBlocking chromeUpdateDynamicRules bundle false
        (loadApprovedRules chromeUpdateDynamicRules (some domains) freshRuleState)).installed
      = rulesFrom 110000 (domains.drop 10000) ∧
    rulesFrom 110000 (domains.drop 10000) ≠ [] ∧
    ∀ r ∈ rulesFrom 110000 (domains.drop 10000), 110000 ≤ r.id ∧ r.id ∉ reservedRuleIds := by
  have hne : domains ≠ [] := by
    intro h
    rw [h] at hlen
    simp at hlen
  have hst : setTrackerBlocking chromeUpdateDynamicRules bundle false
        (loadApprovedRules chromeUpdateDynamicRules (some domains) freshRuleState)
      = ⟨rulesFrom 110000 (domains.drop 10000), [], false,
          [⟨[], rulesFrom 100000 domains⟩] ++ [⟨reservedRuleIds, []⟩]⟩ := by
    simp only [setTrackerBlocking, loadApprovedRules_fresh domains hne, Bool.false_eq_true,
      if_false, clearRules_after_fresh]
  refine ⟨by rw [hst], by rw [hst], rulesFrom_drop_ne_nil domains hlen, ?_⟩
  intro r hr
  have hb := (rulesFrom_id_bounds _ _ r hr).1
  refine ⟨hb, fun h => ?_⟩
  have := (mem_reservedRuleIds _).mp h
  omega

/-- Witness for C14 at the failing input: the bundle `manyDomains` of 10001
domains is reconciled, then blocking is switched off. -/
theorem setTrackerBlocking_off_long_list_witness :
    10000 < manyDomains.length ∧
    (setTrackerBlocking chromeUpdateDynamicRules (some manyDomains) false
        (loadApprovedRules chromeUpdateDynamicRules (some manyDomains) freshRuleState)).installed
      = rulesFrom 110000 (manyDomains.drop 10000) ∧
    rulesFrom 110000 (manyDomains.drop 10000) ≠ [] :=
  have h := setTrackerBlocking_off_long_list manyDomains (some manyDomains)
    (by simp [manyDomains])
  ⟨by simp [manyDomains], h.2.1, h.2.2.1⟩

/-- For a list of at most 10000 domains the teardown is complete: switching
blocking off after its reconciliation leaves no rule and an empty cache. -/
theorem setTrackerBlocking_off_short_list (domains : List String) (bundle : Option (List String))
    (hne : domains ≠ []) (hlen : domains.length ≤ 10000) :
    (setTrackerBlocking chromeUpdateDynamicRules bundle false
        (loadApprovedRules chromeUpdateDynamicRules (some domains) freshRuleState)).installed = [] ∧
    (setTrackerBlocking chromeUpdateDynamicRules bundle false
        (loadApprovedRules chromeUpdateDynamicRules (some domains) freshRuleState)).activeBlockedDomains
      = [] := by
  simp only [setTrackerBlocking, loadApprovedRules_fresh domains hne, Bool.false_eq_true,
    if_false, clearRules_after_fresh, List.drop_eq_nil_of_le hlen, rulesFrom, and_self]

/-! ### Cookie categories -/

/-- `isPrefixOf` holds exactly for the initial segments. -/
theorem isPrefixOf_iff_append (p l : List Char) :
    p.isPrefixOf l = true ↔ ∃ t, l = p ++ t := by
  induction p generalizing l with
  | nil => simp [List.isPrefixOf]
  | cons a p ih =>
    cases l with
    | nil => simp [List.isPrefixOf]
    | cons b l =>
      simp only [List.isPrefixOf, Bool.and_eq_true, beq_iff_eq, ih, List.cons_append,
        List.cons.injEq]
      constructor
      · rintro ⟨rfl, t, rfl⟩
        exact ⟨t, rfl, rfl⟩
      · rintro ⟨t, rfl, rfl⟩
        exact ⟨rfl, t, rfl⟩

/-- `includesChars` is the substring test. -/
theorem includesChars_iff (hay needle : List Char) :
    includesChars hay needle = true ↔ ∃ a b, hay = a ++ needle ++ b := by
  induction hay with
  | nil =>
    cases needle with
    | nil => simp [includesChars]
    | cons c cs => simp [includesChars]
  | cons c hay ih =>
    simp only [includesChars, Bool.or_eq_true, isPrefixOf_iff_append, ih]
    constructor
    · rintro (⟨t, ht⟩ | ⟨a, b, hab⟩)
      · exact ⟨[], t, by simpa using ht⟩
      · exact ⟨c :: a, b, by simp [hab]⟩
    · rintro ⟨a, b, hab⟩
      cases a with
      | nil => exact Or.inl ⟨b, by simpa using hab⟩
      | cons x a =>
        simp only [List.cons_append, List.cons.injEq] at hab
        exact Or.inr ⟨a, b, by simpa using hab.2⟩

/-- Maps whose keys agree up to letter case, with the same categories in the
same order, give the same category. -/
theorem getCookieCategory_congr_keys (name : String) (m m' : List (String × String))
    (hrel : List.Forall₂ (fun e e' => toLowerCase e.1 = toLowerCase e'.1 ∧ e.2 = e'.2) m m') :
    getCookieCategory m' name = getCookieCategory m name := by
  induction m generalizing m' with
  | nil =>
    cases hrel
    rfl
  | cons a l ih =>
    cases hrel with
    | cons hab hl =>
      rename_i b l'
      have ih' := ih l' hl
      simp only [getCookieCategory, List.find?_cons, ← hab.1] at ih' ⊢
      cases includes (toLowerCase name) (toLowerCase a.1) with
      | true => simp [hab.2]
      | false => simpa using ih'

/-- Counterexample to C15 as stated: with the category map
`ga -> uncategorized` the key `ga` matches the cookie name `_ga`, and the
result is `uncategorized` all the same, so a result `uncategorized` does not
mean that no key matches. -/
theorem getCookieCategory_counterexample :
    includes (toLowerCase "_ga") (toLowerCase "ga") = true ∧
    getCookieCategory [("ga", "uncategorized")] "_ga" = "uncategorized" := by
  decide

/-- C15, amended: `getCookieCategory` returns the category of the first key,
in map order, whose lower-cased form is a substring of the lower-cased cookie
name; it returns `uncategorized` when no key matches, and, when no category of
the map is itself `uncategorized`, only then; `includes` is the substring
test; the result depends on the cookie name and on the keys only through their
lower-cased forms. -/
theorem getCookieCategory_first_match (m : List (String × String)) (name : String) :
    (∀ pre k cat post, m = pre ++ (k, cat) :: post →
      (∀ e ∈ pre, includes (toLowerCase name) (toLowerCase e.1) = false) →
      includes (toLowerCase name) (toLowerCase k) = true →
      getCookieCategory m name = cat) ∧
    ((∀ e ∈ m, includes (toLowerCase name) (toLowerCase e.1) = false) →
      getCookieCategory m name = "uncategorized") ∧
    ((∀ e ∈ m, e.2 ≠ "uncategorized") → getCookieCategory m name = "uncategorized" →
      ∀ e ∈ m, includes (toLowerCase name) (toLowerCase e.1) = false) ∧
    (∀ s t : String, includes s t = true ↔ ∃ a b, s.toList = a ++ t.toList ++ b) ∧
    (∀ name', toLowerCase name' = toLowerCase name →
      getCookieCategory m name' = getCookieCategory m name) ∧
    (∀ m', List.Forall₂ (fun e e' => toLowerCase e.1 = toLowerCase e'.1 ∧ e.2 = e'.2) m m' →
      getCookieCategory m' name = getCookieCategory m name) := by
  refine ⟨?_, ?_, ?_, ?_, ?_, ?_⟩
  · intro pre k cat post hm hpre hk
    have hnone : pre.find? (fun e => includes (toLowerCase name) (toLowerCase e.1)) = none := by
      rw [List.find?_eq_none]
      intro e he
      simp [hpre e he]
    simp [getCookieCategory, hm, List.find?_append, hnone, List.find?_cons, hk]
  · intro hall
    have hnone : m.find? (fun e => includes (toLowerCase name) (toLowerCase e.1)) = none := by
      rw [List.find?_eq_none]
      intro e he
      simp [hall e he]
    simp [getCookieCategory, hnone]
  · intro hcat hres e he
    cases hf : m.find? (fun e => includes (toLowerCase name) (toLowerCase e.1)) with
    | none =>
      rw [List.find?_eq_none] at hf
      simpa using hf e he
    | some e0 =>
      simp only [getCookieCategory, hf] at hres
      exact absurd hres (hcat e0 (List.mem_of_find?_eq_some hf))
  · intro s t
    exact includesChars_iff s.toList t.toList
  · intro name' h
    simp only [getCookieCategory, h]
  · intro m' hrel
    exact getCookieCategory_congr_keys name m m' hrel

/-! ### Deletion history -/

/-- Truncating the tail first does not change a truncated concatenation. -/
theorem take_append_take {β : Type} (n : Nat) (a b : List β) :
    (a ++ b.take n).take n = (a ++ b).take n := by
  rw [List.take_append_eq_append_take, List.take_append_eq_append_take, List.take_take]
  congr 2
  omega

/-- The history after a run of writes on top of an earlier history. -/
theorem foldl_writeHistory (writes : List HistoryWrite) (h : List DeletionHistoryEntry)
    (hlen : h.length ≤ 20) :
    writes.foldl writeHistory h = ((writes.map HistoryWrite.entry).reverse ++ h).take 20 := by
  induction writes generalizing h with
  | nil => simp [List.take_of_length_le hlen]
  | cons w ws ih =>
    rw [List.foldl_cons, ih _ (by simp [writeHistory, pushHistory])]
    simp only [writeHistory, pushHistory, List.map_cons, List.reverse_cons, List.append_assoc,
      List.singleton_append]
    exact take_append_take 20 _ _

/-- C16: starting from an empty deletion history, after any number of
insertions by the cleanup handlers the stored history has at most 20 entries
and is newest-first: it is the first 20 of the inserted entries in reverse
order of insertion, and each insertion yields the new entry followed by the
previous entries in their order, truncated to 20. -/
theorem deletionHistory_bounded_newest_first (writes : List HistoryWrite) :
    (historyAfter writes).length ≤ 20 ∧
    historyAfter writes = ((writes.map HistoryWrite.entry).reverse).take 20 ∧
    (∀ w, historyAfter (writes ++ [w]) = (w.entry :: historyAfter writes).take 20) ∧
    (∀ w, (historyAfter (writes ++ [w])).head? = some w.entry) := by
  have h1 : historyAfter writes = ((writes.map HistoryWrite.entry).reverse).take 20 := by
    simpa [historyAfter] using foldl_writeHistory writes [] (by simp)
  have h2 : ∀ w, historyAfter (writes ++ [w]) = (w.entry :: historyAfter writes).take 20 := by
    intro w
    simp [historyAfter, List.foldl_append, writeHistory, pushHistory]
  refine ⟨?_, h1, h2, ?_⟩
  · rw [h1, List.length_take]
    exact Nat.min_le_left _ _
  · intro w
    rw [h2]
    rfl

/-! ### Adaptive profile and navigation -/

/-- Reading another key after `assign` gives what was there before. -/
theorem lookup_assign_of_ne {β : Type} (m : List (String × β)) (k k' : String) (v : β)
    (h : k' ≠ k) : (assign m k v).lookup k' = m.lookup k' := by
  induction m with
  | nil =>
    have hb : (k' == k) = false := by simpa using h
    simp [assign, List.lookup, hb]
  | cons e m ih =>
    obtain ⟨k0, v0⟩ := e
    unfold assign
    by_cases h0 : k0 = k
    · have hb : (k' == k) = false := by simpa using h
      have hb0 : (k' == k0) = false := by simpa [h0] using h
      simp [h0, List.lookup, hb]
    · by_cases h1 : k' = k0
      · simp [h0, List.lookup, h1]
      · have hb1 : (k' == k0) = false := by simpa using h1
        simp [h0, List.lookup, hb1, ih]

/-- One `recordSiteStat` adds its delta to the total of its own site and key
and leaves every other total as it was. -/
theorem statTotal_recordSiteStat {α : Type} [LinearOrderedField α]
    (siteStats : List (String × SiteStat α)) (hostname : String) (key : StatKey) (delta now : α)
    (h : String) (k : StatKey) :
    statTotal (recordSiteStat siteStats hostname key delta now) h k
      = statTotal siteStats h k + (if h = hostname ∧ k = key then delta else 0) := by
  by_cases hh : h = hostname
  · subst hh
    simp only [statTotal, recordSiteStat, lookup_assign_self, Option.map_some', Option.getD_some]
    cases siteStats.lookup h <;> cases key <;> cases k <;> simp [SiteStat.get, SiteStat.set]
  · simp only [statTotal, recordSiteStat, lookup_assign_of_ne _ _ _ _ hh]
    simp [hh]

/-- A run of `recordSiteStat` calls adds, to each total, the deltas of the
calls for that site and key. -/
theorem statTotal_applyRecordCalls {α : Type} [LinearOrderedField α] (now : α)
    (calls : List (RecordCall α)) (siteStats : List (String × SiteStat α)) (h : String)
    (k : StatKey) :
    statTotal (applyRecordCalls now siteStats calls) h k
      = statTotal siteStats h k
        + (calls.map (fun c => if h = c.hostname ∧ k = c.key then c.delta else 0)).sum := by
  induction calls generalizing siteStats with
  | nil => simp [applyRecordCalls]
  | cons c cs ih =>
    have := ih (recordSiteStat siteStats c.hostname c.key c.delta now)
    simp only [applyRecordCalls, List.foldl_cons] at this ⊢
    rw [this, statTotal_recordSiteStat]
    simp [add_assoc]

/-- `endsWith` holds exactly for the final segments. -/
theorem endsWith_iff (s t : String) :
    endsWith s t = true ↔ ∃ p : List Char, s.toList = p ++ t.toList := by
  unfold endsWith
  rw [List.isSuffixOf_iff_suffix]
  constructor
  · rintro ⟨p, hp⟩
    exact ⟨p, hp.symm⟩
  · rintro ⟨p, hp⟩
    exact ⟨p, hp.symm⟩

/-- The lookup `!!trustedSites[host]` is truthy for an own key with a truthy
value and for a name inherited from `Object.prototype` that is not an own key
with a falsy value, and for nothing else. -/
theorem trustedLookup_iff (s : Store) (host : String) :
    trustedLookup s host = true ↔
      (host ∈ s.trustedSites ∨ (host ∈ objectPrototypeKeys ∧ host ∉ s.trustedSitesFalsy)) := by
  simp [trustedLookup, and_comm]

/-- The selection of `adaptProfileForDomain`: nothing changes when adaptive
profiles are disabled; otherwise the active profile becomes `paranoid` if the
hostname ends in `.onion`, else `relaxed` if the lookup of the hostname in the
stored `trustedSites` object is truthy (an own key with a truthy value, or a
name inherited from `Object.prototype` that no own key shadows), else `strict`;
the profile source becomes `auto` and every other key of the store stays. -/
theorem adaptProfileForDomain_selects (s : Store) (host : String) :
    (s.adaptiveProfiles = some false → adaptProfileForDomain s host = ⟨s, []⟩) ∧
    (s.adaptiveProfiles ≠ some false →
      (adaptProfileForDomain s host).store
        = { s with
            activeProfile := some (if endsWith host ".onion" then "paranoid"
              else if host ∈ s.trustedSites ∨
                  (host ∈ objectPrototypeKeys ∧ host ∉ s.trustedSitesFalsy) then "relaxed"
              else "strict")
            profileSource := some "auto" }) ∧
    (endsWith host ".onion" = true ↔ ∃ p : List Char, host.toList = p ++ ".onion".toList) := by
  refine ⟨?_, ?_, endsWith_iff host ".onion"⟩
  · intro h
    simp [adaptProfileForDomain, h]
  · intro h
    have hen : s.adaptiveProfiles.getD true = true := by
      cases ha : s.adaptiveProfiles with
      | none => rfl
      | some b =>
        cases b with
        | true => rfl
        | false => exact absurd ha h
    have hp : (profiles.lookup "paranoid").isNone = false := by decide
    have hr : (profiles.lookup "relaxed").isNone = false := by decide
    have hs : (profiles.lookup "strict").isNone = false := by decide
    have hl := trustedLookup_iff s host
    simp only [adaptProfileForDomain, hen, Bool.not_true, Bool.false_eq_true, if_false]
    by_cases h1 : endsWith host ".onion" = true
    · simp [h1, setActiveProfile, hp]
    · by_cases h2 : trustedLookup s host = true
      · have h3 := hl.mp h2
        simp [h1, h2, h3, isTrustedDomain, setActiveProfile, hr]
      · have h3 : ¬ (host ∈ s.trustedSites ∨
            (host ∈ objectPrototypeKeys ∧ host ∉ s.trustedSitesFalsy)) := fun hh => h2 (hl.mpr hh)
        simp only [h1, h2, isTrustedDomain, setActiveProfile, hs, if_false, h3,
          Bool.false_eq_true]

/-- An `.onion` hostname that is also trusted gets the profile `paranoid`,
source `auto`: the `.onion` rule comes first. -/
theorem adaptProfileForDomain_onion_first :
    (adaptProfileForDomain
        { shopStore [] "balanced" with trustedSites := ["abcdefgh.onion"] } "abcdefgh.onion").store.activeProfile
      = some "paranoid" ∧
    (adaptProfileForDomain
        { shopStore [] "balanced" with trustedSites := ["abcdefgh.onion"] } "abcdefgh.onion").store.profileSource
      = some "auto" := by
  have h := (adaptProfileForDomain_selects
    { shopStore [] "balanced" with trustedSites := ["abcdefgh.onion"] } "abcdefgh.onion").2.1
    (by decide)
  rw [h]
  exact ⟨by decide, rfl⟩

/-- No name inherited from `Object.prototype` ends in `.onion`. -/
theorem objectPrototypeKeys_not_onion :
    ∀ h ∈ objectPrototypeKeys, endsWith h ".onion" = false := by
  decide

/-- C17 (code defect): with adaptive profiles not disabled, a hostname that is
a name inherited from `Object.prototype` (such as `constructor`) and is not an
own key of the stored `trustedSites` object does not end in `.onion` and is not
in the trusted-sites set, yet `adaptProfileForDomain` sets the active profile
to `relaxed` (source `auto`, every other key unchanged) and broadcasts
`relaxed`, where the claim says `strict`. -/
theorem adaptProfileForDomain_inherited_name (s : Store) (host : String)
    (hen : s.adaptiveProfiles ≠ some false) (hin : host ∈ objectPrototypeKeys)
    (hown : host ∉ s.trustedSites) (hfalsy : host ∉ s.trustedSitesFalsy) :
    endsWith host ".onion" = false ∧ host ∉ s.trustedSites ∧
    (adaptProfileForDomain s host).store
      = { s with activeProfile := some "relaxed", profileSource := some "auto" } ∧
    (adaptProfileForDomain s host).profileUpdates = ["relaxed"] := by
  have ho := objectPrototypeKeys_not_onion host hin
  have hen2 : s.adaptiveProfiles.getD true = true := by
    cases ha : s.adaptiveProfiles with
    | none => rfl
    | some b =>
      cases b with
      | true => rfl
      | false => exact absurd ha hen
  have hr : (profiles.lookup "relaxed").isNone = false := by decide
  have hl : trustedLookup s host = true :=
    (trustedLookup_iff s host).mpr (Or.inr ⟨hin, hfalsy⟩)
  refine ⟨ho, hown, ?_, ?_⟩
  · simp [adaptProfileForDomain, hen2, ho, isTrustedDomain, hl, setActiveProfile, hr]
  · simp [adaptProfileForDomain, hen2, ho, isTrustedDomain, hl, setActiveProfile, hr]

/-- Witness for C17: the hostname `constructor` (of `http://constructor/`) with
an empty trusted-sites object gets the profile `relaxed`. -/
theorem adaptProfileForDomain_inherited_name_witness :
    (shopStore [] "balanced").trustedSites = [] ∧
    endsWith "constructor" ".onion" = false ∧
    (adaptProfileForDomain (shopStore [] "balanced") "constructor").store.activeProfile
      = some "relaxed" ∧
    (adaptProfileForDomain (shopStore [] "balanced") "constructor").store.profileSource
      = some "auto" ∧
    (adaptProfileForDomain (shopStore [] "balanced") "constructor").profileUpdates
      = ["relaxed"] := by
  have h := adaptProfileForDomain_inherited_name (shopStore [] "balanced") "constructor"
    (by decide) (by decide) (by decide) (by decide)
  refine ⟨rfl, h.1, ?_, ?_, h.2.2.2⟩
  · rw [h.2.2.1]
  · rw [h.2.2.1]

/-- C18: when the stored profile source is `manual`, the navigation listener
leaves the active profile and the profile source as they are and broadcasts no
profile change, whatever the hostname and the adaptive-profiles setting (the
auto-delete listener writes no profile key at all). -/
theorem onUpdatedRecord_keeps_manual_profile {α : Type} [LinearOrderedField α]
    (parseHost : String → Option String) (getAll : String → List Cookie) (estimate : Option α)
    (now : α) (st : NavState α) (tabId : Nat) (changeInfoUrl : Option String)
    (tab : Option TabInfo) (hman : st.store.profileSource = some "manual") :
    (onUpdatedRecord parseHost getAll estimate now st tabId changeInfoUrl tab).state.store.activeProfile
      = st.store.activeProfile ∧
    (onUpdatedRecord parseHost getAll estimate now st tabId changeInfoUrl tab).state.store.profileSource
      = st.store.profileSource ∧
    (onUpdatedRecord parseHost getAll estimate now st tabId changeInfoUrl tab).profileUpdates = [] := by
  unfold onUpdatedRecord
  cases navigationUrl changeInfoUrl tab with
  | none => simp
  | some url =>
    by_cases hg : (decide (url = "") || !isHttpUrl url) = true
    · simp [hg]
    · cases hh : parseHost url with
      | none => simp [hg, hh]
      | some hostname => simp [hg, hh, hman]

/-- Witness for C18: with the profile `relaxed` chosen manually, a navigation
to an `.onion` site keeps `relaxed` and `manual`. -/
theorem onUpdatedRecord_keeps_manual_profile_witness :
    (freshNavState ℚ { shopManualStore with activeProfile := some "relaxed" }).store.profileSource
      = some "manual" ∧
    (onUpdatedRecord simpleUrlHostname shopGetAll none (1000 : ℚ)
        (freshNavState ℚ { shopManualStore with activeProfile := some "relaxed" }) 7
        (some "http://abcdefgh.onion/") (some ⟨none, true⟩)).state.store.activeProfile
      = some "relaxed" ∧
    (onUpdatedRecord simpleUrlHostname shopGetAll none (1000 : ℚ)
        (freshNavState ℚ { shopManualStore with activeProfile := some "relaxed" }) 7
        (some "http://abcdefgh.onion/") (some ⟨none, true⟩)).state.store.profileSource
      = some "manual" :=
  have h := onUpdatedRecord_keeps_manual_profile simpleUrlHostname shopGetAll none (1000 : ℚ)
    (freshNavState ℚ { shopManualStore with activeProfile := some "relaxed" }) 7
    (some "http://abcdefgh.onion/") (some ⟨none, true⟩) rfl
  ⟨rfl, h.1, h.2.1⟩

/-- The `recordSiteStat` calls of the navigation listener for a parsable
HTTP(S) URL: the positive cookie delta, then the positive cache delta. -/
theorem onUpdatedRecord_recordCalls {α : Type} [LinearOrderedField α]
    (parseHost : String → Option String) (getAll : String → List Cookie) (estimate : Option α)
    (now : α) (st : NavState α) (tabId : Nat) (changeInfoUrl : Option String)
    (tab : Option TabInfo) (url hostname : String)
    (hurl : navigationUrl changeInfoUrl tab = some url) (hne : url ≠ "")
    (hhttp : isHttpUrl url = true) (hhost : parseHost url = some hostname) :
    (onUpdatedRecord parseHost getAll estimate now st tabId changeInfoUrl tab).recordCalls
      = (if ((siteCookiesOf (getAll hostname) hostname).length : α)
            - (((st.lastCookieCount.lookup hostname).getD 0 : Nat) : α) > 0 then
          [⟨hostname, .cookies, ((siteCookiesOf (getAll hostname) hostname).length : α)
            - (((st.lastCookieCount.lookup hostname).getD 0 : Nat) : α)⟩]
        else []) ++
        (match estimate with
          | some pendingMB =>
            if pendingMB - (st.lastCacheEstimate.lookup hostname).getD 0 > 0 then
              [⟨hostname, .cache, pendingMB - (st.lastCacheEstimate.lookup hostname).getD 0⟩]
            else []
          | none => []) ∧
    (onUpdatedRecord parseHost getAll estimate now st tabId changeInfoUrl tab).state.lastCookieCount
      = assign st.lastCookieCount hostname (siteCookiesOf (getAll hostname) hostname).length := by
  simp only [onUpdatedRecord, hurl, hne, hhttp, hhost, decide_False, Bool.not_true, Bool.or_self,
    Bool.false_eq_true, if_false, and_self]

/-- The navigation listener stores the effect of its own `recordSiteStat`
calls. -/
theorem onUpdatedRecord_siteStats {α : Type} [LinearOrderedField α]
    (parseHost : String → Option String) (getAll : String → List Cookie) (estimate : Option α)
    (now : α) (st : NavState α) (tabId : Nat) (changeInfoUrl : Option String)
    (tab : Option TabInfo) :
    (onUpdatedRecord parseHost getAll estimate now st tabId changeInfoUrl tab).state.siteStats
      = applyRecordCalls now st.siteStats
          (onUpdatedRecord parseHost getAll estimate now st tabId changeInfoUrl tab).recordCalls := by
  unfold onUpdatedRecord
  cases navigationUrl changeInfoUrl tab with
  | none => simp [applyRecordCalls]
  | some url =>
    by_cases hg : (decide (url = "") || !isHttpUrl url) = true
    · simp [hg, applyRecordCalls]
    · cases hh : parseHost url with
      | none => simp [hg, hh, applyRecordCalls]
      | some hostname => simp [hg, hh]

/-- Every delta the navigation listener passes to `recordSiteStat` is
strictly positive. -/
theorem onUpdatedRecord_deltas_pos {α : Type} [LinearOrderedField α]
    (parseHost : String → Option String) (getAll : String → List Cookie) (estimate : Option α)
    (now : α) (st : NavState α) (tabId : Nat) (changeInfoUrl : Option String)
    (tab : Option TabInfo) :
    ∀ c ∈ (onUpdatedRecord parseHost getAll estimate now st tabId changeInfoUrl tab).recordCalls,
      0 < c.delta := by
  unfold onUpdatedRecord
  cases navigationUrl changeInfoUrl tab with
  | none => simp
  | some url =>
    by_cases hg : (decide (url = "") || !isHttpUrl url) = true
    · simp [hg]
    · cases hh : parseHost url with
      | none => simp [hg, hh]
      | some hostname =>
        simp only [hg, hh, if_false]
        intro c hc
        rcases List.mem_append.mp hc with h | h
        · split_ifs at h with hpos
          · simp only [List.mem_singleton] at h
            rw [h]
            exact hpos
          · simp at h
        · cases estimate with
          | none => simp at h
          | some pendingMB =>
            simp only at h
            split_ifs at h with hpos
            · simp only [List.mem_singleton] at h
              rw [h]
              exact hpos
            · simp at h

/-- The auto-delete listener calls `recordSiteStat` only for the key `cookies`
and only with the negated number of deleted cookies. -/
theorem autoDeleteRecordCalls_nonpos {α : Type} [LinearOrderedField α]
    (parseHost : String → Option String) (getAll : String → List Cookie)
    (catMap : List (String × String)) (removeOk : Cookie → Bool) (s : Store)
    (changeInfoUrl : Option String) (tab : Option TabInfo) :
    ∀ c ∈ (autoDeleteRecordCalls parseHost getAll catMap removeOk s changeInfoUrl tab :
        List (RecordCall α)),
      c.key = StatKey.cookies ∧ c.delta ≤ 0 ∧
      ∃ batch, (onUpdatedAutoDelete parseHost getAll catMap s changeInfoUrl tab).cookieBatch
          = some batch ∧ c.delta = -((batch.filter removeOk).length : α) := by
  intro c hc
  unfold autoDeleteRecordCalls at hc
  split at hc
  · rename_i batch hostname hb _
    simp only [List.mem_singleton] at hc
    rw [hc]
    refine ⟨rfl, ?_, batch, hb, by simp⟩
    simp
  · simp at hc

/-- Whenever the auto-delete listener builds a deletion batch, the navigation
URL has a hostname and the listener makes exactly one `recordSiteStat` call:
for that hostname, the key `cookies` and the negated number of deleted
cookies. -/
theorem autoDeleteRecordCalls_of_batch (α : Type) [LinearOrderedField α]
    (parseHost : String → Option String) (getAll : String → List Cookie)
    (catMap : List (String × String)) (removeOk : Cookie → Bool) (s : Store)
    (changeInfoUrl : Option String) (tab : Option TabInfo) (batch : List Cookie)
    (hb : (onUpdatedAutoDelete parseHost getAll catMap s changeInfoUrl tab).cookieBatch
      = some batch) :
    ∃ hostname, (navigationUrl changeInfoUrl tab).bind parseHost = some hostname ∧
      (autoDeleteRecordCalls parseHost getAll catMap removeOk s changeInfoUrl tab :
        List (RecordCall α))
        = [⟨hostname, StatKey.cookies, -((batch.filter removeOk).length : α)⟩] := by
  have hhost : ∃ hostname, (navigationUrl changeInfoUrl tab).bind parseHost = some hostname := by
    unfold onUpdatedAutoDelete at hb
    split at hb
    · rename_i url t hurl
      by_cases hg : (decide (url = "") || !isHttpUrl url || !t.active) = true
      · simp [hg] at hb
      · cases hh : parseHost url with
        | none => simp [hg, hh] at hb
        | some hostname => exact ⟨hostname, by rw [hurl]; exact hh⟩
    · simp at hb
  obtain ⟨hostname, hh⟩ := hhost
  refine ⟨hostname, hh, ?_⟩
  simp only [autoDeleteRecordCalls, hb, hh, mul_neg, mul_one]

/-- C19, amended: the navigation listener passes only strictly positive deltas
to `recordSiteStat`, so after it no stored total of any site is below its
value before; the auto-delete listener passes, for the key `cookies` only, the
negated number of deleted cookies (a delta that is never positive), and it
makes exactly that one call whenever it builds a deletion batch, so that the
stored `cookies` total of the hostname after both listeners is the total after
the first listener minus the number of deleted cookies; after both listeners
the `cache` total of every site is at least its value before. -/
theorem navigation_record_deltas {α : Type} [LinearOrderedField α]
    (parseHost : String → Option String) (getAll : String → List Cookie)
    (catMap : List (String × String)) (removeOk : Cookie → Bool) (estimate : Option α)
    (now : α) (st : NavState α) (tabId : Nat) (changeInfoUrl : Option String)
    (tab : Option TabInfo) :
    (∀ c ∈ (onUpdatedRecord parseHost getAll estimate now st tabId changeInfoUrl tab).recordCalls,
      0 < c.delta) ∧
    (∀ h k, statTotal st.siteStats h k
      ≤ statTotal (onUpdatedRecord parseHost getAll estimate now st tabId changeInfoUrl
          tab).state.siteStats h k) ∧
    (∀ s : Store, ∀ c ∈ (autoDeleteRecordCalls parseHost getAll catMap removeOk s changeInfoUrl
        tab : List (RecordCall α)),
      c.key = StatKey.cookies ∧ c.delta ≤ 0 ∧
      ∃ batch, (onUpdatedAutoDelete parseHost getAll catMap s changeInfoUrl tab).cookieBatch
          = some batch ∧ c.delta = -((batch.filter removeOk).length : α)) ∧
    (∀ s : Store, ∀ batch : List Cookie,
      (onUpdatedAutoDelete parseHost getAll catMap s changeInfoUrl tab).cookieBatch = some batch →
      ∃ hostname, (navigationUrl changeInfoUrl tab).bind parseHost = some hostname ∧
        (autoDeleteRecordCalls parseHost getAll catMap removeOk s changeInfoUrl tab :
          List (RecordCall α))
          = [⟨hostname, StatKey.cookies, -((batch.filter removeOk).length : α)⟩]) ∧
    (∀ batch : List Cookie,
      (onUpdatedAutoDelete parseHost getAll catMap
        (onUpdatedRecord parseHost getAll estimate now st tabId changeInfoUrl tab).state.store
        changeInfoUrl tab).cookieBatch = some batch →
      ∃ hostname, (navigationUrl changeInfoUrl tab).bind parseHost = some hostname ∧
        statTotal (navigate parseHost getAll catMap removeOk estimate now st tabId changeInfoUrl
            tab).siteStats hostname StatKey.cookies
          = statTotal (onUpdatedRecord parseHost getAll estimate now st tabId changeInfoUrl
              tab).state.siteStats hostname StatKey.cookies
            - ((batch.filter removeOk).length : α)) ∧
    (∀ h, statTotal st.siteStats h StatKey.cache
      ≤ statTotal (navigate parseHost getAll catMap removeOk estimate now st tabId changeInfoUrl
          tab).siteStats h StatKey.cache) := by
  have hpos := onUpdatedRecord_deltas_pos parseHost getAll estimate now st tabId changeInfoUrl tab
  have hmono : ∀ h k, statTotal st.siteStats h k
      ≤ statTotal (onUpdatedRecord parseHost getAll estimate now st tabId changeInfoUrl
          tab).state.siteStats h k := by
    intro h k
    rw [onUpdatedRecord_siteStats, statTotal_applyRecordCalls]
    apply le_add_of_nonneg_right
    apply List.sum_nonneg
    intro x hx
    obtain ⟨c, hc, rfl⟩ := List.mem_map.mp hx
    split_ifs
    · exact (hpos c hc).le
    · exact le_rfl
  refine ⟨hpos, hmono, ?_, ?_, ?_, ?_⟩
  · intro s
    exact autoDeleteRecordCalls_nonpos parseHost getAll catMap removeOk s changeInfoUrl tab
  · intro s batch hb
    exact autoDeleteRecordCalls_of_batch α parseHost getAll catMap removeOk s changeInfoUrl tab
      batch hb
  · intro batch hb
    obtain ⟨hostname, hh, hcalls⟩ := autoDeleteRecordCalls_of_batch α parseHost getAll
      catMap removeOk _ changeInfoUrl tab batch hb
    refine ⟨hostname, hh, ?_⟩
    simp only [navigate]
    rw [statTotal_applyRecordCalls, hcalls]
    simp [sub_eq_add_neg]
  · intro h
    have hcalls : ∀ x ∈ (autoDeleteRecordCalls parseHost getAll catMap removeOk
        (onUpdatedRecord parseHost getAll estimate now st tabId changeInfoUrl tab).state.store
        changeInfoUrl tab : List (RecordCall α)).map
          (fun c => if h = c.hostname ∧ StatKey.cache = c.key then c.delta else 0), x = 0 := by
      intro x hx
      obtain ⟨c, hc, rfl⟩ := List.mem_map.mp hx
      have hk := (autoDeleteRecordCalls_nonpos parseHost getAll catMap removeOk _ changeInfoUrl
        tab c hc).1
      simp [hk]
    have hsum := List.sum_eq_zero hcalls
    simp only [navigate]
    rw [statTotal_applyRecordCalls, hsum, add_zero]
    exact hmono h StatKey.cache

/-- Witness for C19: on a visit of `https://shop.example/cart` with
auto-deletion on, the auto-delete listener builds the batch of the two
deletable cookies and makes the one call `recordSiteStat('shop.example',
'cookies', -2)`. -/
theorem navigation_record_deltas_witness :
    (onUpdatedAutoDelete simpleUrlHostname shopGetAll defaultCookieCategoryMap
      shopManualStore (some "https://shop.example/cart") (some ⟨none, true⟩)).cookieBatch
        = some [⟨"shop.example", "keep", true, "/"⟩, ⟨".shop.example", "promo", false, "/"⟩] ∧
    ∃ hostname, (navigationUrl (some "https://shop.example/cart") (some ⟨none, true⟩)).bind
        simpleUrlHostname = some hostname ∧
      (autoDeleteRecordCalls simpleUrlHostname shopGetAll defaultCookieCategoryMap
        (fun _ => true) shopManualStore (some "https://shop.example/cart")
        (some ⟨none, true⟩) : List (RecordCall ℚ))
        = [⟨hostname, StatKey.cookies,
            -((([⟨"shop.example", "keep", true, "/"⟩, ⟨".shop.example", "promo", false, "/"⟩] :
                List Cookie).filter (fun _ => true)).length : ℚ)⟩] :=
  ⟨by decide,
    (navigation_record_deltas simpleUrlHostname shopGetAll defaultCookieCategoryMap
      (fun _ => true) (none : Option ℚ) (1000 : ℚ) (freshNavState ℚ shopManualStore) 7
      (some "https://shop.example/cart") (some ⟨none, true⟩)).2.2.2.1 shopManualStore _
      (by decide)⟩

/-- The total of a site after one navigation handled by both listeners: the
total before, plus the deltas of the navigation listener, plus the deltas of
the auto-delete listener. -/
theorem statTotal_navigate {α : Type} [LinearOrderedField α]
    (parseHost : String → Option String) (getAll : String → List Cookie)
    (catMap : List (String × String)) (removeOk : Cookie → Bool) (estimate : Option α)
    (now : α) (st : NavState α) (tabId : Nat) (changeInfoUrl : Option String)
    (tab : Option TabInfo) (h : String) (k : StatKey) :
    statTotal (navigate parseHost getAll catMap removeOk estimate now st tabId changeInfoUrl
        tab).siteStats h k
      = statTotal st.siteStats h k
        + ((onUpdatedRecord parseHost getAll estimate now st tabId changeInfoUrl tab).recordCalls.map
            (fun c => if h = c.hostname ∧ k = c.key then c.delta else 0)).sum
        + ((autoDeleteRecordCalls parseHost getAll catMap removeOk
            (onUpdatedRecord parseHost getAll estimate now st tabId changeInfoUrl tab).state.store
            changeInfoUrl tab : List (RecordCall α)).map
            (fun c => if h = c.hostname ∧ k = c.key then c.delta else 0)).sum := by
  simp only [navigate]
  rw [statTotal_applyRecordCalls, onUpdatedRecord_siteStats, statTotal_applyRecordCalls]

/-- Counterexample to C19 as stated: from a fresh background script, two
visits of `https://shop.example/cart` with auto-deletion on.  The auto-delete
listener passes the delta `-2` to `recordSiteStat`; after the first visit the
stored cookie total of the site is `3 - 2 = 1`; on the second visit the cookie
count equals the remembered one, so nothing positive is recorded, and the
total falls from `1` to `-1`. -/
theorem navigation_negative_delta_counterexample :
    ((autoDeleteRecordCalls simpleUrlHostname shopGetAll defaultCookieCategoryMap
        (fun _ => true) shopManualStore (some "https://shop.example/cart")
        (some ⟨none, true⟩) : List (RecordCall ℚ)).map (fun c => c.delta)) = [-2] ∧
    statTotal (shopVisit 1000 (freshNavState ℚ shopManualStore)).siteStats "shop.example"
      StatKey.cookies = 1 ∧
    statTotal (shopVisit 2000 (shopVisit 1000 (freshNavState ℚ shopManualStore))).siteStats
      "shop.example" StatKey.cookies = -1 := by
  have hurl : navigationUrl (some "https://shop.example/cart") (some ⟨none, true⟩)
      = some "https://shop.example/cart" := by decide
  have hne : "https://shop.example/cart" ≠ "" := by decide
  have hhttp : isHttpUrl "https://shop.example/cart" = true := by decide
  have hhost : simpleUrlHostname "https://shop.example/cart" = some "shop.example" := by decide
  have hlen : (siteCookiesOf (shopGetAll "shop.example") "shop.example").length = 3 := by decide
  have hbind : (navigationUrl (some "https://shop.example/cart") (some ⟨none, true⟩)).bind
      simpleUrlHostname = some "shop.example" := by decide
  have hb0 : (onUpdatedAutoDelete simpleUrlHostname shopGetAll defaultCookieCategoryMap
      shopManualStore (some "https://shop.example/cart") (some ⟨none, true⟩)).cookieBatch
        = some [⟨"shop.example", "keep", true, "/"⟩, ⟨".shop.example", "promo", false, "/"⟩] := by
    decide
  have hb1 : (onUpdatedAutoDelete simpleUrlHostname shopGetAll defaultCookieCategoryMap
      (onUpdatedRecord simpleUrlHostname shopGetAll none (1000 : ℚ)
        (freshNavState ℚ shopManualStore) 7 (some "https://shop.example/cart")
        (some ⟨none, true⟩)).state.store
      (some "https://shop.example/cart") (some ⟨none, true⟩)).cookieBatch
        = some [⟨"shop.example", "keep", true, "/"⟩, ⟨".shop.example", "promo", false, "/"⟩] := by
    decide
  have hb2 : (onUpdatedAutoDelete simpleUrlHostname shopGetAll defaultCookieCategoryMap
      (onUpdatedRecord simpleUrlHostname shopGetAll none (2000 : ℚ)
        (shopVisit 1000 (freshNavState ℚ shopManualStore)) 7 (some "https://shop.example/cart")
        (some ⟨none, true⟩)).state.store
      (some "https://shop.example/cart") (some ⟨none, true⟩)).cookieBatch
        = some [⟨"shop.example", "keep", true, "/"⟩, ⟨".shop.example", "promo", false, "/"⟩] := by
    decide
  have hl0 : ((freshNavState ℚ shopManualStore).lastCookieCount.lookup "shop.example").getD 0
      = 0 := by decide
  have hl1 : ((shopVisit 1000 (freshNavState ℚ shopManualStore)).lastCookieCount.lookup
      "shop.example").getD 0 = 3 := by decide
  have hs0 : statTotal (freshNavState ℚ shopManualStore).siteStats "shop.example"
      StatKey.cookies = 0 := by
    simp [statTotal, freshNavState, List.lookup]
  have hv1 : statTotal (shopVisit 1000 (freshNavState ℚ shopManualStore)).siteStats
      "shop.example" StatKey.cookies = 1 := by
    rw [shopVisit, statTotal_navigate, hs0,
      (onUpdatedRecord_recordCalls simpleUrlHostname shopGetAll none (1000 : ℚ) _ 7 _ _ _ _
        hurl hne hhttp hhost).1]
    simp only [autoDeleteRecordCalls, hb1, hbind, hlen, hl0]
    norm_num
  refine ⟨?_, hv1, ?_⟩
  · simp only [autoDeleteRecordCalls, hb0, hbind]
    norm_num
  · rw [shopVisit, statTotal_navigate, hv1,
      (onUpdatedRecord_recordCalls simpleUrlHostname shopGetAll none (2000 : ℚ) _ 7 _ _ _ _
        hurl hne hhttp hhost).1]
    simp only [autoDeleteRecordCalls, hb2, hbind, hlen, hl1]
    norm_num

/-! ### Tab removal under the profile paranoid -/

/-- The profile resolved when `paranoid` is the active profile. -/
theorem resolveProfile_paranoid (s : Store) (h : s.activeProfile = some "paranoid") :
    resolveProfile s = ⟨true, true, true, true, true⟩ := by
  have hk : getActiveProfile s = "paranoid" := by
    simp [getActiveProfile, h]
  have hne : ("paranoid" = "custom_pro") = False := by decide
  have hl : (profiles.lookup "paranoid").getD emptyProfile = ⟨true, true, true, true, true⟩ := by
    decide
  simp only [resolveProfile, hk, hne, if_false, hl]

/-- C20: on removal of a tab whose recorded URL has an `.onion` hostname that
is neither cookie-whitelisted (`shouldSkipCookieCleanup`) nor trusted, with
cleanup not paused and `paranoid` the active profile, the listener requests
script injection with the three storage facets true, builds the deletion batch
of exactly the site cookies that are neither whitelisted nor `necessary`, and
requests cache clearing for the origins `https://hostname` and
`http://hostname`. -/
theorem onRemoved_paranoid_onion (parseHost : String → Option String)
    (getAll : String → List Cookie) (catMap : List (String × String)) (s : Store) (tabId : Nat)
    (url hostname : String)
    (hpause : s.pauseCleanup = false) (hurl : s.tabUrls.lookup tabId = some url)
    (hne : url ≠ "") (hhost : parseHost url = some hostname)
    (honion : endsWith hostname ".onion" = true)
    (hprof : s.activeProfile = some "paranoid")
    (hwl : shouldSkipCookieCleanup s hostname = false)
    (htrust : shouldSkipCacheCleanup s hostname = false) :
    (onRemoved parseHost getAll catMap s tabId).injection = some ⟨true, true, true⟩ ∧
    (∃ batch, (onRemoved parseHost getAll catMap s tabId).cookieBatch = some batch ∧
      ∀ c, c ∈ batch ↔ (c ∈ getAll hostname ∧ stripDot c.domain = hostname) ∧
        stripDot c.domain ++ "|" ++ c.name ∉ s.cookieWhitelist ∧
        getCookieCategory catMap c.name ≠ "necessary") ∧
    (onRemoved parseHost getAll catMap s tabId).cacheOrigins
      = some ["https://" ++ hostname, "http://" ++ hostname] := by
  have _ := honion
  have hp := resolveProfile_paranoid s hprof
  refine ⟨?_, ⟨toDelete catMap s.cookieWhitelist (siteCookiesOf (getAll hostname) hostname), ?_, ?_⟩,
    ?_⟩
  · simp [onRemoved, hpause, hurl, hne, hhost, hwl, htrust, hp]
  · simp [onRemoved, hpause, hurl, hne, hhost, hwl, htrust, hp]
  · intro c
    simp only [toDelete, siteCookiesOf, List.mem_filter, beq_iff_eq, Bool.and_eq_true,
      Bool.not_eq_true', bne_iff_ne, ne_eq]
    constructor
    · rintro ⟨h1, h2, h3⟩
      refine ⟨h1, ?_, h3⟩
      intro hmem
      have hc : s.cookieWhitelist.contains (stripDot c.domain ++ "|" ++ c.name) = true :=
        List.elem_eq_true_of_mem hmem
      rw [h2] at hc
      exact Bool.false_ne_true hc
    · rintro ⟨h1, h2, h3⟩
      refine ⟨h1, ?_, h3⟩
      cases hc : s.cookieWhitelist.contains (stripDot c.domain ++ "|" ++ c.name) with
      | false => rfl
      | true => exact absurd (by simpa using hc) h2
  · simp [onRemoved, hpause, hurl, hne, hhost, hwl, htrust, hp]

/-- Witness for C20: tab 7 of `onionStore` is removed; the cookie `theme` is
deleted, the session cookie `sid` is kept. -/
theorem onRemoved_paranoid_onion_witness :
    onionStore.pauseCleanup = false ∧
    onionStore.tabUrls.lookup 7 = some "http://abcdefgh.onion/inbox" ∧
    simpleUrlHostname "http://abcdefgh.onion/inbox" = some "abcdefgh.onion" ∧
    endsWith "abcdefgh.onion" ".onion" = true ∧
    shouldSkipCookieCleanup onionStore "abcdefgh.onion" = false ∧
    shouldSkipCacheCleanup onionStore "abcdefgh.onion" = false ∧
    (onRemoved simpleUrlHostname onionGetAll defaultCookieCategoryMap onionStore 7).cookieBatch
      = some [⟨"abcdefgh.onion", "theme", false, "/"⟩] ∧
    (onRemoved simpleUrlHostname onionGetAll defaultCookieCategoryMap onionStore 7).injection
      = some ⟨true, true, true⟩ ∧
    (onRemoved simpleUrlHostname onionGetAll defaultCookieCategoryMap onionStore 7).cacheOrigins
      = some ["https://" ++ "abcdefgh.onion", "http://" ++ "abcdefgh.onion"] :=
  have h := onRemoved_paranoid_onion simpleUrlHostname onionGetAll defaultCookieCategoryMap
    onionStore 7 "http://abcdefgh.onion/inbox" "abcdefgh.onion" (by decide) (by decide)
    (by decide) (by decide) (by decide) (by decide) (by decide) (by decide)
  ⟨by decide, by decide, by decide, by decide, by decide, by decide, by decide, h.1, h.2.2⟩

/-! ### Score publication -/

/-- The single-slot shape, spelled out. -/
theorem singleSlot_iff (rt : BadgeRuntime) :
    singleSlot rt = true ↔
      rt.nextTimerId ≠ 0 ∧
        ((rt.badgeDebounceTimer = none ∧ rt.timers = []) ∨
          ∃ id due, id ≠ 0 ∧ rt.badgeDebounceTimer = some id ∧ rt.timers = [(id, due)]) := by
  unfold singleSlot
  cases hb : rt.badgeDebounceTimer with
  | none => simp [List.isEmpty_iff]
  | some id =>
    simp only [Bool.and_eq_true, bne_iff_ne, ne_eq, beq_iff_eq, Option.some.injEq, false_and,
      false_or, reduceCtorEq]
    constructor
    · rintro ⟨h0, hid, hmap⟩
      refine ⟨h0, id, ?_⟩
      cases ht : rt.timers with
      | nil => simp [ht] at hmap
      | cons e rest =>
        cases rest with
        | nil =>
          obtain ⟨i, d⟩ := e
          simp only [ht, List.map_cons, List.map_nil, List.cons.injEq, and_true] at hmap
          exact ⟨d, hid, rfl, by rw [hmap]⟩
        | cons e2 rest2 => simp [ht] at hmap
    · rintro ⟨h0, id', due, hid, hid', ht⟩
      subst hid'
      exact ⟨h0, hid, by simp [ht]⟩

/-- With nothing pending the event loop has nothing to run. -/
theorem runDue_nil (t : Nat) (rt : BadgeRuntime) (h : rt.timers = []) : runDue t rt = rt := by
  simp [runDue, h]

/-- A single pending timeout that is not yet due stays pending. -/
theorem runDue_single_early (t id due : Nat) (rt : BadgeRuntime) (h : rt.timers = [(id, due)])
    (hlt : t < due) : runDue t rt = rt := by
  have : ¬ due ≤ t := by omega
  simp [runDue, h, this]

/-- A single pending timeout that is due runs: one publish at its due time,
nothing pending afterwards. -/
theorem runDue_single_due (t id due : Nat) (rt : BadgeRuntime) (h : rt.timers = [(id, due)])
    (hle : due ≤ t) :
    runDue t rt = ⟨none, [], rt.nextTimerId, rt.publishes ++ [due]⟩ := by
  simp [runDue, h, hle, fireTimer, clearTimeout]

/-- In the single-slot shape a call of `updatePrivacyBadge` leaves exactly the
new timeout pending, due 250 ms later. -/
theorem updatePrivacyBadge_of_singleSlot (t : Nat) (rt : BadgeRuntime)
    (h : singleSlot rt = true) :
    updatePrivacyBadge t rt
      = ⟨some rt.nextTimerId, [(rt.nextTimerId, t + 250)], rt.nextTimerId + 1, rt.publishes⟩ := by
  obtain ⟨_, h | ⟨id, due, hid, hb, ht⟩⟩ := (singleSlot_iff rt).mp h
  · simp [updatePrivacyBadge, h.1, h.2]
  · simp [updatePrivacyBadge, hb, ht, hid, clearTimeout]

/-- Every event keeps the single-slot shape. -/
theorem singleSlot_stepBadge (rt : BadgeRuntime) (e : BadgeEvent) (h : singleSlot rt = true) :
    singleSlot (stepBadge rt e) = true := by
  have h0 := ((singleSlot_iff rt).mp h).1
  cases e with
  | trigger t =>
    simp only [stepBadge, updatePrivacyBadge_of_singleSlot t rt h]
    rw [singleSlot_iff]
    exact ⟨by simp, Or.inr ⟨rt.nextTimerId, t + 250, h0, rfl, rfl⟩⟩
  | advance t =>
    obtain ⟨_, hn | ⟨id, due, hid, hb, ht⟩⟩ := (singleSlot_iff rt).mp h
    · simp only [stepBadge, runDue_nil t rt hn.2, h]
    · by_cases hd : due ≤ t
      · simp only [stepBadge, runDue_single_due t id due rt ht hd]
        rw [singleSlot_iff]
        exact ⟨h0, Or.inl ⟨rfl, rfl⟩⟩
      · simp only [stepBadge, runDue_single_early t id due rt ht (by omega), h]

/-- The single-slot shape holds after every sequence of events. -/
theorem singleSlot_runEvents (events : List BadgeEvent) (rt : BadgeRuntime)
    (h : singleSlot rt = true) : singleSlot (runEvents events rt) = true := by
  induction events generalizing rt with
  | nil => exact h
  | cons e es ih => exact ih (stepBadge rt e) (singleSlot_stepBadge rt e h)

/-- In the single-slot shape at most one timeout is pending. -/
theorem length_timers_of_singleSlot (rt : BadgeRuntime) (h : singleSlot rt = true) :
    rt.timers.length ≤ 1 := by
  obtain ⟨_, hn | ⟨id, due, _, _, ht⟩⟩ := (singleSlot_iff rt).mp h
  · simp [hn.2]
  · simp [ht]

/-- Closely spaced triggers after a trigger at time `t`: the pending timeout is
always the one of the latest trigger, and nothing is published on the way. -/
theorem runTriggers_closelySpaced (times : List Nat) (t : Nat) (rt : BadgeRuntime)
    (hslot : singleSlot rt = true) (hpending : rt.timers.map Prod.snd = [t + 250])
    (hclose : closelySpaced (t :: times) = true) :
    singleSlot (runTriggers times rt) = true ∧
    (runTriggers times rt).timers.map Prod.snd = [lastTime t times + 250] ∧
    (runTriggers times rt).publishes = rt.publishes := by
  induction times generalizing t rt with
  | nil => exact ⟨hslot, by simpa using hpending, rfl⟩
  | cons b rest ih =>
    simp only [closelySpaced, Bool.and_eq_true, decide_eq_true_eq] at hclose
    obtain ⟨⟨hab, hlt⟩, hrest⟩ := hclose
    obtain ⟨_, hn | ⟨id, due, hid, hb, ht⟩⟩ := (singleSlot_iff rt).mp hslot
    · rw [hn.2] at hpending
      simp at hpending
    · have hdue : due = t + 250 := by
        rw [ht] at hpending
        simpa using hpending
      have hearly : runDue b rt = rt := runDue_single_early b id due rt ht (by omega)
      have hstep := updatePrivacyBadge_of_singleSlot b rt hslot
      have hslot' : singleSlot (updatePrivacyBadge b rt) = true :=
        singleSlot_stepBadge rt (.trigger b) hslot
      have := ih b (updatePrivacyBadge b rt) hslot' (by rw [hstep]; rfl) hrest
      simp only [runTriggers, List.foldl_cons, hearly] at this ⊢
      refine ⟨this.1, ?_, ?_⟩
      · rw [this.2.1]
        rfl
      · rw [this.2.2, hstep]

/-- The function `lastTime` gives the last element of the trigger list. -/
theorem getLast?_cons_eq_lastTime (t : Nat) (times : List Nat) :
    (t :: times).getLast? = some (lastTime t times) := by
  induction times generalizing t with
  | nil => rfl
  | cons b rest ih =>
    rw [List.getLast?_cons_cons, ih b]
    rfl

/-- C21: the debounce has a single pending-timer slot.  After every sequence
of calls and timer runs the variable and the pending timeouts are in the
single-slot shape, so at most one publish timer is pending; each call of
`updatePrivacyBadge` leaves exactly one timeout pending, the new one, due
250 ms after the call; and `n ≥ 1` calls at times `first :: rest`, in order
and each less than 250 ms after the one before, lead to no publish before
250 ms after the last call and to exactly one publish at that time, after
which nothing is pending. -/
theorem updatePrivacyBadge_debounce (first : Nat) (rest : List Nat)
    (hclose : closelySpaced (first :: rest) = true) :
    (∀ events : List BadgeEvent,
      singleSlot (runEvents events freshBadgeRuntime) = true ∧
      (runEvents events freshBadgeRuntime).timers.length ≤ 1) ∧
    (∀ (events : List BadgeEvent) (t : Nat),
      (updatePrivacyBadge t (runEvents events freshBadgeRuntime)).timers
        = [((runEvents events freshBadgeRuntime).nextTimerId, t + 250)]) ∧
    (first :: rest).getLast? = some (lastTime first rest) ∧
    (∀ horizon, horizon < lastTime first rest + 250 →
      (runDue horizon (runTriggers (first :: rest) freshBadgeRuntime)).publishes = []) ∧
    (∀ horizon, lastTime first rest + 250 ≤ horizon →
      (runDue horizon (runTriggers (first :: rest) freshBadgeRuntime)).publishes
        = [lastTime first rest + 250] ∧
      (runDue horizon (runTriggers (first :: rest) freshBadgeRuntime)).timers = [] ∧
      (runDue horizon (runTriggers (first :: rest) freshBadgeRuntime)).badgeDebounceTimer
        = none) := by
  have hfresh : singleSlot freshBadgeRuntime = true := by decide
  have hfirst : runTriggers (first :: rest) freshBadgeRuntime
      = runTriggers rest (updatePrivacyBadge first freshBadgeRuntime) := by
    simp only [runTriggers, List.foldl_cons, runDue_nil first freshBadgeRuntime rfl]
  have hs1 : singleSlot (updatePrivacyBadge first freshBadgeRuntime) = true :=
    singleSlot_stepBadge freshBadgeRuntime (.trigger first) hfresh
  obtain ⟨hslot, hpend, hpub⟩ := runTriggers_closelySpaced rest first
    (updatePrivacyBadge first freshBadgeRuntime) hs1
    (by rw [updatePrivacyBadge_of_singleSlot first _ hfresh]; rfl) hclose
  have hpub0 : (runTriggers (first :: rest) freshBadgeRuntime).publishes = [] := by
    rw [hfirst, hpub, updatePrivacyBadge_of_singleSlot first _ hfresh]
    rfl
  rw [← hfirst] at hslot hpend
  obtain ⟨_, hn | ⟨id, due, hid, hb, ht⟩⟩ := (singleSlot_iff _).mp hslot
  · rw [hn.2] at hpend
    simp at hpend
  · have hdue : due = lastTime first rest + 250 := by
      rw [ht] at hpend
      simpa using hpend
    refine ⟨?_, ?_, getLast?_cons_eq_lastTime first rest, ?_, ?_⟩
    · intro events
      have h := singleSlot_runEvents events freshBadgeRuntime hfresh
      exact ⟨h, length_timers_of_singleSlot _ h⟩
    · intro events t
      rw [updatePrivacyBadge_of_singleSlot t _
        (singleSlot_runEvents events freshBadgeRuntime hfresh)]
    · intro horizon hlt
      rw [runDue_single_early horizon id due _ ht (by omega), hpub0]
    · intro horizon hle
      rw [runDue_single_due horizon id due _ ht (by omega), hpub0, hdue]
      exact ⟨rfl, rfl, rfl⟩

/-- Witness for C21: ten calls within 50 ms, at 0, 5, ..., 45 ms, lead to one
publish, at 295 ms. -/
theorem updatePrivacyBadge_debounce_witness :
    closelySpaced tenTriggers = true ∧
    (runDue 294 (runTriggers tenTriggers freshBadgeRuntime)).publishes = [] ∧
    (runDue 1000 (runTriggers tenTriggers freshBadgeRuntime)).publishes = [295] :=
  have h := updatePrivacyBadge_debounce 0 [5, 10, 15, 20, 25, 30, 35, 40, 45] (by decide)
  ⟨by decide, h.2.2.2.1 294 (by decide), (h.2.2.2.2 1000 (by decide)).1⟩

/-- Two calls 300 ms apart are not debounced: each leads to its own publish. -/
theorem updatePrivacyBadge_spaced_example :
    (runDue 1000 (runTriggers [0, 300] freshBadgeRuntime)).publishes = [250, 550] := by
  decide

/-- A score strictly between 90 and 90.5 rounds to 90. -/
theorem mathRound_eq_ninety {α : Type} [LinearOrderedField α] [FloorRing α] (x : α)
    (h1 : 90 < x) (h2 : x < 90.5) : mathRound x = 90 := by
  unfold mathRound
  rw [Int.floor_eq_iff]
  constructor
  · push_cast
    linarith
  · push_cast
    norm_num at h2 ⊢
    linarith

/-- With `manyCookiesStats` at time 1000 the score is 90.2. -/
theorem currentScore_manyCookies : currentScore Real.exp manyCookiesStats 1000 = 90.2 := by
  have hls : lastSeenOf (⟨196, 0, 0, 0, 1000, 0⟩ : SiteStat ℝ) = 1000 := by
    simp [lastSeenOf]
  have hw : decayWeight Real.exp 1000 DEFAULT_HALF_LIFE_MS (1000 : ℝ) = 1 := by
    simp [decayWeight]
  simp only [currentScore, manyCookiesStats, computeAggregateStats, List.map_cons, List.map_nil,
    List.foldl_cons, List.foldl_nil, aggregateStep, hls, hw, AggregateStats.toInput,
    gradeFromStats, Option.getD_some]
  norm_num

/-- C22: in the published `privacyScoreUpdated` payload and in the
`getPrivacyScore` response the letter is computed from the unrounded score
while `rawScore` is that score rounded to the nearest integer; whenever the
score lies strictly between 90 and 90.5 the payload carries `rawScore = 90`
together with the letter `A+`, although `letterFromScore(90)` is `A`; this
happens for the site statistics `manyCookiesStats` (one site with 196 cookies,
seen at the time of the computation, score 90.2). -/
theorem payload_letter_from_unrounded_score (st : ScoreStore ℝ) (now : ℝ) :
    (privacyScoreUpdated Real.exp st now).letter
      = letterFromScore (currentScore Real.exp st.siteStats now) ∧
    (privacyScoreUpdated Real.exp st now).rawScore
      = mathRound (currentScore Real.exp st.siteStats now) ∧
    (getPrivacyScore Real.exp st.siteStats now).letter
      = letterFromScore (currentScore Real.exp st.siteStats now) ∧
    (getPrivacyScore Real.exp st.siteStats now).rawScore
      = mathRound (currentScore Real.exp st.siteStats now) ∧
    (90 < currentScore Real.exp st.siteStats now → currentScore Real.exp st.siteStats now < 90.5 →
      (privacyScoreUpdated Real.exp st now).rawScore = 90 ∧
      (privacyScoreUpdated Real.exp st now).letter = "A+" ∧
      letterFromScore (((privacyScoreUpdated Real.exp st now).rawScore : ℤ) : ℝ) = "A") ∧
    ((privacyScoreUpdated Real.exp ⟨manyCookiesStats, 0, 0, [], []⟩ 1000).rawScore = 90 ∧
      (privacyScoreUpdated Real.exp ⟨manyCookiesStats, 0, 0, [], []⟩ 1000).letter = "A+" ∧
      (getPrivacyScore Real.exp manyCookiesStats 1000).rawScore = 90 ∧
      (getPrivacyScore Real.exp manyCookiesStats 1000).letter = "A+" ∧
      (privacyScoreUpdated Real.exp ⟨manyCookiesStats, 0, 0, [], []⟩ 1000).letter
        ≠ letterFromScore
            (((privacyScoreUpdated Real.exp ⟨manyCookiesStats, 0, 0, [], []⟩ 1000).rawScore : ℤ) : ℝ)) := by
  have hA : letterFromScore (((90 : ℤ) : ℝ)) = "A" := by
    unfold letterFromScore
    rw [if_neg (by norm_num), if_pos (by norm_num)]
  have hgen : ∀ (s : ScoreStore ℝ) (n : ℝ), 90 < currentScore Real.exp s.siteStats n →
      currentScore Real.exp s.siteStats n < 90.5 →
      (privacyScoreUpdated Real.exp s n).rawScore = 90 ∧
      (privacyScoreUpdated Real.exp s n).letter = "A+" ∧
      letterFromScore (((privacyScoreUpdated Real.exp s n).rawScore : ℤ) : ℝ) = "A" := by
    intro s n h1 h2
    have hr : (privacyScoreUpdated Real.exp s n).rawScore = 90 :=
      mathRound_eq_ninety _ h1 h2
    refine ⟨hr, ?_, by rw [hr]; exact hA⟩
    show letterFromScore (currentScore Real.exp s.siteStats n) = "A+"
    unfold letterFromScore
    rw [if_pos h1]
  refine ⟨rfl, rfl, rfl, rfl, hgen st now, ?_⟩
  have h1 : (90 : ℝ) < currentScore Real.exp manyCookiesStats 1000 := by
    rw [currentScore_manyCookies]
    norm_num
  have h2 : currentScore Real.exp manyCookiesStats 1000 < 90.5 := by
    rw [currentScore_manyCookies]
    norm_num
  obtain ⟨hr, hl, hne⟩ := hgen ⟨manyCookiesStats, 0, 0, [], []⟩ 1000 h1 h2
  refine ⟨hr, hl, hr, hl, ?_⟩
  rw [hl, hne]
  decide

end CleanTrail
